import Mathlib

/-! Sparse game-of-life board and evolution kernel.

A shallow embedding of `src/board.c` and `src/life.c`.

Conventions of the embedding.

* `intmax_t` values are integers; an operation that can leave the 64-bit signed
  range is wrapped with `wrap_intmax` (two's complement), and a conversion to
  `size_t` is `to_size` (reduction modulo `2 ^ 64`).
* `size_t` values are naturals; arithmetic that can wrap goes through `wrap_size`.
* A `struct basic_block` is the function giving its rows `values[0] .. values[31]`
  (each a `uint32_t`); rows of index 32 and more are never touched.
* A quadrant buffer `bb_buffer[dir]` is the list of its slots (`none` is the
  `NULL` pointer); `size_bb_buffer[dir]` is the length of that list, which is
  what the C code maintains in the separate field.
* Memory allocation is assumed to succeed, printing is not modelled.
-/

namespace Gol

/-! ## Machine constants and conversions -/

/-- Side of a block: macro `BLOCKSIZE`. -/
def BLOCKSIZE : Nat := 32

/-- Largest `size_t`. -/
def SIZE_MAX : Nat := 2 ^ 64 - 1

/-- Largest `intmax_t`. -/
def INTMAX_MAX : Int := 2 ^ 63 - 1

/-- Smallest `intmax_t`. -/
def INTMAX_MIN : Int := -(2 ^ 63)

/-- Two's complement reduction of an integer to the `intmax_t` range. -/
def wrap_intmax (v : Int) : Int := (v + 2 ^ 63) % 2 ^ 64 - 2 ^ 63

/-- Reduction of a natural to the `size_t` range. -/
def wrap_size (n : Nat) : Nat := n % 2 ^ 64

/-- Conversion `(size_t) v` of a signed value. -/
def to_size (v : Int) : Nat := (v % 2 ^ 64).toNat

/-- Reduction of a natural to the `block_type` (`uint32_t`) range. -/
def wrap_block (n : Nat) : Nat := n % 2 ^ 32

/-- Predicate: the value is representable as `intmax_t`. -/
def fits_intmax (v : Int) : Prop := INTMAX_MIN ≤ v ∧ v ≤ INTMAX_MAX

instance (v : Int) : Decidable (fits_intmax v) := by
  unfold fits_intmax; infer_instance

/-- The integers `lo, lo + 1, .., hi` visited by `for (i = lo; i <= hi; ++i)`
(for `hi` below the largest `intmax_t`, so that the loop exits). -/
def int_range (lo hi : Int) : List Int :=
  (List.range (hi + 1 - lo).toNat).map (fun (k : Nat) => lo + (k : Int))

/-! ## Blocks -/

/-- The `struct basic_block`: row bitmasks `values[y]`. -/
structure basic_block where
  values : Nat → Nat

/-- Function `is_empty_block`: scan the rows while they are zero. -/
def is_empty_block (b : basic_block) : Bool :=
  (List.range BLOCKSIZE).foldl
    (fun continue_search i => if continue_search then b.values i == 0 else continue_search)
    true

/-- Function `read_in_block`: test bit `x` of row `y`. -/
def read_in_block (x y : Nat) (b : basic_block) : Bool :=
  (b.values y &&& wrap_block (1 <<< x)) != 0

/-- Function `write_in_block`: set or clear bit `x` of row `y`. -/
def write_in_block (b : basic_block) (x y : Nat) (value : Bool) : basic_block :=
  if value then
    ⟨fun i => if i = y then b.values y ||| wrap_block (1 <<< x) else b.values i⟩
  else
    ⟨fun i => if i = y then b.values y &&& (wrap_block (1 <<< x) ^^^ (2 ^ 32 - 1))
      else b.values i⟩

/-- Function `get_new_empty_bb`: a block from `calloc`, all rows zero. -/
def get_new_empty_bb : basic_block := ⟨fun _ => 0⟩

/-- The `memcmp` of the rows of two blocks being zero. -/
def memcmp_values_eq (bb1 bb2 : basic_block) : Bool :=
  (List.range BLOCKSIZE).all (fun i => bb1.values i == bb2.values i)

/-- The `memcpy` of the 32 rows of a block into a fresh zero block. -/
def memcpy_values (dst src : basic_block) : basic_block :=
  ⟨fun i => if i < BLOCKSIZE then src.values i else dst.values i⟩

/-! ## Boards -/

/-- The `struct gol_board_bounds`. -/
structure gol_board_bounds where
  upperX : Int
  upperY : Int
  lowerX : Int
  lowerY : Int
deriving DecidableEq, Repr

/-- The `enum gol_rules`. -/
inductive gol_rules where
  | lifeRule
  | highLifeRule
  | unknownRule
deriving DecidableEq, Repr

/-- Number of quadrants, `bb_all_dirs`; the quadrants are `bb_ne = 0`,
`bb_se = 1`, `bb_nw = 2`, `bb_sw = 3`. -/
def bb_all_dirs : Nat := 4

/-- The `struct gol_board`. The buffers of the quadrants are `bb_buffer 0` to
`bb_buffer 3`; the field `size_bb_buffer` is the length of the buffer. -/
structure gol_board where
  bb_buffer : Nat → List (Option basic_block)
  offsetX : Int
  offsetY : Int
  board_bounds : gol_board_bounds
  rule : gol_rules

/-- Field `size_bb_buffer[dir]`. -/
def size_bb_buffer (b : gol_board) (dir : Nat) : Nat := (b.bb_buffer dir).length

/-- The `struct board_position`. -/
structure board_position where
  bbPositionX : Nat
  bbPositionY : Nat
  position_in_bb : Nat
  direction : Nat
deriving DecidableEq, Repr

/-- The statement `if (pos < 0) pos = -(pos + 1);` of
`position_in_board_structure`. -/
def sign_fold (pos : Int) : Int := if pos < 0 then -(pos + 1) else pos

/-- Function `position_in_board_structure`. The sign folding `-(pos + 1)` of a
negative `intmax_t` cannot overflow; the index expression is reduced modulo
`2 ^ 64` by the conversion to `size_t`. -/
def position_in_board_structure (posX posY : Int) : board_position :=
  let foldX : Int := sign_fold posX
  let foldY : Int := sign_fold posY
  let divX : Int := foldX.tdiv 32
  let divY : Int := foldY.tdiv 32
  { bbPositionX := to_size (foldX.tmod 32)
    bbPositionY := to_size (foldY.tmod 32)
    position_in_bb :=
      if foldX < foldY then to_size (divY * divY + divX)
      else to_size (divX * divX + 2 * divX - divY)
    direction := (if posX < 0 then 2 else 0) + (if posY < 0 then 1 else 0) }

/-- Function `read_gol_board`. -/
def read_gol_board (posX posY : Int) (b : gol_board) : Bool :=
  let pos := position_in_board_structure (wrap_intmax (posX + b.offsetX))
    (wrap_intmax (posY + b.offsetY))
  let bb_to_search : Option basic_block :=
    if size_bb_buffer b pos.direction > pos.position_in_bb then
      (b.bb_buffer pos.direction).getD pos.position_in_bb none
    else none
  match bb_to_search with
  | none => false
  | some bb => read_in_block pos.bbPositionX pos.bbPositionY bb

/-- Function `realloc_bb_buffer`: grow the buffer to `new_size` slots, the new
ones zeroed. The code computes the byte counts of `realloc` and `memset` as
`new_size * sizeof(**buffer)` in `size_t`; the list is the buffer of the code
when that product does not wrap (`new_size < 2 ^ 61`), which is what
`write_no_overflow` asks of a write. -/
def realloc_bb_buffer (new_size : Nat) (buffer : List (Option basic_block)) :
    List (Option basic_block) :=
  if new_size > buffer.length then
    buffer ++ List.replicate (new_size - buffer.length) none
  else buffer

/-- Replace the buffer of quadrant `dir`. -/
def set_bb_buffer (b : gol_board) (dir : Nat) (buf : List (Option basic_block)) :
    gol_board :=
  { b with bb_buffer := fun d => if d = dir then buf else b.bb_buffer d }

/-- Function `write_gol_board`. -/
def write_gol_board (posX posY : Int) (val : Bool) (b : gol_board) : gol_board :=
  let pos := position_in_board_structure (wrap_intmax (posX + b.offsetX))
    (wrap_intmax (posY + b.offsetY))
  let buf1 := realloc_bb_buffer (wrap_size (pos.position_in_bb + 1))
    (b.bb_buffer pos.direction)
  let bb : basic_block :=
    match buf1.getD pos.position_in_bb none with
    | none => get_new_empty_bb
    | some bb0 => bb0
  let buf2 := buf1.set pos.position_in_bb
    (some (write_in_block bb pos.bbPositionX pos.bbPositionY val))
  let b1 := set_bb_buffer b pos.direction buf2
  if val then
    { b1 with
      board_bounds :=
        { upperX := max b.board_bounds.upperX posX
          lowerX := min b.board_bounds.lowerX posX
          upperY := max b.board_bounds.upperY posY
          lowerY := min b.board_bounds.lowerY posY } }
  else b1

/-- Function `new_board`: a zeroed structure. -/
def new_board : gol_board :=
  { bb_buffer := fun _ => []
    offsetX := 0
    offsetY := 0
    board_bounds := ⟨0, 0, 0, 0⟩
    rule := gol_rules.lifeRule }

/-- Function `clean_board`: free every block, reset the bounds. -/
def clean_board (b : gol_board) : gol_board :=
  { b with
    bb_buffer := fun i =>
      if i < bb_all_dirs then
        (List.range (size_bb_buffer b i)).foldl (fun buf j => buf.set j none) (b.bb_buffer i)
      else b.bb_buffer i
    board_bounds := ⟨0, 0, 0, 0⟩ }

/-- Function `get_game_bounds`. -/
def get_game_bounds (b : gol_board) : gol_board_bounds := b.board_bounds

/-- Function `set_game_rules`. -/
def set_game_rules (rule : gol_rules) (b : gol_board) : gol_board := { b with rule := rule }

/-- Function `get_game_rules`. -/
def get_game_rules (b : gol_board) : gol_rules := b.rule

/-- Function `set_offset`. -/
def set_offset (offsetX offsetY : Int) (b : gol_board) : gol_board :=
  { b with offsetX := offsetX, offsetY := offsetY }

/-- Function `get_offset`. -/
def get_offset (b : gol_board) : Int × Int := (b.offsetX, b.offsetY)

/-- Comparison of two slots in the fast path of `gol_same_board`. -/
def same_slot (bb1 bb2 : Option basic_block) : Bool :=
  match bb1, bb2 with
  | some b1, none => is_empty_block b1
  | none, some b2 => is_empty_block b2
  | some b1, some b2 => memcmp_values_eq b1 b2
  | none, none => true

/-- Function `gol_same_board`. -/
def gol_same_board (b1 b2 : gol_board) : Bool :=
  let b1bounds := get_game_bounds b1
  let b2bounds := get_game_bounds b2
  if b1bounds.upperX ≠ b2bounds.upperX ∨ b1bounds.lowerX ≠ b2bounds.lowerX ∨
      b1bounds.upperY ≠ b2bounds.upperY ∨ b1bounds.lowerY ≠ b2bounds.lowerY then
    false
  else if b1.offsetX = b2.offsetX ∧ b1.offsetY = b2.offsetY then
    (List.range bb_all_dirs).all (fun i =>
      (List.range (min (size_bb_buffer b1 i) (size_bb_buffer b2 i))).all (fun j =>
        same_slot ((b1.bb_buffer i).getD j none) ((b2.bb_buffer i).getD j none)))
  else
    (int_range b1bounds.lowerX b1bounds.upperX).all (fun i =>
      (int_range b1bounds.lowerY b1bounds.upperY).all (fun j =>
        read_gol_board i j b1 == read_gol_board i j b2))

/-- Inner loop of `gol_copy_board` for one quadrant:
`for (j = size - 1; j < size; --j)`, the counter being a `size_t`. -/
def copy_quadrant_loop (src : List (Option basic_block)) :
    Nat → Nat → List (Option basic_block) → List (Option basic_block)
  | 0, _, dst => dst
  | fuel + 1, j, dst =>
    if j < src.length then
      let dst1 :=
        match src.getD j none with
        | some bb_to_copy =>
          if !is_empty_block bb_to_copy then
            (realloc_bb_buffer (wrap_size (j + 1)) dst).set j
              (some (memcpy_values get_new_empty_bb bb_to_copy))
          else dst
        | none => dst
      copy_quadrant_loop src fuel (wrap_size (j + SIZE_MAX)) dst1
    else dst

/-- Function `gol_copy_board`: the contents of `copy` when the function returns;
`to_copy` is a distinct board, which the function only reads. -/
def gol_copy_board (to_copy copy : gol_board) : gol_board :=
  let c1 := clean_board copy
  let c2 := { c1 with board_bounds := get_game_bounds to_copy }
  let c3 := set_offset to_copy.offsetX to_copy.offsetY c2
  let c4 := set_game_rules (get_game_rules to_copy) c3
  { c4 with
    bb_buffer := fun i =>
      if i < bb_all_dirs then
        copy_quadrant_loop (to_copy.bb_buffer i) (size_bb_buffer to_copy i + 1)
          (wrap_size (size_bb_buffer to_copy i + SIZE_MAX)) (c4.bb_buffer i)
      else c4.bb_buffer i }

/-- Function `gol_swap_board`: returns the new `swap1` and the new `swap2`. -/
def gol_swap_board (swap1 swap2 : gol_board) : gol_board × gol_board :=
  ({ swap1 with
      bb_buffer := fun i => if i < bb_all_dirs then swap2.bb_buffer i else swap1.bb_buffer i
      board_bounds := get_game_bounds swap2
      offsetX := (get_offset swap2).1
      offsetY := (get_offset swap2).2 },
   { swap2 with
      bb_buffer := fun i => if i < bb_all_dirs then swap1.bb_buffer i else swap2.bb_buffer i
      board_bounds := get_game_bounds swap1
      offsetX := (get_offset swap1).1
      offsetY := (get_offset swap1).2 })

/-! ## Evolution kernel (`life.c`) -/

/-- Function `is_alive_life`. -/
def is_alive_life (previous_state : Bool) (num_alive : Nat) : Bool :=
  match num_alive with
  | 3 => true
  | 2 => previous_state
  | _ => false

/-- Function `is_alive_hilife`. -/
def is_alive_hilife (previous_state : Bool) (num_alive : Nat) : Bool :=
  match num_alive with
  | 3 => true
  | 6 => true
  | 2 => previous_state
  | _ => false

/-- The value `num_alive` handed to the rule for cell `(i, j)`: seeded with
`SIZE_MAX` for a live cell, then one increment per live cell of the 3x3 window,
in `size_t` arithmetic. -/
def num_alive_at (i j : Int) (previous : gol_board) : Nat :=
  (int_range (wrap_intmax (i - 1)) (wrap_intmax (i + 1))).foldl
    (fun acc k =>
      (int_range (wrap_intmax (j - 1)) (wrap_intmax (j + 1))).foldl
        (fun acc1 l => wrap_size (acc1 + (if read_gol_board k l previous then 1 else 0)))
        acc)
    (if read_gol_board i j previous then SIZE_MAX else 0)

/-- Body of the two loops of `get_next_generation` for the cell `(i, j)`. -/
def next_generation_cell (previous : gol_board) (new_state : Bool → Nat → Bool)
    (next : gol_board) (i j : Int) : gol_board :=
  let val := read_gol_board i j previous
  let num_alive := num_alive_at i j previous
  if new_state val num_alive then write_gol_board i j true next else next

/-- Function `get_next_generation`: scan of the bounding box with a halo of one
cell. -/
def get_next_generation (previous next : gol_board) (new_state : Bool → Nat → Bool) :
    gol_board :=
  let previous_bounds := get_game_bounds previous
  (int_range (wrap_intmax (previous_bounds.lowerX - 1))
      (wrap_intmax (previous_bounds.upperX + 1))).foldl
    (fun nxt i =>
      (int_range (wrap_intmax (previous_bounds.lowerY - 1))
          (wrap_intmax (previous_bounds.upperY + 1))).foldl
        (fun nxt1 j => next_generation_cell previous new_state nxt1 i j)
        nxt)
    next

/-- Modelled from the spec: the inverse of the diagonal index, giving the
block-grid coordinate `(bx, by)` of a storage index. The board iterator
(`board_iterator_start`, `board_iterator_next`, `board_iterator_position`,
`board_iterator_is_end`) is used by `life.c` but its source is missing; section
4.3 of the specification describes it. -/
def block_grid_of_index (idx : Nat) : Nat × Nat :=
  if idx - Nat.sqrt idx * Nat.sqrt idx < Nat.sqrt idx then
    (idx - Nat.sqrt idx * Nat.sqrt idx, Nat.sqrt idx)
  else (Nat.sqrt idx, 2 * Nat.sqrt idx - (idx - Nat.sqrt idx * Nat.sqrt idx))

/-- Modelled from the spec: the position the iterator reports for the block of
storage index `idx` in quadrant `dir` (missing `board_iterator_position`): the
local origin `(bx * N, by * N)` of the block, un-sign-folded and un-offset. -/
def board_iterator_position (b : gol_board) (dir idx : Nat) : Int × Int :=
  let foldX : Int := ((block_grid_of_index idx).1 * BLOCKSIZE : Nat)
  let foldY : Int := ((block_grid_of_index idx).2 * BLOCKSIZE : Nat)
  let posX : Int := if dir = 2 ∨ dir = 3 then -(foldX + 1) else foldX
  let posY : Int := if dir = 1 ∨ dir = 3 then -(foldY + 1) else foldY
  (posX - b.offsetX, posY - b.offsetY)

/-- Modelled from the spec: the sequence of positions produced by the missing
board iterator: one position for each allocated block (empty or not), the
quadrants in the order NE, SE, NW, SW, and increasing storage index within a
quadrant. -/
def board_iterator_positions (b : gol_board) : List (Int × Int) :=
  (List.range bb_all_dirs).flatMap (fun dir =>
    ((List.range (size_bb_buffer b dir)).filter
      (fun idx => ((b.bb_buffer dir).getD idx none).isSome)).map
      (fun idx => board_iterator_position b dir idx))

/-- Body of the loops of `get_next_generation_iterator` for the cell `(k, l)`:
a cell already alive in `next` is skipped. -/
def next_generation_iterator_cell (previous : gol_board) (new_state : Bool → Nat → Bool)
    (next : gol_board) (k l : Int) : gol_board :=
  if !read_gol_board k l next then
    let val := read_gol_board k l previous
    let num_alive := num_alive_at k l previous
    if new_state val num_alive then write_gol_board k l true next else next
  else next

/-- Function `get_next_generation_iterator`: for each position of the iterator
over `previous`, the 3x3 window around that position is evaluated. -/
def get_next_generation_iterator (previous next : gol_board)
    (new_state : Bool → Nat → Bool) : gol_board :=
  (board_iterator_positions previous).foldl
    (fun nxt pos =>
      (int_range (wrap_intmax (pos.1 - 1)) (wrap_intmax (pos.1 + 1))).foldl
        (fun nxt1 k =>
          (int_range (wrap_intmax (pos.2 - 1)) (wrap_intmax (pos.2 + 1))).foldl
            (fun nxt2 l => next_generation_iterator_cell previous new_state nxt2 k l)
            nxt1)
        nxt)
    next

/-- Function `center_offset`; the division of C truncates toward zero. -/
def center_offset (bounds : gol_board_bounds) (board : gol_board) : gol_board :=
  let offsetX := (wrap_intmax (-(wrap_intmax (bounds.upperX - bounds.lowerX)))).tdiv 2
  let offsetY := (wrap_intmax (-(wrap_intmax (bounds.upperY - bounds.lowerY)))).tdiv 2
  set_offset offsetX offsetY board

/-- The `switch (rule)` of `evolve_to_generation_n` that chooses `life_count`. -/
def select_life_count (rule : gol_rules) : Bool → Nat → Bool :=
  match rule with
  | gol_rules.highLifeRule => is_alive_hilife
  | gol_rules.lifeRule => is_alive_life
  | _ => is_alive_life

/-- Local state of the kernel loop of `evolve_to_generation_n`: the boards
pointed to by `current_gen` and `next_gen`, and whether `current_gen` is the
caller's board `start_gen`. -/
structure evolve_state where
  current_gen : gol_board
  next_gen : gol_board
  current_is_start : Bool

/-- One iteration of the kernel loop of `evolve_to_generation_n`. -/
def evolve_step (iterator : Bool) (life_count : Bool → Nat → Bool) (st : evolve_state) :
    evolve_state :=
  let next1 := clean_board st.next_gen
  let bounds := get_game_bounds st.current_gen
  let next2 := center_offset bounds next1
  let next3 :=
    if iterator then get_next_generation_iterator st.current_gen next2 life_count
    else get_next_generation st.current_gen next2 life_count
  { current_gen := next3, next_gen := st.current_gen,
    current_is_start := !st.current_is_start }

/-- The kernel loop `for (i = 0; i < generation; ++i)`. -/
def evolve_loop (iterator : Bool) (life_count : Bool → Nat → Bool) (generation : Nat)
    (st : evolve_state) : evolve_state :=
  (List.range generation).foldl (fun s _ => evolve_step iterator life_count s) st

/-- Function `evolve_to_generation_n`: the contents of the caller's board
`start_gen` when the function returns. The flag `verbose` only prints. -/
def evolve_to_generation_n (generation : Nat) (start_gen : gol_board)
    (_verbose iterator : Bool) : gol_board :=
  if generation = 0 then start_gen
  else
    let next_gen := set_game_rules (get_game_rules start_gen) new_board
    let rule := get_game_rules start_gen
    let life_count := select_life_count rule
    let st := evolve_loop iterator life_count generation
      { current_gen := start_gen, next_gen := next_gen, current_is_start := true }
    if !st.current_is_start then (gol_swap_board st.next_gen st.current_gen).1
    else st.current_gen

/-! ## Specification-level definitions -/

/-- Storage address of the logical cell `(posX, posY)` of board `b`, as computed
at the head of `read_gol_board` and `write_gol_board`. -/
def cell_address (posX posY : Int) (b : gol_board) : board_position :=
  position_in_board_structure (wrap_intmax (posX + b.offsetX))
    (wrap_intmax (posY + b.offsetY))

/-- The index arithmetic of `position_in_board_structure` on the folded
coordinates stays in the `intmax_t` range: every intermediate result of the
branch taken is representable. -/
def index_no_overflow (foldX foldY : Int) : Prop :=
  if foldX < foldY then
    fits_intmax (foldY.tdiv 32 * foldY.tdiv 32) ∧
    fits_intmax (foldY.tdiv 32 * foldY.tdiv 32 + foldX.tdiv 32)
  else
    fits_intmax (foldX.tdiv 32 * foldX.tdiv 32) ∧
    fits_intmax (2 * foldX.tdiv 32) ∧
    fits_intmax (foldX.tdiv 32 * foldX.tdiv 32 + 2 * foldX.tdiv 32) ∧
    fits_intmax (foldX.tdiv 32 * foldX.tdiv 32 + 2 * foldX.tdiv 32 - foldY.tdiv 32)

instance (foldX foldY : Int) : Decidable (index_no_overflow foldX foldY) := by
  unfold index_no_overflow; infer_instance

/-- The address arithmetic for the logical cell `(posX, posY)` of board `b` does
not overflow: neither the addition of the offset nor the index computation. -/
def address_no_overflow (posX posY : Int) (b : gol_board) : Prop :=
  fits_intmax (posX + b.offsetX) ∧ fits_intmax (posY + b.offsetY) ∧
  index_no_overflow (sign_fold (posX + b.offsetX)) (sign_fold (posY + b.offsetY))

instance (posX posY : Int) (b : gol_board) : Decidable (address_no_overflow posX posY b) := by
  unfold address_no_overflow; infer_instance

/-- Size in bytes of a pointer to a block, `sizeof(**buffer)` in
`realloc_bb_buffer`, on the 64-bit target that the other widths assume. -/
def sizeof_pointer : Nat := 8

/-- A write of the cell `(posX, posY)` of board `b` stays where the C code is
defined: the address arithmetic does not overflow, and the byte count
`new_size * sizeof(**buffer)` that `realloc_bb_buffer` computes in `size_t` for
`new_size = index + 1` does not wrap, that is `index + 1 < 2 ^ 61`. Beyond that
the code allocates fewer slots than it records and then stores outside its
buffer. -/
def write_no_overflow (posX posY : Int) (b : gol_board) : Prop :=
  address_no_overflow posX posY b ∧
    ((cell_address posX posY b).position_in_bb + 1) * sizeof_pointer ≤ SIZE_MAX

instance (posX posY : Int) (b : gol_board) : Decidable (write_no_overflow posX posY b) := by
  unfold write_no_overflow; infer_instance

/-- A board with a few cells and a non-zero offset, used in examples. -/
def sample_board : gol_board :=
  write_gol_board 5 (-3) true (write_gol_board (-40) 2 true
    (write_gol_board 0 0 true (set_offset 7 (-9) new_board)))

/-- The diagonal index of the block-grid coordinate `(bx, by)` as the data model
states it: `by * by + bx` when `bx < by`, else `bx * bx + 2 * bx - by`. -/
def diagonal_index (bx by_ : Int) : Int :=
  if bx < by_ then by_ * by_ + bx else bx * bx + 2 * bx - by_

/-- The 8 Moore neighbours of the cell `(i, j)`. -/
def moore_neighbours (i j : Int) : List (Int × Int) :=
  [(i - 1, j - 1), (i - 1, j), (i - 1, j + 1), (i, j - 1), (i, j + 1),
    (i + 1, j - 1), (i + 1, j), (i + 1, j + 1)]

/-- Number of live cells among the 8 Moore neighbours of `(i, j)` in `b`. -/
def live_neighbours (i j : Int) (b : gol_board) : Nat :=
  (moore_neighbours i j).countP (fun p => read_gol_board p.1 p.2 b)

/-- The cell `(x, y)` lies in the bounding box `bd`. -/
def in_bounds (bd : gol_board_bounds) (x y : Int) : Prop :=
  bd.lowerX ≤ x ∧ x ≤ bd.upperX ∧ bd.lowerY ≤ y ∧ y ≤ bd.upperY

instance (bd : gol_board_bounds) (x y : Int) : Decidable (in_bounds bd x y) := by
  unfold in_bounds; infer_instance

/-- The cell `(x, y)` lies in the bounding box `bd` expanded by one cell on each
side: the region scanned by `get_next_generation`. -/
def in_halo (bd : gol_board_bounds) (x y : Int) : Prop :=
  bd.lowerX - 1 ≤ x ∧ x ≤ bd.upperX + 1 ∧ bd.lowerY - 1 ≤ y ∧ y ≤ bd.upperY + 1

instance (bd : gol_board_bounds) (x y : Int) : Decidable (in_halo bd x y) := by
  unfold in_halo; infer_instance

/-- The bounding box of `b` contains every live cell of `b` (among the cells
whose address arithmetic does not overflow). -/
def bounds_contain_live (b : gol_board) : Prop :=
  ∀ x y : Int, address_no_overflow x y b → read_gol_board x y b = true →
    in_bounds (get_game_bounds b) x y

/-- The loop counters of a scan of the box `bd` with its halo, and the 3x3
windows around them, are representable: no `intmax_t` overflow in the loops of
`get_next_generation`. -/
def scan_no_overflow (bd : gol_board_bounds) : Prop :=
  (fits_intmax (bd.lowerX - 2) ∧ fits_intmax (bd.lowerX + 2)) ∧
    (fits_intmax (bd.upperX - 2) ∧ fits_intmax (bd.upperX + 2)) ∧
    (fits_intmax (bd.lowerY - 2) ∧ fits_intmax (bd.lowerY + 2)) ∧
    (fits_intmax (bd.upperY - 2) ∧ fits_intmax (bd.upperY + 2))

instance (bd : gol_board_bounds) : Decidable (scan_no_overflow bd) := by
  unfold scan_no_overflow; infer_instance

/-- A sequence of calls `write_gol_board x y v`, the first element of the list
being the first call. -/
def apply_writes (ws : List (Int × Int × Bool)) (b : gol_board) : gol_board :=
  ws.foldl (fun acc w => write_gol_board w.1 w.2.1 w.2.2 acc) b

/-- The stored coordinate of the logical cell `(x, y)` of `b` is within
`2 ^ 36` of the origin on both axes, which keeps the block-grid coordinates
below `2 ^ 31`. -/
def near_origin (x y : Int) (b : gol_board) : Prop :=
  (-(2 ^ 36) ≤ x + b.offsetX ∧ x + b.offsetX < 2 ^ 36) ∧
    (-(2 ^ 36) ≤ y + b.offsetY ∧ y + b.offsetY < 2 ^ 36)

instance (x y : Int) (b : gol_board) : Decidable (near_origin x y b) := by
  unfold near_origin; infer_instance

/-- The horizontal blinker `(0,0), (1,0), (2,0)` written into a new board. -/
def blinker_board : gol_board :=
  apply_writes [(0, 0, true), (1, 0, true), (2, 0, true)] new_board

/-- One generation of the cellular automaton with rule `f` on a plane of cells
given by its state function. -/
def life_step (f : Bool → Nat → Bool) (g : Int → Int → Bool) : Int → Int → Bool :=
  fun x y => f (g x y) ((moore_neighbours x y).countP (fun p => g p.1 p.2))

/-- The `n`-fold iteration of the one-generation rule. -/
def life_iterate (f : Bool → Nat → Bool) : Nat → (Int → Int → Bool) → Int → Int → Bool
  | 0, g => g
  | n + 1, g => life_step f (life_iterate f n g)

/-- Every bound of the box `bd` has absolute value at most `R`. -/
def bounds_within (bd : gol_board_bounds) (R : Int) : Prop :=
  (-R ≤ bd.lowerX ∧ bd.lowerX ≤ R) ∧ (-R ≤ bd.upperX ∧ bd.upperX ≤ R) ∧
    (-R ≤ bd.lowerY ∧ bd.lowerY ≤ R) ∧ (-R ≤ bd.upperY ∧ bd.upperY ≤ R)

instance (bd : gol_board_bounds) (R : Int) : Decidable (bounds_within bd R) := by
  unfold bounds_within; infer_instance

/-- The capacities of the four quadrants are representable as `size_t`. -/
def capacities_fit (b : gol_board) : Prop :=
  ∀ d, d < bb_all_dirs → size_bb_buffer b d ≤ SIZE_MAX

/-- The slot that `gol_copy_board` leaves in the copy for a source slot `s`:
a duplicate of a non-empty block, nothing otherwise. -/
def copied_slot (s : Option basic_block) : Option basic_block :=
  match s with
  | some bb => if !is_empty_block bb then some (memcpy_values get_new_empty_bb bb) else none
  | none => none

/-- A board with an allocated but empty block and a different rule, used in
examples. -/
def sample_source : gol_board :=
  set_game_rules gol_rules.highLifeRule
    (write_gol_board 70 3 false (write_gol_board (-1) (-1) true
      (write_gol_board 33 2 true (set_offset 2 (-1) new_board))))

/-- A horizontal blinker `(5,5), (6,5), (7,5)` away from the origin of its
block, written into a new board. -/
def inner_blinker_board : gol_board :=
  apply_writes [(5, 5, true), (6, 5, true), (7, 5, true)] new_board

/-- The board with the single live cell `(0, 0)`, written into a new board. -/
def origin_cell_board : gol_board := write_gol_board 0 0 true new_board

/-- Two slots hold the same storage: both unallocated, or both allocated with
the same 32 rows. -/
def slot_eqb (s t : Option basic_block) : Bool :=
  match s, t with
  | none, none => true
  | some b1, some b2 => memcmp_values_eq b1 b2
  | _, _ => false

/-- Two boards have the same observable storage: same offset, bounds and rule,
and in each quadrant the same capacity, the same allocated slots and the same
rows in them. -/
def board_equiv (a b : gol_board) : Prop :=
  a.offsetX = b.offsetX ∧ a.offsetY = b.offsetY ∧ a.board_bounds = b.board_bounds ∧
    a.rule = b.rule ∧
    ∀ d, d < bb_all_dirs →
      size_bb_buffer a d = size_bb_buffer b d ∧
        ∀ j, slot_eqb ((a.bb_buffer d).getD j none) ((b.bb_buffer d).getD j none) = true

/-- Executable test of `board_equiv`. -/
def board_eqb (a b : gol_board) : Bool :=
  decide (a.offsetX = b.offsetX) && decide (a.offsetY = b.offsetY) &&
    decide (a.board_bounds = b.board_bounds) && decide (a.rule = b.rule) &&
    (List.range bb_all_dirs).all (fun d =>
      decide (size_bb_buffer a d = size_bb_buffer b d) &&
        (List.range (size_bb_buffer a d)).all (fun j =>
          slot_eqb ((a.bb_buffer d).getD j none) ((b.bb_buffer d).getD j none)))

/-- Two boards have the same capacities in the four quadrants and the same
rule: all that remains of a board once it is cleared and given a new offset. -/
def same_capacities (a b : gol_board) : Prop :=
  a.rule = b.rule ∧ ∀ d, d < bb_all_dirs → size_bb_buffer a d = size_bb_buffer b d

/-- The still life `(0,0), (1,0), (0,1), (1,1)` written into a new board (rule
`lifeRule`, offset 0). -/
def block_board : gol_board :=
  apply_writes [(0, 0, true), (1, 0, true), (0, 1, true), (1, 1, true)] new_board

/-- The vertical blinker `(1,-1), (1,0), (1,1)` written into a new board with the
offset `(-1, 0)`. -/
def vertical_blinker_board : gol_board :=
  apply_writes [(1, -1, true), (1, 0, true), (1, 1, true)] (set_offset (-1) 0 new_board)

/-- The horizontal blinker `(0,0), (1,0), (2,0)` written into the cleared board
of `blinker_board` with the offset `(0, -1)`. -/
def shifted_blinker_board : gol_board :=
  apply_writes [(0, 0, true), (1, 0, true), (2, 0, true)]
    (set_offset 0 (-1) (clean_board blinker_board))

/-- Address decomposition as the data model states it: the quadrant from the
signs (NE 0, SE 1, NW 2, SW 3), the sign folding `v' = -(v + 1)` of a negative
coordinate, the block-grid coordinate `(x' / 32, y' / 32)`, the in-block
coordinate `(x' mod 32, y' mod 32)` and the diagonal index of the block-grid
coordinate. -/
def spec_position (x y : Int) : board_position :=
  { bbPositionX := ((if x < 0 then -(x + 1) else x) % 32).toNat
    bbPositionY := ((if y < 0 then -(y + 1) else y) % 32).toNat
    position_in_bb :=
      (diagonal_index ((if x < 0 then -(x + 1) else x) / 32)
        ((if y < 0 then -(y + 1) else y) / 32)).toNat
    direction :=
      if 0 ≤ x ∧ 0 ≤ y then 0 else if 0 ≤ x ∧ y < 0 then 1 else if x < 0 ∧ 0 ≤ y then 2 else 3 }

/-- The diagonal index on pairs of natural numbers. -/
def diagonal_index_nat (p : Nat × Nat) : Nat :=
  (diagonal_index (p.1 : Int) (p.2 : Int)).toNat

/-- The board with the single live cell `(x, y)`, written into a new board. -/
def single_cell_board (x y : Int) : gol_board := write_gol_board x y true new_board

/-- The value read at `(x, y)` after the writes `ws` on an empty board: the value
of the last write at `(x, y)`, false when there is none. -/
def last_write (ws : List (Int × Int × Bool)) (x y : Int) : Bool :=
  ws.foldl (fun acc w => if w.1 = x ∧ w.2.1 = y then w.2.2 else acc) false

/-- The bounding box after the writes `ws`, starting from the box `bd`. -/
def bounds_after (ws : List (Int × Int × Bool)) (bd : gol_board_bounds) : gol_board_bounds :=
  ws.foldl
    (fun acc w =>
      if w.2.2 then
        { upperX := max acc.upperX w.1
          lowerX := min acc.lowerX w.1
          upperY := max acc.upperY w.2.1
          lowerY := min acc.lowerY w.2.1 }
      else acc)
    bd

/-- An operation of the storage engine on a board: a call of `write_gol_board`
or a call of `clean_board`. -/
inductive board_op where
  | write (x y : Int) (v : Bool)
  | clean

/-- The board after one operation. -/
def apply_op (b : gol_board) (op : board_op) : gol_board :=
  match op with
  | board_op.write x y v => write_gol_board x y v b
  | board_op.clean => clean_board b

/-- The board after a sequence of operations, the first element of the list
being the first call. -/
def apply_ops (ops : List board_op) (b : gol_board) : gol_board :=
  ops.foldl apply_op b

/-- One more than the largest diagonal index written in quadrant `d` by the
operations `ops` on a board with the offset of `b0`; 0 when no write of `ops`
falls in the quadrant. -/
def written_capacity (ops : List board_op) (b0 : gol_board) (d : Nat) : Nat :=
  ops.foldl
    (fun m op =>
      match op with
      | board_op.write x y _ =>
        if (cell_address x y b0).direction = d then
          max m ((cell_address x y b0).position_in_bb + 1)
        else m
      | board_op.clean => m)
    0

/-- Every write of `ops` is without overflow in `b0`: neither the address
arithmetic nor the byte count of the buffer growth overflows. -/
def ops_no_overflow (ops : List board_op) (b0 : gol_board) : Prop :=
  ∀ op ∈ ops,
    match op with
    | board_op.write x y _ => write_no_overflow x y b0
    | board_op.clean => True

/-- A byte string in memory: `some c` is the byte `c`, `none` a byte that
`malloc` left uninitialised. -/
abbrev c_buffer := List (Option Nat)

/-- The `struct gol_game`; a `NULL` string pointer is `none`. -/
structure gol_game where
  board : gol_board
  patternName : Option c_buffer
  authorName : Option c_buffer
  comments : List c_buffer
  num_comments : Nat

/-- The call `memcpy(dst, src, size)` on a fresh buffer. -/
def memcpy_bytes (dst : c_buffer) (src : List Nat) (size : Nat) : c_buffer :=
  (src.take size).map some ++ dst.drop size

/-- The `realloc` of the array of comments to `new_size` entries; a new entry
is an indeterminate pointer, modelled by the empty buffer. -/
def realloc_comments (new_size : Nat) (comments : List c_buffer) : List c_buffer :=
  (comments ++ List.replicate (new_size - comments.length) []).take new_size

/-- The buffer that `add_comment` allocates and fills for the text `comment`
(its bytes without the final NUL, so that `strlen` is the length): `size + 1`
bytes, the copy of `size` bytes, and the terminator stored at index `size - 1`
computed in `size_t`. -/
def add_comment_buffer (comment : List Nat) : c_buffer :=
  let size := comment.length
  let buf := memcpy_bytes (List.replicate (wrap_size (size + 1)) none) comment size
  buf.set (wrap_size (size + SIZE_MAX)) (some 0)

/-- Function `add_comment`. -/
def add_comment (comment : List Nat) (b : gol_game) : gol_game :=
  let num_comments := wrap_size (b.num_comments + 1)
  let comments := realloc_comments num_comments b.comments
  { b with
    num_comments := num_comments
    comments := comments.set (wrap_size (num_comments + SIZE_MAX)) (add_comment_buffer comment) }

/-- The buffer that `set_author` and `set_pattern_name` allocate and fill: the
terminator is stored at index `size`. -/
def set_string_buffer (text : List Nat) : c_buffer :=
  let size := text.length
  let buf := memcpy_bytes (List.replicate (wrap_size (size + 1)) none) text size
  buf.set size (some 0)

/-- Function `set_author`. -/
def set_author (authorName : List Nat) (b : gol_game) : gol_game :=
  { b with authorName := some (set_string_buffer authorName) }

/-- Function `set_pattern_name`. -/
def set_pattern_name (pName : List Nat) (b : gol_game) : gol_game :=
  { b with patternName := some (set_string_buffer pName) }

/-- The C string held by a buffer: the bytes before the first NUL; `none` when
an uninitialised byte or the end of the buffer comes first. -/
def c_string : c_buffer → Option (List Nat)
  | [] => none
  | none :: _ => none
  | some c :: rest =>
    if c = 0 then some []
    else
      match c_string rest with
      | some s => some (c :: s)
      | none => none

/-- The game that `parse_rle_file` starts from: a zeroed structure with a new
board. -/
def new_game : gol_game :=
  { board := new_board, patternName := none, authorName := none, comments := [],
    num_comments := 0 }

/-- The board whose cell `(0, 0)` was written alive and then dead: an allocated
block without a live cell. -/
def dead_origin_board : gol_board :=
  write_gol_board 0 0 false (write_gol_board 0 0 true new_board)

/-- A sequence of operations used in examples: two writes in the north-east
quadrant, a clear, and a write in the north-west quadrant. -/
def sample_ops : List board_op :=
  [board_op.write 40 40 true, board_op.write 3 3 false, board_op.clean,
    board_op.write (-1) 70 true]

/-- A sequence of writes used in examples: the cell `(5, -3)` is written alive
and later dead. -/
def sample_writes : List (Int × Int × Bool) :=
  [(5, -3, true), (-40, 2, true), (5, -3, false), (0, 0, true)]

/-- The bounding box `bd` contains the origin. -/
def contains_origin (bd : gol_board_bounds) : Prop :=
  bd.lowerX ≤ 0 ∧ 0 ≤ bd.upperX ∧ bd.lowerY ≤ 0 ∧ 0 ≤ bd.upperY

instance (bd : gol_board_bounds) : Decidable (contains_origin bd) := by
  unfold contains_origin; infer_instance

/-- The boards reachable from `new_board` by the operations of the storage
engine and the evolution entry point: `write_gol_board`, `clean_board`,
`gol_copy_board` (the destination), `gol_swap_board` (both boards),
`evolve_to_generation_n`, and the setters `set_offset` and `set_game_rules`. -/
inductive reachable_board : gol_board → Prop where
  | new : reachable_board new_board
  | write (x y : Int) (v : Bool) (b : gol_board) :
    reachable_board b → reachable_board (write_gol_board x y v b)
  | clean (b : gol_board) : reachable_board b → reachable_board (clean_board b)
  | copy (a b : gol_board) :
    reachable_board a → reachable_board b → reachable_board (gol_copy_board a b)
  | swap_fst (a b : gol_board) :
    reachable_board a → reachable_board b → reachable_board (gol_swap_board a b).1
  | swap_snd (a b : gol_board) :
    reachable_board a → reachable_board b → reachable_board (gol_swap_board a b).2
  | evolve (n : Nat) (b : gol_board) (verbose iterator : Bool) :
    reachable_board b → reachable_board (evolve_to_generation_n n b verbose iterator)
  | offset (ox oy : Int) (b : gol_board) :
    reachable_board b → reachable_board (set_offset ox oy b)
  | rules (r : gol_rules) (b : gol_board) :
    reachable_board b → reachable_board (set_game_rules r b)

/-- The number of bytes that `add_comment` allocates for the text `comment`:
`(size + 1) * sizeof(char)` in `size_t`. -/
def add_comment_alloc (comment : List Nat) : Nat := wrap_size (comment.length + 1)

/-- The indices of the new buffer that `add_comment` writes, in order: the
`size` bytes of the `memcpy`, then the terminator at index `size - 1` computed
in `size_t`. -/
def add_comment_writes (comment : List Nat) : List Nat :=
  List.range comment.length ++ [wrap_size (comment.length + SIZE_MAX)]

/-- The characters printed by the conversion `%zu`. -/
def print_size (n : Nat) : List Char := Nat.toDigits 10 n

/-- The characters printed by the conversion `PRIdMAX`. -/
def print_intmax (v : Int) : List Char :=
  if v < 0 then '-' :: Nat.toDigits 10 (-v).toNat else Nat.toDigits 10 v.toNat

/-- The characters printed by the conversion `%s` for the buffer `s`; `none`
when the buffer holds no terminated string. -/
def print_string (s : c_buffer) : Option (List Char) :=
  (c_string s).map (fun bytes => bytes.map Char.ofNat)

/-- The array `gol_rule_string`, which has `unknownRule = 2` entries; the index
`unknownRule` is outside the array. -/
def gol_rule_string (r : gol_rules) : Option (List Char) :=
  match r with
  | gol_rules.lifeRule => some "B3/S23".toList
  | gol_rules.highLifeRule => some "B36/S23".toList
  | gol_rules.unknownRule => none

/-- The output file of `dump_rle` together with the local counter
`num_written_in_line`. -/
structure rle_output where
  text : List Char
  num_written_in_line : Nat
deriving DecidableEq, Repr

/-- The statements that print one item of the cell grid: a line break first
when the item would make the line longer than 69 characters, then the item,
whose length `fprintf` returns. `snprintf(NULL, 0, ...)` returns the same
length. -/
def print_item (out : rle_output) (count : Nat) (tag : Char) : rle_output :=
  let num_to_write := if count > 1 then (print_size count ++ [tag]).length else 1
  let out1 : rle_output :=
    if out.num_written_in_line + num_to_write > 69 then ⟨out.text ++ ['\n'], 0⟩ else out
  let item := if count > 1 then print_size count ++ [tag] else [tag]
  ⟨out1.text ++ item, out1.num_written_in_line + item.length⟩

/-- Function `print_cell_state` of `rle.c`. -/
def print_cell_state (out : rle_output) (previous_was_alive : Bool)
    (previous_cells_in_state : Nat) : rle_output :=
  if previous_cells_in_state ≠ 0 then
    print_item out previous_cells_in_state (if previous_was_alive then 'o' else 'b')
  else out

/-- Local state of the loops of `dump_rle`. -/
structure rle_state where
  out : rle_output
  consecutive_empty : Nat
  previous_was_alive : Bool
  previous_cells_in_state : Nat
deriving DecidableEq, Repr

/-- Body of the inner loop of `dump_rle` for the cell `(i, j)`. -/
def dump_rle_cell (board : gol_board) (j : Int) (st : rle_state) (i : Int) : rle_state :=
  let cell_state := read_gol_board i j board
  if st.previous_was_alive = cell_state then
    { st with previous_cells_in_state := wrap_size (st.previous_cells_in_state + 1) }
  else
    let st1 : rle_state :=
      if st.consecutive_empty ≠ 0 then
        { st with
          out := print_item st.out st.consecutive_empty '$'
          consecutive_empty := 0 }
      else st
    { st1 with
      out := print_cell_state st1.out st.previous_was_alive st.previous_cells_in_state
      previous_was_alive := !st.previous_was_alive
      previous_cells_in_state := 1 }

/-- Body of the outer loop of `dump_rle` for the row `j`. -/
def dump_rle_row (board : gol_board) (bounds : gol_board_bounds)
    (st : rle_output × Nat) (j : Int) : rle_output × Nat :=
  let st1 := (int_range bounds.lowerX bounds.upperX).foldl (dump_rle_cell board j)
    { out := st.1, consecutive_empty := st.2, previous_was_alive := false,
      previous_cells_in_state := 0 }
  let out :=
    if st1.previous_was_alive then
      print_cell_state st1.out st1.previous_was_alive st1.previous_cells_in_state
    else st1.out
  (out, wrap_size (st1.consecutive_empty + 1))

/-- The cell grid that `dump_rle` prints, with the final value of
`num_written_in_line`: the two loops over the bounding box. The loop counters
reach the upper bounds without overflow when these are below `INTMAX_MAX`. -/
def dump_rle_grid (board : gol_board) : rle_output :=
  let bounds := get_game_bounds board
  ((int_range bounds.lowerY bounds.upperY).foldl (dump_rle_row board bounds) (⟨[], 0⟩, 0)).1

/-- The lines that `dump_rle` prints before the cell grid: author, pattern
name, offset, comments and the header line; `none` when a `%s` conversion reads
a buffer without a terminated string or outside an array. -/
def dump_rle_header (b : gol_game) : Option (List Char) :=
  let author : Option (List Char) :=
    match b.authorName with
    | some s => (print_string s).map (fun t => "#O ".toList ++ t ++ ['\n'])
    | none => some []
  let pattern : Option (List Char) :=
    match b.patternName with
    | some s => (print_string s).map (fun t => "#N ".toList ++ t ++ ['\n'])
    | none => some []
  let offset : List Char :=
    if b.board.offsetX ≠ 0 ∨ b.board.offsetY ≠ 0 then
      "#R ".toList ++ print_intmax b.board.offsetX ++ [' '] ++ print_intmax b.board.offsetY ++
        ['\n']
    else []
  let comments : Option (List Char) :=
    (List.range b.num_comments).foldl
      (fun acc i =>
        match acc, b.comments[i]? with
        | some t, some s => (print_string s).map (fun c => t ++ "#C ".toList ++ c ++ ['\n'])
        | _, _ => none)
      (some [])
  let bounds := get_game_bounds b.board
  let header : Option (List Char) :=
    (gol_rule_string (get_game_rules b.board)).map (fun r =>
      "x = ".toList ++ print_intmax (wrap_intmax (wrap_intmax (bounds.upperX - bounds.lowerX) + 1))
        ++ ", y = ".toList
        ++ print_intmax (wrap_intmax (wrap_intmax (bounds.upperY - bounds.lowerY) + 1))
        ++ ", rule = ".toList ++ r ++ ['\n'])
  match author, pattern, comments, header with
  | some a, some p, some c, some h => some (a ++ p ++ offset ++ c ++ h)
  | _, _, _, _ => none

/-- Function `dump_rle`: the text written to the output file. After the cell
grid the function prints a line break when `num_written_in_line > 68`, else the
end-of-pattern marker and a line break. -/
def dump_rle (b : gol_game) : Option (List Char) :=
  (dump_rle_header b).map (fun h =>
    let grid := dump_rle_grid b.board
    if grid.num_written_in_line > 68 then h ++ grid.text ++ ['\n']
    else h ++ grid.text ++ ['!', '\n'])

/-- The board with the 35 live cells `(0, 0), (0, 1), ..., (0, 34)`: a column. -/
def column_board : gol_board :=
  apply_writes ((List.range 35).map (fun (j : Nat) => ((0 : Int), (j : Int), true))) new_board

/-- The game of `column_board` without author, pattern name or comment. -/
def column_game : gol_game := { new_game with board := column_board }

/-- The game of the horizontal blinker without author, pattern name or
comment. -/
def blinker_game : gol_game := { new_game with board := blinker_board }

/-- The text ends with the end-of-pattern marker `!` followed by a line
break. -/
def ends_with_marker (t : List Char) : Bool := t.reverse.take 2 == ['\n', '!']

/-- Nothing was printed on the current line, or the text ends with the tag of
an item, which is not the marker `!`. -/
def ends_with_item (out : rle_output) : Prop :=
  out.num_written_in_line = 0 ∨
    ∃ tag : Char, tag ≠ '!' ∧ ∃ body : List Char, out.text = body ++ [tag]


/-! ## Blocks: bit-level facts -/

theorem wrap_block_one_shiftLeft (x : Nat) (hx : x < 32) : wrap_block (1 <<< x) = 2 ^ x := by
  unfold wrap_block
  rw [Nat.one_shiftLeft]
  exact Nat.mod_eq_of_lt (Nat.pow_lt_pow_right (by norm_num) hx)

theorem and_two_pow_ne_zero (n i : Nat) : ((n &&& 2 ^ i) != 0) = n.testBit i := by
  rw [Nat.and_two_pow]
  cases h : n.testBit i <;> simp

theorem read_in_block_eq_testBit (x y : Nat) (bb : basic_block) (hx : x < 32) :
    read_in_block x y bb = (bb.values y).testBit x := by
  unfold read_in_block
  rw [wrap_block_one_shiftLeft x hx, and_two_pow_ne_zero]

theorem testBit_not_mask (x i : Nat) (hi : i < 32) :
    (2 ^ x ^^^ (2 ^ 32 - 1)).testBit i = !decide (x = i) := by
  rw [Nat.testBit_xor, Nat.testBit_two_pow, Nat.testBit_two_pow_sub_one]
  simp [hi]

theorem read_in_block_write_in_block (bb : basic_block) (x y x' y' : Nat) (v : Bool)
    (hx : x < 32) (hx' : x' < 32) :
    read_in_block x' y' (write_in_block bb x y v) =
      if x' = x ∧ y' = y then v else read_in_block x' y' bb := by
  rw [read_in_block_eq_testBit _ _ _ hx', read_in_block_eq_testBit _ _ _ hx']
  unfold write_in_block
  rw [wrap_block_one_shiftLeft x hx]
  cases v
  · by_cases hy : y' = y
    · subst hy
      simp only [Bool.false_eq_true, if_false, if_true, Nat.testBit_and,
        testBit_not_mask x x' hx', and_true]
      by_cases hxx : x' = x
      · subst hxx; simp
      · have : ¬ x = x' := fun h => hxx h.symm
        simp [hxx, this]
    · simp [hy]
  · by_cases hy : y' = y
    · subst hy
      simp only [if_true, Nat.testBit_or, Nat.testBit_two_pow, and_true]
      by_cases hxx : x' = x
      · subst hxx; simp
      · have : ¬ x = x' := fun h => hxx h.symm
        simp [hxx, this]
    · simp [hy]

theorem read_in_block_get_new_empty_bb (x y : Nat) :
    read_in_block x y get_new_empty_bb = false := by
  simp [read_in_block, get_new_empty_bb]

/-! ## Buffers -/

theorem getD_realloc_bb_buffer (n i : Nat) (buf : List (Option basic_block)) :
    (realloc_bb_buffer n buf).getD i none = buf.getD i none := by
  unfold realloc_bb_buffer
  split
  · simp only [List.getD_eq_getElem?_getD, List.getElem?_append, List.getElem?_replicate]
    by_cases h : i < buf.length
    · simp [h]
    · simp only [h, if_false]
      rw [List.getElem?_eq_none (Nat.le_of_not_lt h)]
      split <;> rfl
  · rfl

theorem length_realloc_bb_buffer (n : Nat) (buf : List (Option basic_block)) :
    (realloc_bb_buffer n buf).length = max n buf.length := by
  unfold realloc_bb_buffer
  split
  · simp only [List.length_append, List.length_replicate]; omega
  · omega

theorem getD_set_none {α : Type} (l : List (Option α)) (i j : Nat) (a : Option α) :
    (l.set i a).getD j none = if i = j ∧ i < l.length then a else l.getD j none := by
  simp only [List.getD_eq_getElem?_getD, List.getElem?_set]
  by_cases hij : i = j
  · subst hij
    by_cases hl : i < l.length
    · simp [hl]
    · simp [hl, List.getElem?_eq_none (Nat.le_of_not_lt hl)]
  · simp [hij]

theorem read_gol_board_eq (x y : Int) (b : gol_board) :
    read_gol_board x y b =
      match (b.bb_buffer (cell_address x y b).direction).getD
          (cell_address x y b).position_in_bb none with
      | none => false
      | some bb =>
        read_in_block (cell_address x y b).bbPositionX (cell_address x y b).bbPositionY bb := by
  unfold read_gol_board cell_address size_bb_buffer
  simp only []
  split_ifs with h
  · rfl
  · rw [List.getD_eq_default _ _ (Nat.le_of_not_lt h)]

/-! ## Addresses -/

theorem to_size_of_nonneg_lt (v : Int) (h0 : 0 ≤ v) (h1 : v < 2 ^ 64) :
    to_size v = v.toNat := by
  unfold to_size
  rw [Int.emod_eq_of_lt h0 h1]

theorem to_size_tmod_lt (v : Int) (h0 : 0 ≤ v) : to_size (v.tmod 32) < 32 := by
  have h1 : 0 ≤ v.tmod 32 := Int.tmod_nonneg 32 h0
  have h2 : v.tmod 32 < 32 := Int.tmod_lt_of_pos v (by norm_num)
  rw [to_size_of_nonneg_lt _ h1 (by omega)]
  omega

theorem sign_fold_nonneg (p : Int) : 0 ≤ sign_fold p := by
  unfold sign_fold; split <;> omega

theorem bbPositionX_lt (X Y : Int) : (position_in_board_structure X Y).bbPositionX < 32 := by
  unfold position_in_board_structure
  exact to_size_tmod_lt _ (sign_fold_nonneg X)

theorem bbPositionY_lt (X Y : Int) : (position_in_board_structure X Y).bbPositionY < 32 := by
  unfold position_in_board_structure
  exact to_size_tmod_lt _ (sign_fold_nonneg Y)

theorem cell_address_write_gol_board (x y x' y' : Int) (v : Bool) (b : gol_board) :
    cell_address x' y' (write_gol_board x y v b) = cell_address x' y' b := by
  unfold cell_address write_gol_board set_bb_buffer
  cases v <;> rfl

theorem bb_buffer_write_gol_board (x y : Int) (v : Bool) (b : gol_board) (d : Nat) :
    (write_gol_board x y v b).bb_buffer d =
      if d = (cell_address x y b).direction then
        (realloc_bb_buffer (wrap_size ((cell_address x y b).position_in_bb + 1))
          (b.bb_buffer (cell_address x y b).direction)).set (cell_address x y b).position_in_bb
          (some (write_in_block
            (match (b.bb_buffer (cell_address x y b).direction).getD
                (cell_address x y b).position_in_bb none with
              | none => get_new_empty_bb
              | some bb0 => bb0)
            (cell_address x y b).bbPositionX (cell_address x y b).bbPositionY v))
      else b.bb_buffer d := by
  unfold write_gol_board set_bb_buffer cell_address
  simp only [getD_realloc_bb_buffer]
  cases v <;> rfl

/-- Reading any cell after a write: the written address now holds the written
value, every other address is unchanged. -/
theorem read_gol_board_write_gol_board (b : gol_board) (x y x' y' : Int) (v : Bool)
    (hidx : (cell_address x y b).position_in_bb < SIZE_MAX) :
    read_gol_board x' y' (write_gol_board x y v b) =
      if cell_address x' y' b = cell_address x y b then v else read_gol_board x' y' b := by
  rw [read_gol_board_eq, read_gol_board_eq, cell_address_write_gol_board,
    bb_buffer_write_gol_board]
  have hw : wrap_size ((cell_address x y b).position_in_bb + 1) =
      (cell_address x y b).position_in_bb + 1 := by
    unfold wrap_size; unfold SIZE_MAX at hidx; omega
  have hbx : (cell_address x y b).bbPositionX < 32 := bbPositionX_lt _ _
  have hbx' : (cell_address x' y' b).bbPositionX < 32 := bbPositionX_lt _ _
  by_cases hd : (cell_address x' y' b).direction = (cell_address x y b).direction
  · rw [if_pos hd, getD_set_none, length_realloc_bb_buffer, hw]
    by_cases hi : (cell_address x y b).position_in_bb = (cell_address x' y' b).position_in_bb
    · rw [if_pos ⟨hi, by omega⟩]
      simp only []
      rw [read_in_block_write_in_block _ _ _ _ _ _ hbx hbx', hd, ← hi]
      by_cases hxy : (cell_address x' y' b).bbPositionX = (cell_address x y b).bbPositionX ∧
          (cell_address x' y' b).bbPositionY = (cell_address x y b).bbPositionY
      · have heq : cell_address x' y' b = cell_address x y b := by
          cases hp : cell_address x y b
          cases hp' : cell_address x' y' b
          simp only [hp, hp'] at hd hi hxy
          simp only [board_position.mk.injEq]
          exact ⟨hxy.1, hxy.2, hi.symm, hd⟩
        rw [if_pos hxy, if_pos heq]
      · have hne : ¬ cell_address x' y' b = cell_address x y b := by
          intro h; apply hxy; rw [h]; exact ⟨rfl, rfl⟩
        rw [if_neg hxy, if_neg hne]
        cases (b.bb_buffer (cell_address x y b).direction).getD
            (cell_address x y b).position_in_bb none with
        | none => simp [read_in_block_get_new_empty_bb]
        | some bb => rfl
    · have hne : ¬ cell_address x' y' b = cell_address x y b := by
        intro h; apply hi; rw [h]
      rw [if_neg (fun h => hi h.1), if_neg hne, getD_realloc_bb_buffer, hd]
  · have hne : ¬ cell_address x' y' b = cell_address x y b := by
      intro h; apply hd; rw [h]
    rw [if_neg hd, if_neg hne]

/-! ## Addresses without overflow -/

theorem wrap_intmax_of_fits (v : Int) (h : fits_intmax v) : wrap_intmax v = v := by
  unfold fits_intmax INTMAX_MIN INTMAX_MAX at h
  unfold wrap_intmax
  omega

theorem tdiv_32_eq (v : Int) (h : 0 ≤ v) : v.tdiv 32 = v / 32 :=
  Int.tdiv_eq_ediv h (by norm_num)

theorem tmod_32_eq (v : Int) (h : 0 ≤ v) : v.tmod 32 = v % 32 :=
  Int.tmod_eq_emod h (by norm_num)

/-- The diagonal index on block-grid coordinates, as a mathematical integer. -/
theorem index_expr_bounds (X Y : Int) (hX : 0 ≤ X) (hY : 0 ≤ Y)
    (h : index_no_overflow X Y) :
    0 ≤ (if X < Y then Y.tdiv 32 * Y.tdiv 32 + X.tdiv 32
      else X.tdiv 32 * X.tdiv 32 + 2 * X.tdiv 32 - Y.tdiv 32) ∧
    (if X < Y then Y.tdiv 32 * Y.tdiv 32 + X.tdiv 32
      else X.tdiv 32 * X.tdiv 32 + 2 * X.tdiv 32 - Y.tdiv 32) < 2 ^ 63 := by
  unfold index_no_overflow fits_intmax INTMAX_MIN INTMAX_MAX at h
  rw [tdiv_32_eq X hX, tdiv_32_eq Y hY] at h ⊢
  have ha : 0 ≤ X / 32 := by omega
  have hb : 0 ≤ Y / 32 := by omega
  by_cases hlt : X < Y
  · rw [if_pos hlt] at h ⊢
    constructor
    · nlinarith [mul_self_nonneg (Y / 32)]
    · omega
  · rw [if_neg hlt] at h ⊢
    have hab : Y / 32 ≤ X / 32 := by omega
    constructor
    · nlinarith [mul_self_nonneg (X / 32)]
    · omega

theorem position_in_bb_lt (posX posY : Int) (b : gol_board)
    (h : address_no_overflow posX posY b) :
    (cell_address posX posY b).position_in_bb < 2 ^ 63 := by
  obtain ⟨_, _, h3⟩ := h
  have hb := index_expr_bounds _ _ (sign_fold_nonneg _) (sign_fold_nonneg _) h3
  unfold cell_address position_in_board_structure
  simp only []
  rw [wrap_intmax_of_fits _ ‹_›, wrap_intmax_of_fits _ ‹_›]
  split_ifs with hlt
  · rw [if_pos hlt] at hb
    rw [to_size_of_nonneg_lt _ hb.1 (by omega)]
    omega
  · rw [if_neg hlt] at hb
    rw [to_size_of_nonneg_lt _ hb.1 (by omega)]
    omega

theorem position_in_bb_lt_SIZE_MAX (posX posY : Int) (b : gol_board)
    (h : address_no_overflow posX posY b) :
    (cell_address posX posY b).position_in_bb < SIZE_MAX := by
  have := position_in_bb_lt posX posY b h
  unfold SIZE_MAX
  omega

/-! ## The diagonal index -/

theorem diagonal_index_shell (a b : Int) (ha : 0 ≤ a) (hb : 0 ≤ b) :
    max a b * max a b ≤ diagonal_index a b ∧
      diagonal_index a b ≤ max a b * max a b + 2 * max a b := by
  unfold diagonal_index
  by_cases h : a < b
  · rw [if_pos h, max_eq_right (le_of_lt h)]
    constructor <;> nlinarith
  · rw [if_neg h, max_eq_left (not_lt.mp h)]
    have : b ≤ a := not_lt.mp h
    constructor <;> nlinarith

theorem diagonal_index_nonneg (a b : Int) (ha : 0 ≤ a) (hb : 0 ≤ b) :
    0 ≤ diagonal_index a b := by
  have h := (diagonal_index_shell a b ha hb).1
  nlinarith [mul_self_nonneg (max a b)]

theorem shell_eq_of_overlap (s t : Int) (hs : 0 ≤ s) (ht : 0 ≤ t) (d : Int)
    (h1 : s * s ≤ d) (h2 : d ≤ s * s + 2 * s) (h3 : t * t ≤ d) (h4 : d ≤ t * t + 2 * t) :
    s = t := by
  rcases lt_trichotomy s t with h | h | h
  · exfalso
    have : s + 1 ≤ t := h
    nlinarith
  · exact h
  · exfalso
    have : t + 1 ≤ s := h
    nlinarith

theorem diagonal_index_injective (a b a' b' : Int) (ha : 0 ≤ a) (hb : 0 ≤ b)
    (ha' : 0 ≤ a') (hb' : 0 ≤ b') (h : diagonal_index a b = diagonal_index a' b') :
    a = a' ∧ b = b' := by
  have h1 := diagonal_index_shell a b ha hb
  have h2 := diagonal_index_shell a' b' ha' hb'
  have hs : max a b = max a' b' :=
    shell_eq_of_overlap _ _ (le_max_of_le_left ha) (le_max_of_le_left ha') _
      h1.1 h1.2 (h ▸ h2.1) (h ▸ h2.2)
  unfold diagonal_index at h
  by_cases c1 : a < b <;> by_cases c2 : a' < b'
  · rw [if_pos c1, if_pos c2] at h
    rw [max_eq_right (le_of_lt c1), max_eq_right (le_of_lt c2)] at hs
    subst hs
    constructor <;> linarith
  · rw [if_pos c1, if_neg c2] at h
    rw [max_eq_right (le_of_lt c1), max_eq_left (not_lt.mp c2)] at hs
    subst hs
    exfalso
    linarith [not_lt.mp c2]
  · rw [if_neg c1, if_pos c2] at h
    rw [max_eq_left (not_lt.mp c1), max_eq_right (le_of_lt c2)] at hs
    subst hs
    exfalso
    linarith [not_lt.mp c1]
  · rw [if_neg c1, if_neg c2] at h
    rw [max_eq_left (not_lt.mp c1), max_eq_left (not_lt.mp c2)] at hs
    subst hs
    constructor <;> linarith

/-- The code branches on the folded cell coordinates, the data model on the
block-grid coordinates; both give the same index. -/
theorem index_expr_eq_diagonal_index (X Y : Int) (hX : 0 ≤ X) (hY : 0 ≤ Y) :
    (if X < Y then Y.tdiv 32 * Y.tdiv 32 + X.tdiv 32
      else X.tdiv 32 * X.tdiv 32 + 2 * X.tdiv 32 - Y.tdiv 32) =
      diagonal_index (X / 32) (Y / 32) := by
  rw [tdiv_32_eq X hX, tdiv_32_eq Y hY]
  unfold diagonal_index
  by_cases h : X < Y
  · rw [if_pos h]
    by_cases h2 : X / 32 < Y / 32
    · rw [if_pos h2]
    · rw [if_neg h2]
      have : X / 32 = Y / 32 := by omega
      rw [this]; ring
  · rw [if_neg h]
    have h2 : ¬ X / 32 < Y / 32 := by omega
    rw [if_neg h2]

/-- The address of a cell whose address arithmetic does not overflow, in
mathematical terms. -/
theorem cell_address_of_no_overflow (x y : Int) (b : gol_board)
    (h : address_no_overflow x y b) :
    cell_address x y b =
      { bbPositionX := (sign_fold (x + b.offsetX) % 32).toNat
        bbPositionY := (sign_fold (y + b.offsetY) % 32).toNat
        position_in_bb :=
          (diagonal_index (sign_fold (x + b.offsetX) / 32)
            (sign_fold (y + b.offsetY) / 32)).toNat
        direction := (if x + b.offsetX < 0 then 2 else 0) +
          (if y + b.offsetY < 0 then 1 else 0) } := by
  obtain ⟨h1, h2, h3⟩ := h
  have hX := sign_fold_nonneg (x + b.offsetX)
  have hY := sign_fold_nonneg (y + b.offsetY)
  have hb := index_expr_bounds _ _ hX hY h3
  have he := index_expr_eq_diagonal_index _ _ hX hY
  unfold cell_address position_in_board_structure
  simp only []
  rw [wrap_intmax_of_fits _ h1, wrap_intmax_of_fits _ h2]
  have e1 : to_size ((sign_fold (x + b.offsetX)).tmod 32) =
      (sign_fold (x + b.offsetX) % 32).toNat := by
    rw [tmod_32_eq _ hX]
    exact to_size_of_nonneg_lt _ (by omega) (by omega)
  have e2 : to_size ((sign_fold (y + b.offsetY)).tmod 32) =
      (sign_fold (y + b.offsetY) % 32).toNat := by
    rw [tmod_32_eq _ hY]
    exact to_size_of_nonneg_lt _ (by omega) (by omega)
  have e3 : (if sign_fold (x + b.offsetX) < sign_fold (y + b.offsetY) then
        to_size ((sign_fold (y + b.offsetY)).tdiv 32 * (sign_fold (y + b.offsetY)).tdiv 32 +
          (sign_fold (x + b.offsetX)).tdiv 32)
      else to_size ((sign_fold (x + b.offsetX)).tdiv 32 * (sign_fold (x + b.offsetX)).tdiv 32 +
          2 * (sign_fold (x + b.offsetX)).tdiv 32 - (sign_fold (y + b.offsetY)).tdiv 32)) =
      (diagonal_index (sign_fold (x + b.offsetX) / 32)
        (sign_fold (y + b.offsetY) / 32)).toNat := by
    rw [← he]
    split_ifs with hlt
    · rw [if_pos hlt] at hb
      exact to_size_of_nonneg_lt _ hb.1 (by omega)
    · rw [if_neg hlt] at hb
      exact to_size_of_nonneg_lt _ hb.1 (by omega)
  rw [e1, e2, e3]

theorem sign_fold_injective_of_sign (X X' : Int) (hs : X < 0 ↔ X' < 0)
    (h : sign_fold X = sign_fold X') : X = X' := by
  unfold sign_fold at h
  by_cases c : X < 0
  · have c' := hs.mp c
    rw [if_pos c, if_pos c'] at h
    omega
  · have c' : ¬ X' < 0 := fun h' => c (hs.mpr h')
    rw [if_neg c, if_neg c'] at h
    exact h

/-- Without overflow, two cells with the same storage address are the same cell. -/
theorem cell_address_injective (x y x' y' : Int) (b : gol_board)
    (h : address_no_overflow x y b) (h' : address_no_overflow x' y' b)
    (he : cell_address x y b = cell_address x' y' b) : x = x' ∧ y = y' := by
  rw [cell_address_of_no_overflow x y b h, cell_address_of_no_overflow x' y' b h'] at he
  simp only [board_position.mk.injEq] at he
  obtain ⟨e1, e2, e3, e4⟩ := he
  have hX := sign_fold_nonneg (x + b.offsetX)
  have hY := sign_fold_nonneg (y + b.offsetY)
  have hX' := sign_fold_nonneg (x' + b.offsetX)
  have hY' := sign_fold_nonneg (y' + b.offsetY)
  have e3' : diagonal_index (sign_fold (x + b.offsetX) / 32) (sign_fold (y + b.offsetY) / 32) =
      diagonal_index (sign_fold (x' + b.offsetX) / 32) (sign_fold (y' + b.offsetY) / 32) := by
    have n1 := diagonal_index_nonneg (sign_fold (x + b.offsetX) / 32)
      (sign_fold (y + b.offsetY) / 32) (by omega) (by omega)
    have n2 := diagonal_index_nonneg (sign_fold (x' + b.offsetX) / 32)
      (sign_fold (y' + b.offsetY) / 32) (by omega) (by omega)
    omega
  have hd := diagonal_index_injective _ _ _ _ (by omega) (by omega) (by omega) (by omega) e3'
  have fx : sign_fold (x + b.offsetX) = sign_fold (x' + b.offsetX) := by omega
  have fy : sign_fold (y + b.offsetY) = sign_fold (y' + b.offsetY) := by omega
  have sx : x + b.offsetX < 0 ↔ x' + b.offsetX < 0 := by
    constructor <;> intro c <;> by_contra c' <;> split_ifs at e4 <;> omega
  have sy : y + b.offsetY < 0 ↔ y' + b.offsetY < 0 := by
    constructor <;> intro c <;> by_contra c' <;> split_ifs at e4 <;> omega
  have := sign_fold_injective_of_sign _ _ sx fx
  have := sign_fold_injective_of_sign _ _ sy fy
  constructor <;> omega

/-! ## Neighbour count -/

theorem int_range_three (a : Int) : int_range (a - 1) (a + 1) = [a - 1, a, a + 1] := by
  unfold int_range
  have h : (a + 1 + 1 - (a - 1)).toNat = 3 := by
    have : a + 1 + 1 - (a - 1) = 3 := by ring
    rw [this]; rfl
  rw [h]
  simp [List.range_succ]
  omega

theorem wrap_sum_nine (c r1 r2 r3 r4 r6 r7 r8 r9 : Bool) :
    wrap_size (wrap_size (wrap_size (wrap_size (wrap_size (wrap_size (wrap_size (wrap_size
      (wrap_size ((if c then SIZE_MAX else 0) + (if r1 then 1 else 0)) +
        (if r2 then 1 else 0)) + (if r3 then 1 else 0)) + (if r4 then 1 else 0)) +
        (if c then 1 else 0)) + (if r6 then 1 else 0)) + (if r7 then 1 else 0)) +
        (if r8 then 1 else 0)) + (if r9 then 1 else 0)) =
      (if r1 then 1 else 0) + (if r2 then 1 else 0) + (if r3 then 1 else 0) +
        (if r4 then 1 else 0) + (if r6 then 1 else 0) + (if r7 then 1 else 0) +
        (if r8 then 1 else 0) + (if r9 then 1 else 0) := by
  unfold wrap_size SIZE_MAX
  cases c <;> cases r1 <;> cases r2 <;> cases r3 <;> cases r4 <;> cases r6 <;> cases r7 <;>
    cases r8 <;> cases r9 <;> rfl

theorem num_alive_at_eq (i j : Int) (b : gol_board)
    (hi1 : fits_intmax (i - 1)) (hi2 : fits_intmax (i + 1))
    (hj1 : fits_intmax (j - 1)) (hj2 : fits_intmax (j + 1)) :
    num_alive_at i j b = live_neighbours i j b := by
  unfold num_alive_at live_neighbours moore_neighbours
  rw [wrap_intmax_of_fits _ hi1, wrap_intmax_of_fits _ hi2, wrap_intmax_of_fits _ hj1,
    wrap_intmax_of_fits _ hj2, int_range_three, int_range_three]
  simp only [List.foldl_cons, List.foldl_nil, List.countP_cons, List.countP_nil]
  rw [wrap_sum_nine]
  simp only [zero_add]
  omega

theorem live_neighbours_le (i j : Int) (b : gol_board) : live_neighbours i j b ≤ 8 := by
  unfold live_neighbours
  exact le_trans (List.countP_le_length _) (by simp [moore_neighbours])

/-! ## Clearing a board -/

theorem direction_lt (X Y : Int) : (position_in_board_structure X Y).direction < 4 := by
  unfold position_in_board_structure
  simp only []
  split <;> split <;> decide

theorem length_foldl_set_none (n : Nat) (l : List (Option basic_block)) :
    ((List.range n).foldl (fun buf j => buf.set j none) l).length = l.length := by
  induction n with
  | zero => rfl
  | succ n ih => rw [List.range_succ, List.foldl_append]; simp [ih]

theorem getD_foldl_set_none (n i : Nat) (l : List (Option basic_block)) :
    ((List.range n).foldl (fun buf j => buf.set j none) l).getD i none =
      if i < n then none else l.getD i none := by
  induction n with
  | zero => simp
  | succ n ih =>
    rw [List.range_succ, List.foldl_append]
    simp only [List.foldl_cons, List.foldl_nil]
    rw [getD_set_none, ih, length_foldl_set_none]
    by_cases h1 : n = i
    · subst h1
      by_cases h2 : n < l.length
      · simp [h2]
      · simp [h2, List.getElem?_eq_none (Nat.le_of_not_lt h2)]
    · by_cases h3 : i < n
      · have : i < n + 1 := by omega
        simp [h1, h3, this]
      · have : ¬ i < n + 1 := by omega
        simp [h1, h3, this]

theorem getD_clean_board (b : gol_board) (d i : Nat) (hd : d < 4) :
    ((clean_board b).bb_buffer d).getD i none = none := by
  unfold clean_board size_bb_buffer bb_all_dirs
  simp only [hd, if_true]
  rw [getD_foldl_set_none]
  split
  · rfl
  · exact List.getD_eq_default _ _ (by omega)

theorem length_clean_board (b : gol_board) (d : Nat) :
    size_bb_buffer (clean_board b) d = size_bb_buffer b d := by
  unfold clean_board size_bb_buffer bb_all_dirs
  simp only []
  split
  · exact length_foldl_set_none _ _
  · rfl

theorem read_gol_board_of_all_none (x y : Int) (b : gol_board)
    (h : ∀ d i, d < 4 → (b.bb_buffer d).getD i none = none) : read_gol_board x y b = false := by
  rw [read_gol_board_eq, h (cell_address x y b).direction (cell_address x y b).position_in_bb
    (direction_lt _ _)]

theorem read_gol_board_set_offset_clean_board (x y ox oy : Int) (b : gol_board) :
    read_gol_board x y (set_offset ox oy (clean_board b)) = false :=
  read_gol_board_of_all_none x y _ (fun d i hd => getD_clean_board b d i hd)

theorem read_gol_board_clean_board (x y : Int) (b : gol_board) :
    read_gol_board x y (clean_board b) = false :=
  read_gol_board_of_all_none x y _ (fun d i hd => getD_clean_board b d i hd)

/-! ## Addresses depend on the offset only -/

theorem cell_address_congr (x y : Int) (b b' : gol_board) (hx : b.offsetX = b'.offsetX)
    (hy : b.offsetY = b'.offsetY) : cell_address x y b = cell_address x y b' := by
  unfold cell_address; rw [hx, hy]

theorem address_no_overflow_congr (x y : Int) (b b' : gol_board) (hx : b.offsetX = b'.offsetX)
    (hy : b.offsetY = b'.offsetY) (h : address_no_overflow x y b) :
    address_no_overflow x y b' := by
  unfold address_no_overflow at h ⊢; rw [← hx, ← hy]; exact h

theorem offsetX_write_gol_board (x y : Int) (v : Bool) (b : gol_board) :
    (write_gol_board x y v b).offsetX = b.offsetX := by
  unfold write_gol_board set_bb_buffer; cases v <;> rfl

theorem offsetY_write_gol_board (x y : Int) (v : Bool) (b : gol_board) :
    (write_gol_board x y v b).offsetY = b.offsetY := by
  unfold write_gol_board set_bb_buffer; cases v <;> rfl

theorem rule_write_gol_board (x y : Int) (v : Bool) (b : gol_board) :
    (write_gol_board x y v b).rule = b.rule := by
  unfold write_gol_board set_bb_buffer; cases v <;> rfl

theorem mem_int_range (lo hi v : Int) : v ∈ int_range lo hi ↔ lo ≤ v ∧ v ≤ hi := by
  unfold int_range
  constructor
  · intro h
    obtain ⟨k, hk, hv⟩ := List.mem_map.mp h
    rw [List.mem_range] at hk
    omega
  · rintro ⟨h1, h2⟩
    refine List.mem_map.mpr ⟨(v - lo).toNat, ?_, ?_⟩
    · rw [List.mem_range]; omega
    · omega

/-! ## The full scan of `get_next_generation` -/

theorem offsetX_next_generation_cell (prev n : gol_board) (f : Bool → Nat → Bool) (i j : Int) :
    (next_generation_cell prev f n i j).offsetX = n.offsetX := by
  unfold next_generation_cell
  simp only []
  split
  · exact offsetX_write_gol_board _ _ _ _
  · rfl

theorem offsetY_next_generation_cell (prev n : gol_board) (f : Bool → Nat → Bool) (i j : Int) :
    (next_generation_cell prev f n i j).offsetY = n.offsetY := by
  unfold next_generation_cell
  simp only []
  split
  · exact offsetY_write_gol_board _ _ _ _
  · rfl

theorem read_next_generation_cell (prev n : gol_board) (f : Bool → Nat → Bool)
    (i j x y : Int) (hij : address_no_overflow i j n) (hxy : address_no_overflow x y n) :
    read_gol_board x y (next_generation_cell prev f n i j) = true ↔
      read_gol_board x y n = true ∨
        ((x = i ∧ y = j) ∧ f (read_gol_board i j prev) (num_alive_at i j prev) = true) := by
  unfold next_generation_cell
  simp only []
  by_cases hf : f (read_gol_board i j prev) (num_alive_at i j prev) = true
  · rw [if_pos hf, read_gol_board_write_gol_board n i j x y true
      (position_in_bb_lt_SIZE_MAX i j n hij)]
    by_cases hc : cell_address x y n = cell_address i j n
    · have := cell_address_injective x y i j n hxy hij hc
      rw [if_pos hc]
      simp [this.1, this.2, hf]
    · have hne : ¬ (x = i ∧ y = j) := by
        rintro ⟨rfl, rfl⟩; exact hc rfl
      rw [if_neg hc]
      simp [hne]
  · rw [if_neg hf]
    simp [hf]

theorem offsets_foldl_row (prev : gol_board) (f : Bool → Nat → Bool) (i : Int) (js : List Int)
    (n : gol_board) :
    (js.foldl (fun n1 j => next_generation_cell prev f n1 i j) n).offsetX = n.offsetX ∧
      (js.foldl (fun n1 j => next_generation_cell prev f n1 i j) n).offsetY = n.offsetY := by
  induction js generalizing n with
  | nil => exact ⟨rfl, rfl⟩
  | cons j js ih =>
    rw [List.foldl_cons]
    have := ih (next_generation_cell prev f n i j)
    rw [offsetX_next_generation_cell, offsetY_next_generation_cell] at this
    exact this

theorem read_foldl_row (prev : gol_board) (f : Bool → Nat → Bool) (i : Int) (js : List Int)
    (n : gol_board) (x y : Int) (hjs : ∀ j ∈ js, address_no_overflow i j n)
    (hxy : address_no_overflow x y n) :
    read_gol_board x y (js.foldl (fun n1 j => next_generation_cell prev f n1 i j) n) = true ↔
      read_gol_board x y n = true ∨
        ((x = i ∧ y ∈ js) ∧ f (read_gol_board x y prev) (num_alive_at x y prev) = true) := by
  induction js generalizing n with
  | nil => simp
  | cons j js ih =>
    rw [List.foldl_cons]
    have ox := offsetX_next_generation_cell prev n f i j
    have oy := offsetY_next_generation_cell prev n f i j
    rw [ih (next_generation_cell prev f n i j)
      (fun j' hj' => address_no_overflow_congr _ _ _ _ ox.symm oy.symm
        (hjs j' (List.mem_cons_of_mem _ hj')))
      (address_no_overflow_congr _ _ _ _ ox.symm oy.symm hxy),
      read_next_generation_cell prev n f i j x y (hjs j (List.mem_cons_self _ _)) hxy]
    constructor
    · rintro ((h | ⟨⟨rfl, rfl⟩, h⟩) | ⟨⟨rfl, h1⟩, h2⟩)
      · exact Or.inl h
      · exact Or.inr ⟨⟨rfl, List.mem_cons_self _ _⟩, h⟩
      · exact Or.inr ⟨⟨rfl, List.mem_cons_of_mem _ h1⟩, h2⟩
    · rintro (h | ⟨⟨rfl, h1⟩, h2⟩)
      · exact Or.inl (Or.inl h)
      · rcases List.mem_cons.mp h1 with rfl | h1
        · exact Or.inl (Or.inr ⟨⟨rfl, rfl⟩, h2⟩)
        · exact Or.inr ⟨⟨rfl, h1⟩, h2⟩

theorem offsets_foldl_scan (prev : gol_board) (f : Bool → Nat → Bool) (is js : List Int)
    (n : gol_board) :
    (is.foldl (fun nxt i => js.foldl (fun n1 j => next_generation_cell prev f n1 i j) nxt)
        n).offsetX = n.offsetX ∧
      (is.foldl (fun nxt i => js.foldl (fun n1 j => next_generation_cell prev f n1 i j) nxt)
        n).offsetY = n.offsetY := by
  induction is generalizing n with
  | nil => exact ⟨rfl, rfl⟩
  | cons i is ih =>
    rw [List.foldl_cons]
    have := ih (js.foldl (fun n1 j => next_generation_cell prev f n1 i j) n)
    rw [(offsets_foldl_row prev f i js n).1, (offsets_foldl_row prev f i js n).2] at this
    exact this

theorem read_foldl_scan (prev : gol_board) (f : Bool → Nat → Bool) (is js : List Int)
    (n : gol_board) (x y : Int) (hscan : ∀ i ∈ is, ∀ j ∈ js, address_no_overflow i j n)
    (hxy : address_no_overflow x y n) :
    read_gol_board x y
        (is.foldl (fun nxt i => js.foldl (fun n1 j => next_generation_cell prev f n1 i j) nxt)
          n) = true ↔
      read_gol_board x y n = true ∨
        ((x ∈ is ∧ y ∈ js) ∧ f (read_gol_board x y prev) (num_alive_at x y prev) = true) := by
  induction is generalizing n with
  | nil => simp
  | cons i is ih =>
    rw [List.foldl_cons]
    have ox := (offsets_foldl_row prev f i js n).1
    have oy := (offsets_foldl_row prev f i js n).2
    rw [ih (js.foldl (fun n1 j => next_generation_cell prev f n1 i j) n)
      (fun i' hi' j' hj' => address_no_overflow_congr _ _ _ _ ox.symm oy.symm
        (hscan i' (List.mem_cons_of_mem _ hi') j' hj'))
      (address_no_overflow_congr _ _ _ _ ox.symm oy.symm hxy),
      read_foldl_row prev f i js n x y (fun j hj => hscan i (List.mem_cons_self _ _) j hj) hxy]
    constructor
    · rintro ((h | ⟨⟨rfl, h1⟩, h2⟩) | ⟨⟨h0, h1⟩, h2⟩)
      · exact Or.inl h
      · exact Or.inr ⟨⟨List.mem_cons_self _ _, h1⟩, h2⟩
      · exact Or.inr ⟨⟨List.mem_cons_of_mem _ h0, h1⟩, h2⟩
    · rintro (h | ⟨⟨h0, h1⟩, h2⟩)
      · exact Or.inl (Or.inl h)
      · rcases List.mem_cons.mp h0 with rfl | h0
        · exact Or.inl (Or.inr ⟨⟨rfl, h1⟩, h2⟩)
        · exact Or.inr ⟨⟨h0, h1⟩, h2⟩

/-! ## One generation by the full scan -/

theorem live_neighbours_eq_zero (x y : Int) (b : gol_board)
    (h : ∀ p ∈ moore_neighbours x y, read_gol_board p.1 p.2 b = false) :
    live_neighbours x y b = 0 := by
  unfold live_neighbours
  rw [List.countP_eq_zero]
  intro p hp
  simp [h p hp]

theorem rule_zero (f : Bool → Nat → Bool) (hf : f = is_alive_life ∨ f = is_alive_hilife)
    (p : Bool) : f p 0 = false := by
  rcases hf with rfl | rfl <;> rfl

theorem halo_of_neighbour_in_bounds (bd : gol_board_bounds) (x y : Int) (p : Int × Int)
    (hp : p ∈ moore_neighbours x y) (hb : in_bounds bd p.1 p.2) : in_halo bd x y := by
  unfold moore_neighbours at hp
  unfold in_bounds at hb
  unfold in_halo
  simp only [List.mem_cons, List.mem_singleton, List.mem_nil_iff, or_false] at hp
  rcases hp with rfl | rfl | rfl | rfl | rfl | rfl | rfl | rfl <;> simp only [] at hb <;>
    omega

theorem get_next_generation_read (prev next : gol_board) (f : Bool → Nat → Bool)
    (hfit : scan_no_overflow (get_game_bounds prev))
    (hscan : ∀ i j, in_halo (get_game_bounds prev) i j → address_no_overflow i j next)
    (x y : Int) (hxy : address_no_overflow x y next) :
    read_gol_board x y (get_next_generation prev next f) = true ↔
      read_gol_board x y next = true ∨
        (in_halo (get_game_bounds prev) x y ∧
          f (read_gol_board x y prev) (live_neighbours x y prev) = true) := by
  obtain ⟨⟨f1, f1'⟩, ⟨f2', f2⟩, ⟨f3, f3'⟩, ⟨f4', f4⟩⟩ := hfit
  unfold fits_intmax INTMAX_MIN INTMAX_MAX at f1 f2 f3 f4 f1' f2' f3' f4'
  have w1 : fits_intmax ((get_game_bounds prev).lowerX - 1) := by
    unfold fits_intmax INTMAX_MIN INTMAX_MAX; omega
  have w2 : fits_intmax ((get_game_bounds prev).upperX + 1) := by
    unfold fits_intmax INTMAX_MIN INTMAX_MAX; omega
  have w3 : fits_intmax ((get_game_bounds prev).lowerY - 1) := by
    unfold fits_intmax INTMAX_MIN INTMAX_MAX; omega
  have w4 : fits_intmax ((get_game_bounds prev).upperY + 1) := by
    unfold fits_intmax INTMAX_MIN INTMAX_MAX; omega
  unfold get_next_generation
  simp only []
  rw [wrap_intmax_of_fits _ w1, wrap_intmax_of_fits _ w2, wrap_intmax_of_fits _ w3,
    wrap_intmax_of_fits _ w4]
  rw [read_foldl_scan prev f _ _ next x y
    (fun i hi j hj => hscan i j (by
      rw [mem_int_range] at hi hj
      exact ⟨hi.1, hi.2, hj.1, hj.2⟩)) hxy]
  simp only [mem_int_range]
  constructor
  · rintro (h | ⟨⟨h1, h2⟩, h3⟩)
    · exact Or.inl h
    · refine Or.inr ⟨⟨h1.1, h1.2, h2.1, h2.2⟩, ?_⟩
      rw [← num_alive_at_eq x y prev
        (by unfold fits_intmax INTMAX_MIN INTMAX_MAX; omega)
        (by unfold fits_intmax INTMAX_MIN INTMAX_MAX; omega)
        (by unfold fits_intmax INTMAX_MIN INTMAX_MAX; omega)
        (by unfold fits_intmax INTMAX_MIN INTMAX_MAX; omega)]
      exact h3
  · rintro (h | ⟨⟨h1, h2, h3, h4⟩, h5⟩)
    · exact Or.inl h
    · refine Or.inr ⟨⟨⟨h1, h2⟩, ⟨h3, h4⟩⟩, ?_⟩
      rw [num_alive_at_eq x y prev
        (by unfold fits_intmax INTMAX_MIN INTMAX_MAX; omega)
        (by unfold fits_intmax INTMAX_MIN INTMAX_MAX; omega)
        (by unfold fits_intmax INTMAX_MIN INTMAX_MAX; omega)
        (by unfold fits_intmax INTMAX_MIN INTMAX_MAX; omega)]
      exact h5

theorem rule_false_outside_halo (prev : gol_board) (f : Bool → Nat → Bool)
    (hf : f = is_alive_life ∨ f = is_alive_hilife) (hbox : bounds_contain_live prev)
    (x y : Int) (hnb : ∀ p ∈ moore_neighbours x y, address_no_overflow p.1 p.2 prev)
    (hout : ¬ in_halo (get_game_bounds prev) x y) :
    f (read_gol_board x y prev) (live_neighbours x y prev) = false := by
  rw [live_neighbours_eq_zero x y prev, rule_zero f hf]
  intro p hp
  by_contra hlive
  rw [Bool.not_eq_false] at hlive
  exact hout (halo_of_neighbour_in_bounds _ x y p hp (hbox p.1 p.2 (hnb p hp) hlive))

/-- State of a cell after a full scan into a cleared board. -/
theorem get_next_generation_cell_state (prev n0 : gol_board) (ox oy : Int)
    (f : Bool → Nat → Bool) (hf : f = is_alive_life ∨ f = is_alive_hilife)
    (hfit : scan_no_overflow (get_game_bounds prev))
    (hbox : bounds_contain_live prev)
    (hscan : ∀ i j, in_halo (get_game_bounds prev) i j →
      address_no_overflow i j (set_offset ox oy (clean_board n0)))
    (x y : Int) (hxy : address_no_overflow x y (set_offset ox oy (clean_board n0)))
    (hnb : ∀ p ∈ moore_neighbours x y, address_no_overflow p.1 p.2 prev) :
    read_gol_board x y (get_next_generation prev (set_offset ox oy (clean_board n0)) f) =
        f (read_gol_board x y prev) (live_neighbours x y prev) ∧
      (¬ in_halo (get_game_bounds prev) x y →
        read_gol_board x y (get_next_generation prev (set_offset ox oy (clean_board n0)) f) =
          false) := by
  have key := get_next_generation_read prev (set_offset ox oy (clean_board n0)) f hfit hscan
    x y hxy
  rw [read_gol_board_set_offset_clean_board] at key
  simp only [Bool.false_eq_true, false_or] at key
  have hout : ¬ in_halo (get_game_bounds prev) x y →
      read_gol_board x y (get_next_generation prev (set_offset ox oy (clean_board n0)) f) =
        false := by
    intro hno
    rw [← Bool.not_eq_true]
    intro h
    exact hno (key.mp h).1
  refine ⟨?_, hout⟩
  by_cases hh : in_halo (get_game_bounds prev) x y
  · rw [Bool.eq_iff_iff, key]
    exact ⟨fun h => h.2, fun h => ⟨hh, h⟩⟩
  · rw [hout hh, rule_false_outside_halo prev f hf hbox x y hnb hh]

/-! ## Cells near the origin, and the bounding box invariant -/

theorem address_no_overflow_of_near_origin (x y : Int) (b : gol_board)
    (h : near_origin x y b) : address_no_overflow x y b := by
  obtain ⟨⟨hx1, hx2⟩, ⟨hy1, hy2⟩⟩ := h
  have hX := sign_fold_nonneg (x + b.offsetX)
  have hY := sign_fold_nonneg (y + b.offsetY)
  have hX2 : sign_fold (x + b.offsetX) < 2 ^ 36 := by unfold sign_fold; split <;> omega
  have hY2 : sign_fold (y + b.offsetY) < 2 ^ 36 := by unfold sign_fold; split <;> omega
  refine ⟨?_, ?_, ?_⟩
  · unfold fits_intmax INTMAX_MIN INTMAX_MAX; omega
  · unfold fits_intmax INTMAX_MIN INTMAX_MAX; omega
  · unfold index_no_overflow
    rw [tdiv_32_eq _ hX, tdiv_32_eq _ hY]
    have a0 : 0 ≤ sign_fold (x + b.offsetX) / 32 := by omega
    have a1 : sign_fold (x + b.offsetX) / 32 ≤ 2 ^ 31 - 1 := by omega
    have b0 : 0 ≤ sign_fold (y + b.offsetY) / 32 := by omega
    have b1 : sign_fold (y + b.offsetY) / 32 ≤ 2 ^ 31 - 1 := by omega
    have sa : sign_fold (x + b.offsetX) / 32 * (sign_fold (x + b.offsetX) / 32) ≤
        (2 ^ 31 - 1) * (2 ^ 31 - 1) := mul_le_mul a1 a1 a0 (by norm_num)
    have sb : sign_fold (y + b.offsetY) / 32 * (sign_fold (y + b.offsetY) / 32) ≤
        (2 ^ 31 - 1) * (2 ^ 31 - 1) := mul_le_mul b1 b1 b0 (by norm_num)
    have na := mul_self_nonneg (sign_fold (x + b.offsetX) / 32)
    have nb := mul_self_nonneg (sign_fold (y + b.offsetY) / 32)
    norm_num at sa sb
    unfold fits_intmax INTMAX_MIN INTMAX_MAX
    split <;> refine ⟨?_, ?_⟩ <;> omega

theorem board_bounds_write_true (x y : Int) (b : gol_board) :
    (write_gol_board x y true b).board_bounds =
      { upperX := max b.board_bounds.upperX x
        lowerX := min b.board_bounds.lowerX x
        upperY := max b.board_bounds.upperY y
        lowerY := min b.board_bounds.lowerY y } := by
  unfold write_gol_board set_bb_buffer
  rfl

theorem board_bounds_write_false (x y : Int) (b : gol_board) :
    (write_gol_board x y false b).board_bounds = b.board_bounds := by
  unfold write_gol_board set_bb_buffer
  rfl

theorem in_bounds_write_of_in_bounds (i j x y : Int) (v : Bool) (b : gol_board)
    (h : in_bounds (get_game_bounds b) x y) :
    in_bounds (get_game_bounds (write_gol_board i j v b)) x y := by
  unfold get_game_bounds in_bounds at *
  cases v
  · rw [board_bounds_write_false]; exact h
  · rw [board_bounds_write_true]
    simp only []
    omega

theorem in_bounds_write_self (i j : Int) (b : gol_board) :
    in_bounds (get_game_bounds (write_gol_board i j true b)) i j := by
  unfold get_game_bounds in_bounds
  rw [board_bounds_write_true]
  simp only []
  omega

/-- A write at an address without overflow keeps the bounding box invariant. -/
theorem bounds_contain_live_write (i j : Int) (v : Bool) (b : gol_board)
    (hij : address_no_overflow i j b) (h : bounds_contain_live b) :
    bounds_contain_live (write_gol_board i j v b) := by
  intro x y hxy hr
  have hxy' : address_no_overflow x y b :=
    address_no_overflow_congr _ _ _ _ (offsetX_write_gol_board i j v b)
      (offsetY_write_gol_board i j v b) hxy
  rw [read_gol_board_write_gol_board b i j x y v (position_in_bb_lt_SIZE_MAX i j b hij)] at hr
  by_cases hc : cell_address x y b = cell_address i j b
  · rw [if_pos hc] at hr
    obtain ⟨rfl, rfl⟩ := cell_address_injective x y i j b hxy' hij hc
    subst hr
    exact in_bounds_write_self x y b
  · rw [if_neg hc] at hr
    exact in_bounds_write_of_in_bounds i j x y v b (h x y hxy' hr)

theorem offsets_apply_writes (ws : List (Int × Int × Bool)) (b : gol_board) :
    (apply_writes ws b).offsetX = b.offsetX ∧ (apply_writes ws b).offsetY = b.offsetY := by
  unfold apply_writes
  induction ws generalizing b with
  | nil => exact ⟨rfl, rfl⟩
  | cons w ws ih =>
    rw [List.foldl_cons]
    have := ih (write_gol_board w.1 w.2.1 w.2.2 b)
    rw [offsetX_write_gol_board, offsetY_write_gol_board] at this
    exact this

theorem bounds_contain_live_apply_writes (ws : List (Int × Int × Bool)) (b : gol_board)
    (hws : ∀ w ∈ ws, address_no_overflow w.1 w.2.1 b) (h : bounds_contain_live b) :
    bounds_contain_live (apply_writes ws b) := by
  unfold apply_writes
  induction ws generalizing b with
  | nil => exact h
  | cons w ws ih =>
    rw [List.foldl_cons]
    apply ih
    · intro w' hw'
      exact address_no_overflow_congr _ _ _ _ (offsetX_write_gol_board _ _ _ b).symm
        (offsetY_write_gol_board _ _ _ b).symm (hws w' (List.mem_cons_of_mem _ hw'))
    · exact bounds_contain_live_write _ _ _ b (hws w (List.mem_cons_self _ _)) h

theorem bounds_contain_live_of_all_none (b : gol_board)
    (h : ∀ d i, d < 4 → (b.bb_buffer d).getD i none = none) : bounds_contain_live b := by
  intro x y _ hr
  rw [read_gol_board_of_all_none x y b h] at hr
  exact absurd hr (by decide)

theorem bounds_contain_live_new_board : bounds_contain_live new_board :=
  bounds_contain_live_of_all_none _ (fun _ _ _ => by simp [new_board])

theorem bounds_contain_live_clean_board (b : gol_board) :
    bounds_contain_live (clean_board b) :=
  bounds_contain_live_of_all_none _ (fun d i hd => getD_clean_board b d i hd)

/-! ## Invariants of the full scan -/

theorem foldl_invariant {α β : Type} (P : α → Prop) (g : α → β → α) (l : List β) (a : α)
    (h0 : P a) (hstep : ∀ a' b, b ∈ l → P a' → P (g a' b)) : P (l.foldl g a) := by
  induction l generalizing a with
  | nil => exact h0
  | cons b l ih =>
    rw [List.foldl_cons]
    exact ih _ (hstep a b (List.mem_cons_self _ _) h0)
      (fun a' b' hb' hp => hstep a' b' (List.mem_cons_of_mem _ hb') hp)

theorem scan_bounds_fit (bd : gol_board_bounds) (h : scan_no_overflow bd) :
    fits_intmax (bd.lowerX - 1) ∧ fits_intmax (bd.upperX + 1) ∧
      fits_intmax (bd.lowerY - 1) ∧ fits_intmax (bd.upperY + 1) := by
  unfold scan_no_overflow fits_intmax INTMAX_MIN INTMAX_MAX at h
  unfold fits_intmax INTMAX_MIN INTMAX_MAX
  omega

/-- A property kept by every write of a live cell in the scanned region holds
after `get_next_generation`. -/
theorem get_next_generation_invariant (P : gol_board → Prop) (prev next : gol_board)
    (f : Bool → Nat → Bool) (hfit : scan_no_overflow (get_game_bounds prev))
    (hstep : ∀ n i j, in_halo (get_game_bounds prev) i j → P n →
      P (write_gol_board i j true n))
    (h0 : P next) : P (get_next_generation prev next f) := by
  obtain ⟨w1, w2, w3, w4⟩ := scan_bounds_fit _ hfit
  unfold get_next_generation
  simp only []
  rw [wrap_intmax_of_fits _ w1, wrap_intmax_of_fits _ w2, wrap_intmax_of_fits _ w3,
    wrap_intmax_of_fits _ w4]
  apply foldl_invariant P _ _ _ h0
  intro n i hi hn
  apply foldl_invariant P _ _ _ hn
  intro n' j hj hn'
  rw [mem_int_range] at hi hj
  unfold next_generation_cell
  simp only []
  split
  · exact hstep n' i j ⟨hi.1, hi.2, hj.1, hj.2⟩ hn'
  · exact hn'

theorem offsets_get_next_generation (prev next : gol_board) (f : Bool → Nat → Bool) :
    (get_next_generation prev next f).offsetX = next.offsetX ∧
      (get_next_generation prev next f).offsetY = next.offsetY := by
  unfold get_next_generation
  exact offsets_foldl_scan prev f _ _ next

theorem bounds_within_write (i j : Int) (b : gol_board) (R : Int)
    (h : bounds_within (get_game_bounds b) R) (hi : -R ≤ i ∧ i ≤ R) (hj : -R ≤ j ∧ j ≤ R) :
    bounds_within (get_game_bounds (write_gol_board i j true b)) R := by
  unfold bounds_within get_game_bounds at *
  rw [board_bounds_write_true]
  simp only []
  omega

/-- After a scan into a board whose box is within `R + 1`, the box of the result
is within `R + 1` when the box of the scanned board is within `R`. -/
theorem bounds_within_get_next_generation (prev next : gol_board) (f : Bool → Nat → Bool)
    (R : Int) (hfit : scan_no_overflow (get_game_bounds prev))
    (hprev : bounds_within (get_game_bounds prev) R)
    (hnext : bounds_within (get_game_bounds next) (R + 1)) :
    bounds_within (get_game_bounds (get_next_generation prev next f)) (R + 1) := by
  apply get_next_generation_invariant (fun n => bounds_within (get_game_bounds n) (R + 1))
    prev next f hfit _ hnext
  intro n i j hh hn
  unfold in_halo at hh
  unfold bounds_within at hprev
  exact bounds_within_write i j n (R + 1) hn (by omega) (by omega)

/-- The bounding box invariant holds after a scan into a board on which it
holds, when the scanned cells have addresses without overflow. -/
theorem bounds_contain_live_get_next_generation (prev next : gol_board)
    (f : Bool → Nat → Bool) (hfit : scan_no_overflow (get_game_bounds prev))
    (hscan : ∀ i j, in_halo (get_game_bounds prev) i j → address_no_overflow i j next)
    (hnext : bounds_contain_live next) :
    bounds_contain_live (get_next_generation prev next f) := by
  have key := get_next_generation_invariant
    (fun n => (n.offsetX = next.offsetX ∧ n.offsetY = next.offsetY) ∧ bounds_contain_live n)
    prev next f hfit (by
      intro n i j hh hn
      obtain ⟨⟨ox, oy⟩, hl⟩ := hn
      refine ⟨⟨?_, ?_⟩, ?_⟩
      · rw [offsetX_write_gol_board]; exact ox
      · rw [offsetY_write_gol_board]; exact oy
      · exact bounds_contain_live_write i j true n
          (address_no_overflow_congr _ _ _ _ ox.symm oy.symm (hscan i j hh)) hl)
    ⟨⟨rfl, rfl⟩, hnext⟩
  exact key.2

/-! ## The kernel loop with the full scan -/

theorem tdiv_two_bounds (v R : Int) (h1 : -(2 * R) ≤ v) (h2 : v ≤ 2 * R) :
    -R ≤ v.tdiv 2 ∧ v.tdiv 2 ≤ R := by
  by_cases hv : 0 ≤ v
  · rw [Int.tdiv_eq_ediv hv (by norm_num)]
    omega
  · have hw : 0 ≤ -v := by omega
    have e : v.tdiv 2 = -((-v) / 2) := by
      rw [← Int.tdiv_eq_ediv hw (by norm_num), Int.neg_tdiv, neg_neg]
    rw [e]
    omega

theorem center_offset_eq (bd : gol_board_bounds) (board : gol_board) (R : Int)
    (h : bounds_within bd R) (hR : R ≤ 2 ^ 60) :
    center_offset bd board =
      set_offset ((-(bd.upperX - bd.lowerX)).tdiv 2) ((-(bd.upperY - bd.lowerY)).tdiv 2)
        board := by
  unfold bounds_within at h
  unfold center_offset
  simp only []
  rw [wrap_intmax_of_fits (bd.upperX - bd.lowerX)
      (by unfold fits_intmax INTMAX_MIN INTMAX_MAX; omega),
    wrap_intmax_of_fits (bd.upperY - bd.lowerY)
      (by unfold fits_intmax INTMAX_MIN INTMAX_MAX; omega),
    wrap_intmax_of_fits (-(bd.upperX - bd.lowerX))
      (by unfold fits_intmax INTMAX_MIN INTMAX_MAX; omega),
    wrap_intmax_of_fits (-(bd.upperY - bd.lowerY))
      (by unfold fits_intmax INTMAX_MIN INTMAX_MAX; omega)]

theorem mem_moore_neighbours_bounds (x y : Int) (p : Int × Int)
    (hp : p ∈ moore_neighbours x y) :
    (x - 1 ≤ p.1 ∧ p.1 ≤ x + 1) ∧ (y - 1 ≤ p.2 ∧ p.2 ≤ y + 1) := by
  unfold moore_neighbours at hp
  simp only [List.mem_cons, List.mem_singleton, List.mem_nil_iff, or_false] at hp
  rcases hp with rfl | rfl | rfl | rfl | rfl | rfl | rfl | rfl <;> simp only [] <;> omega

theorem evolve_loop_succ (it : Bool) (f : Bool → Nat → Bool) (k : Nat) (st : evolve_state) :
    evolve_loop it f (k + 1) st = evolve_step it f (evolve_loop it f k st) := by
  unfold evolve_loop
  rw [List.range_succ, List.foldl_append]
  rfl

/-- One iteration of the kernel loop with the full scan. -/
theorem evolve_step_full_scan (f : Bool → Nat → Bool)
    (hf : f = is_alive_life ∨ f = is_alive_hilife) (st : evolve_state) (R : Int)
    (hR : R ≤ 2 ^ 34) (h1 : bounds_contain_live st.current_gen)
    (h2 : bounds_within (get_game_bounds st.current_gen) R) :
    bounds_contain_live (evolve_step false f st).current_gen ∧
      bounds_within (get_game_bounds (evolve_step false f st).current_gen) (R + 1) ∧
      ((-R ≤ (evolve_step false f st).current_gen.offsetX ∧
          (evolve_step false f st).current_gen.offsetX ≤ R) ∧
        (-R ≤ (evolve_step false f st).current_gen.offsetY ∧
          (evolve_step false f st).current_gen.offsetY ≤ R)) ∧
      ∀ x y : Int, (-(2 ^ 35) ≤ x ∧ x ≤ 2 ^ 35) → (-(2 ^ 35) ≤ y ∧ y ≤ 2 ^ 35) →
        (∀ p ∈ moore_neighbours x y, address_no_overflow p.1 p.2 st.current_gen) →
        read_gol_board x y (evolve_step false f st).current_gen =
          f (read_gol_board x y st.current_gen) (live_neighbours x y st.current_gen) := by
  have hR0 : 0 ≤ R := by unfold bounds_within at h2; omega
  have hc := center_offset_eq (get_game_bounds st.current_gen) (clean_board st.next_gen) R h2
    (by omega)
  have hstep : (evolve_step false f st).current_gen =
      get_next_generation st.current_gen
        (set_offset ((-((get_game_bounds st.current_gen).upperX -
            (get_game_bounds st.current_gen).lowerX)).tdiv 2)
          ((-((get_game_bounds st.current_gen).upperY -
            (get_game_bounds st.current_gen).lowerY)).tdiv 2)
          (clean_board st.next_gen)) f := by
    unfold evolve_step
    simp only [Bool.false_eq_true, if_false]
    rw [hc]
  rw [hstep]
  generalize hox : (-((get_game_bounds st.current_gen).upperX -
      (get_game_bounds st.current_gen).lowerX)).tdiv 2 = ox
  generalize hoy : (-((get_game_bounds st.current_gen).upperY -
      (get_game_bounds st.current_gen).lowerY)).tdiv 2 = oy
  have box : -R ≤ ox ∧ ox ≤ R := by
    rw [← hox]
    unfold bounds_within at h2
    exact tdiv_two_bounds _ R (by omega) (by omega)
  have boy : -R ≤ oy ∧ oy ≤ R := by
    rw [← hoy]
    unfold bounds_within at h2
    exact tdiv_two_bounds _ R (by omega) (by omega)
  have hfit : scan_no_overflow (get_game_bounds st.current_gen) := by
    unfold bounds_within at h2
    unfold scan_no_overflow fits_intmax INTMAX_MIN INTMAX_MAX
    omega
  have hnear : ∀ i j : Int, (-(2 ^ 35) - 1 ≤ i ∧ i ≤ 2 ^ 35 + 1) →
      (-(2 ^ 35) - 1 ≤ j ∧ j ≤ 2 ^ 35 + 1) →
      address_no_overflow i j (set_offset ox oy (clean_board st.next_gen)) := by
    intro i j hi hj
    apply address_no_overflow_of_near_origin
    unfold near_origin set_offset
    simp only []
    omega
  have hscan : ∀ i j, in_halo (get_game_bounds st.current_gen) i j →
      address_no_overflow i j (set_offset ox oy (clean_board st.next_gen)) := by
    intro i j hh
    unfold in_halo at hh
    unfold bounds_within at h2
    exact hnear i j (by omega) (by omega)
  have ho := offsets_get_next_generation st.current_gen
    (set_offset ox oy (clean_board st.next_gen)) f
  refine ⟨?_, ?_, ?_, ?_⟩
  · exact bounds_contain_live_get_next_generation _ _ f hfit hscan
      (bounds_contain_live_of_all_none _ (fun d i hd => getD_clean_board st.next_gen d i hd))
  · apply bounds_within_get_next_generation _ _ f R hfit h2
    unfold bounds_within get_game_bounds set_offset clean_board
    simp only []
    omega
  · rw [ho.1, ho.2]
    exact ⟨box, boy⟩
  · intro x y hx hy hnb
    exact (get_next_generation_cell_state st.current_gen st.next_gen ox oy f hf hfit h1 hscan
      x y (hnear x y (by omega) (by omega)) hnb).1

theorem live_neighbours_congr (x y : Int) (b : gol_board) (g : Int → Int → Bool)
    (h : ∀ p ∈ moore_neighbours x y, read_gol_board p.1 p.2 b = g p.1 p.2) :
    live_neighbours x y b = (moore_neighbours x y).countP (fun p => g p.1 p.2) := by
  unfold live_neighbours
  apply List.countP_congr
  intro p hp
  rw [h p hp]

/-- The kernel loop with the full scan computes the iterated rule on every cell
whose dependency cone stays in the range of addresses without overflow. -/
theorem evolve_loop_full_scan (f : Bool → Nat → Bool)
    (hf : f = is_alive_life ∨ f = is_alive_hilife) (b nxt : gol_board) (flag : Bool)
    (R : Int) (n : Nat) (x y : Int) (hbox : bounds_contain_live b)
    (hR : bounds_within (get_game_bounds b) R) (hn : R + n ≤ 2 ^ 34)
    (hx : -(2 ^ 34) ≤ x ∧ x ≤ 2 ^ 34) (hy : -(2 ^ 34) ≤ y ∧ y ≤ 2 ^ 34)
    (hdom : ∀ p q : Int, (x - n ≤ p ∧ p ≤ x + n) → (y - n ≤ q ∧ q ≤ y + n) →
      address_no_overflow p q b)
    (k : Nat) (hk : k ≤ n) :
    bounds_contain_live (evolve_loop false f k ⟨b, nxt, flag⟩).current_gen ∧
      bounds_within (get_game_bounds (evolve_loop false f k ⟨b, nxt, flag⟩).current_gen)
        (R + k) ∧
      ∀ p q : Int, (x - (n - k : Nat) ≤ p ∧ p ≤ x + (n - k : Nat)) →
        (y - (n - k : Nat) ≤ q ∧ q ≤ y + (n - k : Nat)) →
        address_no_overflow p q (evolve_loop false f k ⟨b, nxt, flag⟩).current_gen ∧
          read_gol_board p q (evolve_loop false f k ⟨b, nxt, flag⟩).current_gen =
            life_iterate f k (fun u v => read_gol_board u v b) p q := by
  have hR0 : 0 ≤ R := by unfold bounds_within at hR; omega
  induction k with
  | zero =>
    refine ⟨hbox, ?_, ?_⟩
    · simpa using hR
    · intro p q hp hq
      exact ⟨hdom p q (by omega) (by omega), rfl⟩
  | succ k ih =>
    obtain ⟨i1, i2, i3⟩ := ih (by omega)
    rw [evolve_loop_succ]
    obtain ⟨s1, s2, s3, s4⟩ := evolve_step_full_scan f hf
      (evolve_loop false f k ⟨b, nxt, flag⟩) (R + k) (by omega) i1 i2
    refine ⟨s1, ?_, ?_⟩
    · have e : R + ((k + 1 : Nat) : Int) = R + k + 1 := by push_cast; ring
      rw [e]; exact s2
    · intro p q hp hq
      have hnb : ∀ r ∈ moore_neighbours p q,
          address_no_overflow r.1 r.2 (evolve_loop false f k ⟨b, nxt, flag⟩).current_gen ∧
            read_gol_board r.1 r.2 (evolve_loop false f k ⟨b, nxt, flag⟩).current_gen =
              life_iterate f k (fun u v => read_gol_board u v b) r.1 r.2 := by
        intro r hr
        have hb := mem_moore_neighbours_bounds p q r hr
        exact i3 r.1 r.2 (by omega) (by omega)
      constructor
      · apply address_no_overflow_of_near_origin
        unfold near_origin
        omega
      · rw [s4 p q (by omega) (by omega) (fun r hr => (hnb r hr).1),
          (i3 p q (by omega) (by omega)).2,
          live_neighbours_congr p q _ (life_iterate f k (fun u v => read_gol_board u v b))
            (fun r hr => (hnb r hr).2)]
        rfl

theorem read_gol_board_swap_fst (x y : Int) (a b : gol_board) :
    read_gol_board x y (gol_swap_board a b).1 = read_gol_board x y b := by
  rw [read_gol_board_eq, read_gol_board_eq]
  have hc : cell_address x y (gol_swap_board a b).1 = cell_address x y b := rfl
  rw [hc]
  have hd : (cell_address x y b).direction < 4 := direction_lt _ _
  unfold gol_swap_board bb_all_dirs
  simp only [hd, if_true]

theorem read_evolve_to_generation_n (n : Nat) (b : gol_board) (verbose it : Bool)
    (x y : Int) (hn : n ≠ 0) :
    read_gol_board x y (evolve_to_generation_n n b verbose it) =
      read_gol_board x y
        (evolve_loop it (select_life_count (get_game_rules b)) n
          ⟨b, set_game_rules (get_game_rules b) new_board, true⟩).current_gen := by
  unfold evolve_to_generation_n
  rw [if_neg hn]
  simp only []
  split
  · exact read_gol_board_swap_fst _ _ _ _
  · rfl

theorem select_life_count_cases (r : gol_rules) :
    select_life_count r = is_alive_life ∨ select_life_count r = is_alive_hilife := by
  cases r
  · exact Or.inl rfl
  · exact Or.inr rfl
  · exact Or.inl rfl

/-! ## Copying a board -/

theorem foldl_continue_search (vals : Nat → Nat) (l : List Nat) (c : Bool) :
    l.foldl (fun continue_search i => if continue_search then vals i == 0 else continue_search)
        c = (c && l.all (fun i => vals i == 0)) := by
  induction l generalizing c with
  | nil => simp
  | cons a l ih =>
    rw [List.foldl_cons, ih]
    cases c <;> simp

theorem is_empty_block_iff (bb : basic_block) :
    is_empty_block bb = true ↔ ∀ i, i < 32 → bb.values i = 0 := by
  unfold is_empty_block BLOCKSIZE
  rw [foldl_continue_search]
  simp [List.all_eq_true]

theorem read_in_block_of_empty (x y : Nat) (bb : basic_block) (hy : y < 32)
    (h : is_empty_block bb = true) : read_in_block x y bb = false := by
  rw [is_empty_block_iff] at h
  unfold read_in_block
  rw [h y hy]
  simp

theorem read_in_block_memcpy_values (x y : Nat) (dst bb : basic_block) (hy : y < 32) :
    read_in_block x y (memcpy_values dst bb) = read_in_block x y bb := by
  unfold read_in_block memcpy_values BLOCKSIZE
  simp [hy]

theorem memcmp_values_eq_memcpy (dst bb : basic_block) :
    memcmp_values_eq bb (memcpy_values dst bb) = true := by
  unfold memcmp_values_eq memcpy_values BLOCKSIZE
  rw [List.all_eq_true]
  intro i hi
  rw [List.mem_range] at hi
  simp [hi]

theorem copy_quadrant_loop_of_ge (src : List (Option basic_block)) (fuel j : Nat)
    (dst : List (Option basic_block)) (h : src.length ≤ j) :
    copy_quadrant_loop src fuel j dst = dst := by
  cases fuel with
  | zero => rfl
  | succ fuel =>
    unfold copy_quadrant_loop
    rw [if_neg (by omega)]

/-- Slots of the destination after the descending loop of `gol_copy_board`
started at index `j`, when the destination holds no block. -/
theorem getD_copy_quadrant_loop (src : List (Option basic_block)) (hsrc : src.length ≤ SIZE_MAX)
    (fuel j : Nat) (dst : List (Option basic_block)) (hj : j < src.length) (hf : j < fuel)
    (i : Nat) :
    (copy_quadrant_loop src fuel j dst).getD i none =
      if i ≤ j then
        (match copied_slot (src.getD i none) with
          | some c => some c
          | none => dst.getD i none)
      else dst.getD i none := by
  unfold SIZE_MAX at hsrc
  induction fuel generalizing j dst with
  | zero => omega
  | succ fuel ih =>
    unfold copy_quadrant_loop
    rw [if_pos hj]
    simp only []
    have hw : wrap_size (j + 1) = j + 1 := by unfold wrap_size; omega
    by_cases hj0 : j = 0
    · subst hj0
      have hnext : wrap_size (0 + SIZE_MAX) = 2 ^ 64 - 1 := by
        unfold wrap_size SIZE_MAX; rfl
      rw [hnext, copy_quadrant_loop_of_ge _ _ _ _ (by omega)]
      by_cases hi : i = 0
      · subst hi
        simp only [le_refl, if_true]
        cases hs : src.getD 0 none with
        | none => simp [copied_slot]
        | some bb =>
          by_cases he : is_empty_block bb = true
          · simp [copied_slot, he]
          · simp only [Bool.not_eq_true] at he
            simp only [copied_slot, he, Bool.not_false, if_true]
            rw [getD_set_none, length_realloc_bb_buffer, hw]
            simp
      · have : ¬ i ≤ 0 := by omega
        rw [if_neg this]
        cases hs : src.getD 0 none with
        | none => rfl
        | some bb =>
          simp only []
          split
          · rw [getD_set_none, getD_realloc_bb_buffer]
            have : ¬ (0 = i ∧ 0 < (realloc_bb_buffer (wrap_size (0 + 1)) dst).length) := by
              omega
            rw [if_neg this]
          · rfl
    · have hnext : wrap_size (j + SIZE_MAX) = j - 1 := by
        unfold wrap_size SIZE_MAX; omega
      rw [hnext, ih (j - 1) _ (by omega) (by omega)]
      by_cases hi : i ≤ j - 1
      · have hij : i ≤ j := by omega
        rw [if_pos hi, if_pos hij]
        cases hc : copied_slot (src.getD i none) with
        | some c => rfl
        | none =>
          simp only []
          cases hs : src.getD j none with
          | none => rfl
          | some bb =>
            simp only []
            split
            · rw [getD_set_none, getD_realloc_bb_buffer]
              have : ¬ (j = i ∧ j < (realloc_bb_buffer (wrap_size (j + 1)) dst).length) := by
                omega
              rw [if_neg this]
            · rfl
      · rw [if_neg hi]
        by_cases hij : i = j
        · subst hij
          simp only [le_refl, if_true]
          cases hs : src.getD i none with
          | none => simp [copied_slot]
          | some bb =>
            by_cases he : is_empty_block bb = true
            · simp [copied_slot, he]
            · simp only [Bool.not_eq_true] at he
              simp only [copied_slot, he, Bool.not_false, if_true]
              rw [getD_set_none, length_realloc_bb_buffer, hw]
              simp
        · have hij' : ¬ i ≤ j := by omega
          rw [if_neg hij']
          cases hs : src.getD j none with
          | none => rfl
          | some bb =>
            simp only []
            split
            · rw [getD_set_none, getD_realloc_bb_buffer]
              have : ¬ (j = i ∧ j < (realloc_bb_buffer (wrap_size (j + 1)) dst).length) := by
                omega
              rw [if_neg this]
            · rfl

theorem getD_gol_copy_board (B C : gol_board) (hB : capacities_fit B) (d i : Nat)
    (hd : d < 4) :
    ((gol_copy_board B C).bb_buffer d).getD i none =
      copied_slot ((B.bb_buffer d).getD i none) := by
  have hdst : ∀ k, ((clean_board C).bb_buffer d).getD k none = none :=
    fun k => getD_clean_board C d k hd
  have hcap : (B.bb_buffer d).length ≤ SIZE_MAX := hB d hd
  have hbuf : (gol_copy_board B C).bb_buffer d =
      copy_quadrant_loop (B.bb_buffer d) ((B.bb_buffer d).length + 1)
        (wrap_size ((B.bb_buffer d).length + SIZE_MAX)) ((clean_board C).bb_buffer d) := by
    unfold gol_copy_board set_game_rules set_offset size_bb_buffer bb_all_dirs
    simp only [hd, if_true]
  rw [hbuf]
  by_cases hl : (B.bb_buffer d).length = 0
  · have hj : wrap_size ((B.bb_buffer d).length + SIZE_MAX) = 2 ^ 64 - 1 := by
      rw [hl]; unfold wrap_size SIZE_MAX; rfl
    rw [hj, copy_quadrant_loop_of_ge _ _ _ _ (by omega), hdst,
      List.getD_eq_default _ _ (by omega)]
    rfl
  · have hj : wrap_size ((B.bb_buffer d).length + SIZE_MAX) = (B.bb_buffer d).length - 1 := by
      unfold SIZE_MAX at hcap
      unfold wrap_size SIZE_MAX; omega
    rw [hj, getD_copy_quadrant_loop _ hcap _ _ _ (by omega) (by omega), hdst]
    by_cases hi : i ≤ (B.bb_buffer d).length - 1
    · rw [if_pos hi]
      cases copied_slot ((B.bb_buffer d).getD i none) <;> rfl
    · rw [if_neg hi, List.getD_eq_default _ _ (by omega)]
      rfl

theorem gol_copy_board_fields (B C : gol_board) :
    get_game_bounds (gol_copy_board B C) = get_game_bounds B ∧
      (gol_copy_board B C).offsetX = B.offsetX ∧ (gol_copy_board B C).offsetY = B.offsetY ∧
      get_game_rules (gol_copy_board B C) = get_game_rules B :=
  ⟨rfl, rfl, rfl, rfl⟩

theorem read_gol_board_gol_copy_board (B C : gol_board) (hB : capacities_fit B) (x y : Int) :
    read_gol_board x y (gol_copy_board B C) = read_gol_board x y B := by
  rw [read_gol_board_eq, read_gol_board_eq]
  have hc : cell_address x y (gol_copy_board B C) = cell_address x y B := rfl
  rw [hc, getD_gol_copy_board B C hB (cell_address x y B).direction
    (cell_address x y B).position_in_bb (direction_lt _ _)]
  have hy : (cell_address x y B).bbPositionY < 32 := bbPositionY_lt _ _
  cases (B.bb_buffer (cell_address x y B).direction).getD
      (cell_address x y B).position_in_bb none with
  | none => rfl
  | some bb =>
    by_cases he : is_empty_block bb = true
    · simp only [copied_slot, he, Bool.not_true, Bool.false_eq_true, if_false]
      exact (read_in_block_of_empty _ _ bb hy he).symm
    · simp only [Bool.not_eq_true] at he
      simp only [copied_slot, he, Bool.not_false, if_true]
      exact read_in_block_memcpy_values _ _ _ bb hy

theorem same_slot_copied_slot (s : Option basic_block) : same_slot s (copied_slot s) = true := by
  cases s with
  | none => rfl
  | some bb =>
    by_cases he : is_empty_block bb = true
    · simp [copied_slot, same_slot, he]
    · simp only [Bool.not_eq_true] at he
      simp only [copied_slot, he, Bool.not_false, if_true, same_slot]
      exact memcmp_values_eq_memcpy _ bb

theorem gol_same_board_gol_copy_board (B C : gol_board) (hB : capacities_fit B) :
    gol_same_board B (gol_copy_board B C) = true := by
  obtain ⟨h1, h2, h3, _⟩ := gol_copy_board_fields B C
  unfold gol_same_board
  simp only [h1, h2, h3, ne_eq, not_true_eq_false, or_self, if_false, and_self, if_true]
  rw [List.all_eq_true]
  intro d hd
  rw [List.mem_range] at hd
  rw [List.all_eq_true]
  intro j _
  rw [getD_gol_copy_board B C hB d j hd]
  exact same_slot_copied_slot _

/-! ## Swapping two boards -/

theorem read_gol_board_swap_snd (x y : Int) (a b : gol_board) :
    read_gol_board x y (gol_swap_board a b).2 = read_gol_board x y a := by
  rw [read_gol_board_eq, read_gol_board_eq]
  have hc : cell_address x y (gol_swap_board a b).2 = cell_address x y a := rfl
  rw [hc]
  have hd : (cell_address x y a).direction < 4 := direction_lt _ _
  unfold gol_swap_board bb_all_dirs
  simp only [hd, if_true]

/-! ## Rules, capacities and the kernel loop -/

theorem rule_next_generation_cell (prev n : gol_board) (f : Bool → Nat → Bool) (i j : Int) :
    (next_generation_cell prev f n i j).rule = n.rule := by
  unfold next_generation_cell
  simp only []
  split
  · exact rule_write_gol_board _ _ _ _
  · rfl

theorem rule_next_generation_iterator_cell (prev n : gol_board) (f : Bool → Nat → Bool)
    (i j : Int) : (next_generation_iterator_cell prev f n i j).rule = n.rule := by
  unfold next_generation_iterator_cell
  split
  · simp only []
    split
    · exact rule_write_gol_board _ _ _ _
    · rfl
  · rfl

theorem rule_get_next_generation (prev next : gol_board) (f : Bool → Nat → Bool) :
    (get_next_generation prev next f).rule = next.rule := by
  unfold get_next_generation
  simp only []
  refine foldl_invariant (fun n : gol_board => n.rule = next.rule) _ _ _ rfl ?_
  intro n i _ hn
  refine foldl_invariant (fun n : gol_board => n.rule = next.rule) _ _ _ hn ?_
  intro n' j _ hn'
  simp only [rule_next_generation_cell]; exact hn'

theorem rule_get_next_generation_iterator (prev next : gol_board) (f : Bool → Nat → Bool) :
    (get_next_generation_iterator prev next f).rule = next.rule := by
  unfold get_next_generation_iterator
  refine foldl_invariant (fun n : gol_board => n.rule = next.rule) _ _ _ rfl ?_
  intro n pos _ hn
  refine foldl_invariant (fun n : gol_board => n.rule = next.rule) _ _ _ hn ?_
  intro n' k _ hn'
  refine foldl_invariant (fun n : gol_board => n.rule = next.rule) _ _ _ hn' ?_
  intro n'' l _ hn''
  simp only [rule_next_generation_iterator_cell]; exact hn''

theorem rule_evolve_step (it : Bool) (f : Bool → Nat → Bool) (st : evolve_state) :
    (evolve_step it f st).current_gen.rule = st.next_gen.rule ∧
      (evolve_step it f st).next_gen.rule = st.current_gen.rule := by
  refine ⟨?_, rfl⟩
  cases it
  · exact rule_get_next_generation _ _ _
  · exact rule_get_next_generation_iterator _ _ _

theorem rule_evolve_loop (it : Bool) (f : Bool → Nat → Bool) (k : Nat) (st : evolve_state)
    (r : gol_rules) (h1 : st.current_gen.rule = r) (h2 : st.next_gen.rule = r) :
    (evolve_loop it f k st).current_gen.rule = r ∧
      (evolve_loop it f k st).next_gen.rule = r := by
  induction k with
  | zero => exact ⟨h1, h2⟩
  | succ k ih =>
    rw [evolve_loop_succ]
    have h := rule_evolve_step it f (evolve_loop it f k st)
    exact ⟨h.1.trans ih.2, h.2.trans ih.1⟩

theorem rule_evolve_to_generation_n (n : Nat) (b : gol_board) (verbose it : Bool) :
    get_game_rules (evolve_to_generation_n n b verbose it) = get_game_rules b := by
  unfold evolve_to_generation_n
  split
  · rfl
  · have h := rule_evolve_loop it (select_life_count (get_game_rules b)) n
      ⟨b, set_game_rules (get_game_rules b) new_board, true⟩ (get_game_rules b) rfl rfl
    simp only []
    split
    · exact h.2
    · exact h.1

theorem clean_board_buffer (b : gol_board) (d : Nat) (hd : d < 4) :
    (clean_board b).bb_buffer d = List.replicate (size_bb_buffer b d) none := by
  apply List.ext_getElem?
  intro i
  have h1 := getD_clean_board b d i hd
  have h2 := length_clean_board b d
  unfold size_bb_buffer at h2 ⊢
  rw [List.getD_eq_getElem?_getD] at h1
  rw [List.getElem?_replicate]
  by_cases hi : i < (b.bb_buffer d).length
  · rw [if_pos hi]
    have hi' : i < ((clean_board b).bb_buffer d).length := by omega
    rw [List.getElem?_eq_getElem hi'] at h1 ⊢
    simp only [Option.getD_some] at h1
    rw [h1]
  · rw [if_neg hi]
    exact List.getElem?_eq_none (by omega)

/-! ## Slots after a write -/

theorem getD_write_gol_board (x y : Int) (v : Bool) (b : gol_board) (d j : Nat)
    (hidx : (cell_address x y b).position_in_bb < SIZE_MAX) :
    ((write_gol_board x y v b).bb_buffer d).getD j none =
      if d = (cell_address x y b).direction ∧ j = (cell_address x y b).position_in_bb then
        some (write_in_block
          (match (b.bb_buffer (cell_address x y b).direction).getD
              (cell_address x y b).position_in_bb none with
            | none => get_new_empty_bb
            | some bb0 => bb0)
          (cell_address x y b).bbPositionX (cell_address x y b).bbPositionY v)
      else (b.bb_buffer d).getD j none := by
  have hw : wrap_size ((cell_address x y b).position_in_bb + 1) =
      (cell_address x y b).position_in_bb + 1 := by
    unfold wrap_size; unfold SIZE_MAX at hidx; omega
  rw [bb_buffer_write_gol_board]
  by_cases hd : d = (cell_address x y b).direction
  · rw [if_pos hd, getD_set_none, length_realloc_bb_buffer, hw, getD_realloc_bb_buffer]
    by_cases hj : j = (cell_address x y b).position_in_bb
    · rw [if_pos ⟨hj.symm, by omega⟩, if_pos ⟨hd, hj⟩]
    · rw [if_neg (fun h => hj h.1.symm), if_neg (fun h => hj h.2), hd]
  · rw [if_neg hd, if_neg (fun h => hd h.1)]

theorem length_write_gol_board (x y : Int) (v : Bool) (b : gol_board) (d : Nat)
    (hidx : (cell_address x y b).position_in_bb < SIZE_MAX) :
    size_bb_buffer (write_gol_board x y v b) d =
      if d = (cell_address x y b).direction then
        max ((cell_address x y b).position_in_bb + 1) (size_bb_buffer b d)
      else size_bb_buffer b d := by
  have hw : wrap_size ((cell_address x y b).position_in_bb + 1) =
      (cell_address x y b).position_in_bb + 1 := by
    unfold wrap_size; unfold SIZE_MAX at hidx; omega
  unfold size_bb_buffer
  rw [bb_buffer_write_gol_board]
  by_cases hd : d = (cell_address x y b).direction
  · rw [if_pos hd, if_pos hd, List.length_set, length_realloc_bb_buffer, hw, hd]
  · rw [if_neg hd, if_neg hd]

theorem memcmp_values_eq_self (bb : basic_block) : memcmp_values_eq bb bb = true := by
  unfold memcmp_values_eq
  rw [List.all_eq_true]
  intro i _
  simp

theorem same_slot_self (s : Option basic_block) : same_slot s s = true := by
  cases s with
  | none => rfl
  | some bb => exact memcmp_values_eq_self bb

theorem is_empty_block_write_false_new (x y : Nat) :
    is_empty_block (write_in_block get_new_empty_bb x y false) = true := by
  rw [is_empty_block_iff]
  intro i _
  unfold write_in_block get_new_empty_bb
  simp only [Bool.false_eq_true, if_false]
  split <;> simp

/-- Writing a dead cell into an unallocated slot changes no read. -/
theorem read_write_false_unallocated (b : gol_board) (x y x' y' : Int)
    (hidx : (cell_address x y b).position_in_bb < SIZE_MAX)
    (hslot : (b.bb_buffer (cell_address x y b).direction).getD
      (cell_address x y b).position_in_bb none = none) :
    read_gol_board x' y' (write_gol_board x y false b) = read_gol_board x' y' b := by
  rw [read_gol_board_write_gol_board b x y x' y' false hidx]
  split_ifs with h
  · rw [read_gol_board_eq, h, hslot]
  · rfl

/-- The board before and after an allocating write of a dead cell are equal for
`gol_same_board`, in both orders. -/
theorem gol_same_board_write_false_unallocated (b : gol_board) (x y : Int)
    (hidx : (cell_address x y b).position_in_bb < SIZE_MAX)
    (hslot : (b.bb_buffer (cell_address x y b).direction).getD
      (cell_address x y b).position_in_bb none = none) :
    gol_same_board b (write_gol_board x y false b) = true ∧
      gol_same_board (write_gol_board x y false b) b = true := by
  have hb : (write_gol_board x y false b).board_bounds = b.board_bounds :=
    board_bounds_write_false x y b
  have hox := offsetX_write_gol_board x y false b
  have hoy := offsetY_write_gol_board x y false b
  have hslots : ∀ d j, same_slot ((b.bb_buffer d).getD j none)
      (((write_gol_board x y false b).bb_buffer d).getD j none) = true ∧
      same_slot (((write_gol_board x y false b).bb_buffer d).getD j none)
        ((b.bb_buffer d).getD j none) = true := by
    intro d j
    rw [getD_write_gol_board x y false b d j hidx]
    split_ifs with h
    · rw [h.1, h.2, hslot]
      exact ⟨is_empty_block_write_false_new _ _, is_empty_block_write_false_new _ _⟩
    · exact ⟨same_slot_self _, same_slot_self _⟩
  constructor
  · unfold gol_same_board get_game_bounds
    simp only [hb, hox, hoy, ne_eq, not_true_eq_false, or_self, if_false, and_self, if_true]
    rw [List.all_eq_true]
    intro d _
    rw [List.all_eq_true]
    intro j _
    exact (hslots d j).1
  · unfold gol_same_board get_game_bounds
    simp only [hb, hox, hoy, ne_eq, not_true_eq_false, or_self, if_false, and_self, if_true]
    rw [List.all_eq_true]
    intro d _
    rw [List.all_eq_true]
    intro j _
    exact (hslots d j).2

/-! ## Boards with the same observable storage -/

theorem memcmp_values_eq_iff (b1 b2 : basic_block) :
    memcmp_values_eq b1 b2 = true ↔ ∀ i, i < 32 → b1.values i = b2.values i := by
  unfold memcmp_values_eq BLOCKSIZE
  simp [List.all_eq_true]

theorem slot_eqb_refl (s : Option basic_block) : slot_eqb s s = true := by
  cases s with
  | none => rfl
  | some bb => exact memcmp_values_eq_self bb

theorem slot_eqb_symm (s t : Option basic_block) (h : slot_eqb s t = true) :
    slot_eqb t s = true := by
  cases s <;> cases t <;> simp only [slot_eqb] at h ⊢
  · exact absurd h (by decide)
  · exact absurd h (by decide)
  · rw [memcmp_values_eq_iff] at h ⊢
    intro i hi
    exact (h i hi).symm

theorem slot_eqb_trans (s t u : Option basic_block) (h1 : slot_eqb s t = true)
    (h2 : slot_eqb t u = true) : slot_eqb s u = true := by
  cases s <;> cases t <;> cases u <;> simp only [slot_eqb] at h1 h2 ⊢ <;>
    first
    | exact absurd h1 (by decide)
    | exact absurd h2 (by decide)
    | skip
  rw [memcmp_values_eq_iff] at h1 h2 ⊢
  intro i hi
  exact (h1 i hi).trans (h2 i hi)

theorem board_equiv_refl (a : gol_board) : board_equiv a a :=
  ⟨rfl, rfl, rfl, rfl, fun _ _ => ⟨rfl, fun _ => slot_eqb_refl _⟩⟩

theorem board_equiv_symm (a b : gol_board) (h : board_equiv a b) : board_equiv b a := by
  obtain ⟨h1, h2, h3, h4, h5⟩ := h
  exact ⟨h1.symm, h2.symm, h3.symm, h4.symm,
    fun d hd => ⟨(h5 d hd).1.symm, fun j => slot_eqb_symm _ _ ((h5 d hd).2 j)⟩⟩

theorem board_equiv_trans (a b c : gol_board) (h : board_equiv a b) (h' : board_equiv b c) :
    board_equiv a c := by
  obtain ⟨h1, h2, h3, h4, h5⟩ := h
  obtain ⟨g1, g2, g3, g4, g5⟩ := h'
  exact ⟨h1.trans g1, h2.trans g2, h3.trans g3, h4.trans g4,
    fun d hd => ⟨(h5 d hd).1.trans (g5 d hd).1,
      fun j => slot_eqb_trans _ _ _ ((h5 d hd).2 j) ((g5 d hd).2 j)⟩⟩

theorem board_equiv_of_board_eqb (a b : gol_board) (h : board_eqb a b = true) :
    board_equiv a b := by
  unfold board_eqb at h
  simp only [Bool.and_eq_true, decide_eq_true_eq, List.all_eq_true, List.mem_range] at h
  obtain ⟨⟨⟨⟨h1, h2⟩, h3⟩, h4⟩, h5⟩ := h
  refine ⟨h1, h2, h3, h4, ?_⟩
  intro d hd
  refine ⟨(h5 d hd).1, ?_⟩
  intro j
  by_cases hj : j < size_bb_buffer a d
  · exact (h5 d hd).2 j hj
  · have hj' : ¬ j < size_bb_buffer b d := by rw [← (h5 d hd).1]; exact hj
    unfold size_bb_buffer at hj hj'
    rw [List.getD_eq_default _ _ (Nat.le_of_not_lt hj),
      List.getD_eq_default _ _ (Nat.le_of_not_lt hj')]
    rfl

theorem cell_address_of_board_equiv (a b : gol_board) (h : board_equiv a b) (x y : Int) :
    cell_address x y a = cell_address x y b :=
  cell_address_congr x y a b h.1 h.2.1

/-- Boards with the same storage read the same at every coordinate. -/
theorem read_gol_board_of_board_equiv (a b : gol_board) (h : board_equiv a b) (x y : Int) :
    read_gol_board x y a = read_gol_board x y b := by
  rw [read_gol_board_eq, read_gol_board_eq, cell_address_of_board_equiv a b h]
  have hs := (h.2.2.2.2 (cell_address x y b).direction (direction_lt _ _)).2
    (cell_address x y b).position_in_bb
  have hy : (cell_address x y b).bbPositionY < 32 := bbPositionY_lt _ _
  cases ha : (a.bb_buffer (cell_address x y b).direction).getD
      (cell_address x y b).position_in_bb none <;>
    cases hb : (b.bb_buffer (cell_address x y b).direction).getD
      (cell_address x y b).position_in_bb none <;>
    rw [ha, hb] at hs <;> simp only [slot_eqb] at hs
  · exact absurd hs (by decide)
  · exact absurd hs (by decide)
  · rw [memcmp_values_eq_iff] at hs
    simp only []
    unfold read_in_block
    rw [hs _ hy]

theorem same_slot_of_slot_eqb (s t : Option basic_block) (h : slot_eqb s t = true) :
    same_slot s t = true := by
  cases s <;> cases t <;> simp only [slot_eqb] at h <;> simp only [same_slot]
  · exact absurd h (by decide)
  · exact absurd h (by decide)
  · exact h

/-- Boards with the same storage are equal for `gol_same_board`. -/
theorem gol_same_board_of_board_equiv (a b : gol_board) (h : board_equiv a b) :
    gol_same_board a b = true := by
  obtain ⟨h1, h2, h3, _, h5⟩ := h
  unfold gol_same_board get_game_bounds
  simp only [h1, h2, h3, ne_eq, not_true_eq_false, or_self, if_false, and_self, if_true]
  rw [List.all_eq_true]
  intro d hd
  rw [List.mem_range] at hd
  rw [List.all_eq_true]
  intro j _
  exact same_slot_of_slot_eqb _ _ ((h5 d hd).2 j)

/-! ## Writes and scans respect the observable storage -/

theorem size_write_gol_board_gen (x y : Int) (v : Bool) (b : gol_board) (d : Nat) :
    size_bb_buffer (write_gol_board x y v b) d =
      if d = (cell_address x y b).direction then
        max (wrap_size ((cell_address x y b).position_in_bb + 1)) (size_bb_buffer b d)
      else size_bb_buffer b d := by
  unfold size_bb_buffer
  rw [bb_buffer_write_gol_board]
  by_cases hd : d = (cell_address x y b).direction
  · rw [if_pos hd, if_pos hd, List.length_set, length_realloc_bb_buffer, hd]
  · rw [if_neg hd, if_neg hd]

theorem getD_write_gol_board_gen (x y : Int) (v : Bool) (b : gol_board) (d j : Nat) :
    ((write_gol_board x y v b).bb_buffer d).getD j none =
      if d = (cell_address x y b).direction ∧ (cell_address x y b).position_in_bb = j ∧
          (cell_address x y b).position_in_bb <
            max (wrap_size ((cell_address x y b).position_in_bb + 1))
              (size_bb_buffer b (cell_address x y b).direction) then
        some (write_in_block
          (match (b.bb_buffer (cell_address x y b).direction).getD
              (cell_address x y b).position_in_bb none with
            | none => get_new_empty_bb
            | some bb0 => bb0)
          (cell_address x y b).bbPositionX (cell_address x y b).bbPositionY v)
      else (b.bb_buffer d).getD j none := by
  rw [bb_buffer_write_gol_board]
  unfold size_bb_buffer
  by_cases hd : d = (cell_address x y b).direction
  · rw [if_pos hd, getD_set_none, length_realloc_bb_buffer, getD_realloc_bb_buffer]
    by_cases hc : (cell_address x y b).position_in_bb = j ∧
        (cell_address x y b).position_in_bb <
          max (wrap_size ((cell_address x y b).position_in_bb + 1))
            ((b.bb_buffer (cell_address x y b).direction).length)
    · rw [if_pos hc, if_pos ⟨hd, hc⟩]
    · rw [if_neg hc, if_neg (fun h => hc h.2), hd]
  · rw [if_neg hd, if_neg (fun h => hd h.1)]

theorem memcmp_write_in_block (b1 b2 : basic_block) (x y : Nat) (v : Bool)
    (h : memcmp_values_eq b1 b2 = true) :
    memcmp_values_eq (write_in_block b1 x y v) (write_in_block b2 x y v) = true := by
  rw [memcmp_values_eq_iff] at h ⊢
  intro i hi
  unfold write_in_block
  cases v
  · simp only [Bool.false_eq_true, if_false]
    split
    · rename_i hy
      rw [← hy, h i hi]
    · exact h i hi
  · simp only [if_true]
    split
    · rename_i hy
      rw [← hy, h i hi]
    · exact h i hi

theorem memcmp_block_of_slot (s t : Option basic_block) :
    slot_eqb s t = true →
    memcmp_values_eq
      (match s with
        | none => get_new_empty_bb
        | some bb0 => bb0)
      (match t with
        | none => get_new_empty_bb
        | some bb0 => bb0) = true := by
  intro h
  cases s <;> cases t <;> simp only [slot_eqb] at h
  · exact memcmp_values_eq_self _
  · exact absurd h (by decide)
  · exact absurd h (by decide)
  · exact h

/-- A write acts in the same way on boards with the same storage. -/
theorem board_equiv_write_gol_board (a b : gol_board) (h : board_equiv a b) (x y : Int)
    (v : Bool) : board_equiv (write_gol_board x y v a) (write_gol_board x y v b) := by
  have hc := cell_address_of_board_equiv a b h x y
  obtain ⟨h1, h2, h3, h4, h5⟩ := h
  refine ⟨?_, ?_, ?_, ?_, ?_⟩
  · rw [offsetX_write_gol_board, offsetX_write_gol_board]; exact h1
  · rw [offsetY_write_gol_board, offsetY_write_gol_board]; exact h2
  · cases v
    · rw [board_bounds_write_false, board_bounds_write_false]; exact h3
    · rw [board_bounds_write_true, board_bounds_write_true, h3]
  · rw [rule_write_gol_board, rule_write_gol_board]; exact h4
  · intro d hd
    have hdir : (cell_address x y b).direction < bb_all_dirs := direction_lt _ _
    constructor
    · rw [size_write_gol_board_gen, size_write_gol_board_gen, hc, (h5 d hd).1]
    · intro j
      rw [getD_write_gol_board_gen, getD_write_gol_board_gen, hc,
        (h5 (cell_address x y b).direction hdir).1]
      split_ifs with hcase
      · simp only [slot_eqb]
        exact memcmp_write_in_block _ _ _ _ _
          (memcmp_block_of_slot _ _ ((h5 _ hdir).2 _))
      · exact (h5 d hd).2 j

theorem board_equiv_foldl {β : Type} (g : gol_board → β → gol_board) (l : List β)
    (hg : ∀ a b c, board_equiv a b → board_equiv (g a c) (g b c)) (a b : gol_board)
    (h : board_equiv a b) : board_equiv (l.foldl g a) (l.foldl g b) := by
  induction l generalizing a b with
  | nil => exact h
  | cons c l ih =>
    rw [List.foldl_cons, List.foldl_cons]
    exact ih _ _ (hg a b c h)

theorem board_equiv_next_generation_cell (prev : gol_board) (f : Bool → Nat → Bool)
    (a b : gol_board) (h : board_equiv a b) (i j : Int) :
    board_equiv (next_generation_cell prev f a i j) (next_generation_cell prev f b i j) := by
  unfold next_generation_cell
  simp only []
  split
  · exact board_equiv_write_gol_board a b h i j true
  · exact h

theorem board_equiv_next_generation_iterator_cell (prev : gol_board) (f : Bool → Nat → Bool)
    (a b : gol_board) (h : board_equiv a b) (i j : Int) :
    board_equiv (next_generation_iterator_cell prev f a i j)
      (next_generation_iterator_cell prev f b i j) := by
  unfold next_generation_iterator_cell
  rw [read_gol_board_of_board_equiv a b h i j]
  split
  · simp only []
    split
    · exact board_equiv_write_gol_board a b h i j true
    · exact h
  · exact h

/-- The full scan into boards with the same storage gives boards with the same
storage. -/
theorem board_equiv_get_next_generation (prev : gol_board) (f : Bool → Nat → Bool)
    (a b : gol_board) (h : board_equiv a b) :
    board_equiv (get_next_generation prev a f) (get_next_generation prev b f) := by
  unfold get_next_generation
  simp only []
  apply board_equiv_foldl _ _ _ a b h
  intro a' b' i h'
  apply board_equiv_foldl _ _ _ a' b' h'
  intro a'' b'' j h''
  exact board_equiv_next_generation_cell prev f a'' b'' h'' i j

/-- The iterator-driven scan into boards with the same storage gives boards with
the same storage. -/
theorem board_equiv_get_next_generation_iterator (prev : gol_board) (f : Bool → Nat → Bool)
    (a b : gol_board) (h : board_equiv a b) :
    board_equiv (get_next_generation_iterator prev a f)
      (get_next_generation_iterator prev b f) := by
  unfold get_next_generation_iterator
  apply board_equiv_foldl _ _ _ a b h
  intro a' b' pos h'
  apply board_equiv_foldl _ _ _ a' b' h'
  intro a'' b'' k h''
  apply board_equiv_foldl _ _ _ a'' b'' h''
  intro a3 b3 l h3
  exact board_equiv_next_generation_iterator_cell prev f a3 b3 h3 k l

/-! ## The kernel step depends on the observable storage only -/

theorem num_alive_at_of_board_equiv (a b : gol_board) (h : board_equiv a b) (i j : Int) :
    num_alive_at i j a = num_alive_at i j b := by
  unfold num_alive_at
  simp only [read_gol_board_of_board_equiv a b h]

theorem next_generation_cell_of_board_equiv (a b : gol_board) (h : board_equiv a b)
    (f : Bool → Nat → Bool) (n : gol_board) (i j : Int) :
    next_generation_cell a f n i j = next_generation_cell b f n i j := by
  unfold next_generation_cell
  simp only [read_gol_board_of_board_equiv a b h, num_alive_at_of_board_equiv a b h]

theorem next_generation_iterator_cell_of_board_equiv (a b : gol_board) (h : board_equiv a b)
    (f : Bool → Nat → Bool) (n : gol_board) (i j : Int) :
    next_generation_iterator_cell a f n i j = next_generation_iterator_cell b f n i j := by
  unfold next_generation_iterator_cell
  simp only [read_gol_board_of_board_equiv a b h, num_alive_at_of_board_equiv a b h]

/-- The full scan reads the scanned board through its bounds and cells only. -/
theorem get_next_generation_of_board_equiv (a b : gol_board) (h : board_equiv a b)
    (n : gol_board) (f : Bool → Nat → Bool) :
    get_next_generation a n f = get_next_generation b n f := by
  have hb : get_game_bounds a = get_game_bounds b := h.2.2.1
  unfold get_next_generation
  simp only [hb, next_generation_cell_of_board_equiv a b h]

theorem isSome_of_slot_eqb (s t : Option basic_block) (h : slot_eqb s t = true) :
    s.isSome = t.isSome := by
  cases s <;> cases t <;> simp only [slot_eqb] at h
  · rfl
  · exact absurd h (by decide)
  · exact absurd h (by decide)
  · rfl

theorem board_iterator_position_of_board_equiv (a b : gol_board) (h : board_equiv a b)
    (d idx : Nat) : board_iterator_position a d idx = board_iterator_position b d idx := by
  unfold board_iterator_position
  rw [h.1, h.2.1]

theorem iterator_quadrant_of_board_equiv (a b : gol_board) (h : board_equiv a b) (d : Nat)
    (hd : d < bb_all_dirs) :
    ((List.range (size_bb_buffer a d)).filter
        (fun idx => ((a.bb_buffer d).getD idx none).isSome)).map
        (fun idx => board_iterator_position a d idx) =
      ((List.range (size_bb_buffer b d)).filter
        (fun idx => ((b.bb_buffer d).getD idx none).isSome)).map
        (fun idx => board_iterator_position b d idx) := by
  have hsize := (h.2.2.2.2 d hd).1
  have hslot := (h.2.2.2.2 d hd).2
  have hp : (fun idx => ((a.bb_buffer d).getD idx none).isSome) =
      (fun idx => ((b.bb_buffer d).getD idx none).isSome) := by
    funext idx
    exact isSome_of_slot_eqb _ _ (hslot idx)
  have hq : (fun idx => board_iterator_position a d idx) =
      (fun idx => board_iterator_position b d idx) := by
    funext idx
    exact board_iterator_position_of_board_equiv a b h d idx
  rw [hsize, hp, hq]

theorem board_iterator_positions_of_board_equiv (a b : gol_board) (h : board_equiv a b) :
    board_iterator_positions a = board_iterator_positions b := by
  unfold board_iterator_positions
  have hr : List.range bb_all_dirs = [0, 1, 2, 3] := rfl
  rw [hr]
  simp only [List.flatMap_cons, List.flatMap_nil]
  rw [iterator_quadrant_of_board_equiv a b h 0 (by decide),
    iterator_quadrant_of_board_equiv a b h 1 (by decide),
    iterator_quadrant_of_board_equiv a b h 2 (by decide),
    iterator_quadrant_of_board_equiv a b h 3 (by decide)]

/-- The iterator-driven scan reads the scanned board through its allocated
slots, its offset and its cells only. -/
theorem get_next_generation_iterator_of_board_equiv (a b : gol_board) (h : board_equiv a b)
    (n : gol_board) (f : Bool → Nat → Bool) :
    get_next_generation_iterator a n f = get_next_generation_iterator b n f := by
  unfold get_next_generation_iterator
  simp only [board_iterator_positions_of_board_equiv a b h,
    next_generation_iterator_cell_of_board_equiv a b h]

theorem board_equiv_center_offset_clean_board (bd : gol_board_bounds) (a b : gol_board)
    (h : same_capacities a b) :
    board_equiv (center_offset bd (clean_board a)) (center_offset bd (clean_board b)) := by
  obtain ⟨hr, hs⟩ := h
  refine ⟨rfl, rfl, rfl, hr, ?_⟩
  intro d hd
  constructor
  · exact (length_clean_board a d).trans ((hs d hd).trans (length_clean_board b d).symm)
  · intro j
    have e1 : ((center_offset bd (clean_board a)).bb_buffer d).getD j none = none :=
      getD_clean_board a d j hd
    have e2 : ((center_offset bd (clean_board b)).bb_buffer d).getD j none = none :=
      getD_clean_board b d j hd
    rw [e1, e2]
    rfl

/-- One iteration of the kernel loop on states with the same observable storage
gives current boards with the same observable storage. -/
theorem evolve_step_congr (it : Bool) (f : Bool → Nat → Bool) (cur cur' nxt nxt' : gol_board)
    (fl fl' : Bool) (h : board_equiv cur cur') (hs : same_capacities nxt nxt') :
    board_equiv (evolve_step it f ⟨cur, nxt, fl⟩).current_gen
      (evolve_step it f ⟨cur', nxt', fl'⟩).current_gen := by
  have hb : get_game_bounds cur = get_game_bounds cur' := h.2.2.1
  have hx := board_equiv_center_offset_clean_board (get_game_bounds cur') nxt nxt' hs
  unfold evolve_step
  simp only [hb]
  cases it
  · simp only [Bool.false_eq_true, if_false]
    rw [get_next_generation_of_board_equiv cur cur' h]
    exact board_equiv_get_next_generation cur' f _ _ hx
  · simp only [if_true]
    rw [get_next_generation_iterator_of_board_equiv cur cur' h]
    exact board_equiv_get_next_generation_iterator cur' f _ _ hx

theorem same_capacities_of_board_equiv (a b : gol_board) (h : board_equiv a b) :
    same_capacities a b :=
  ⟨h.2.2.2.1, fun d hd => (h.2.2.2.2 d hd).1⟩

theorem board_equiv_swap_fst (a b : gol_board) (h : a.rule = b.rule) :
    board_equiv (gol_swap_board a b).1 b := by
  refine ⟨rfl, rfl, rfl, h, ?_⟩
  intro d hd
  have e : (gol_swap_board a b).1.bb_buffer d = b.bb_buffer d := by
    unfold gol_swap_board; simp only [hd, if_true]
  unfold size_bb_buffer
  rw [e]
  exact ⟨rfl, fun j => slot_eqb_refl _⟩

/-! ## Cells of a board built by writes of live cells -/

theorem read_apply_writes_true (ws : List (Int × Int × Bool)) (b : gol_board)
    (hall : ∀ w ∈ ws, w.2.2 = true) (hws : ∀ w ∈ ws, address_no_overflow w.1 w.2.1 b)
    (x y : Int) (hxy : address_no_overflow x y b) :
    read_gol_board x y (apply_writes ws b) = true ↔
      read_gol_board x y b = true ∨ ∃ w ∈ ws, w.1 = x ∧ w.2.1 = y := by
  unfold apply_writes
  induction ws generalizing b with
  | nil => simp
  | cons w ws ih =>
    rw [List.foldl_cons]
    have hw := hws w (List.mem_cons_self _ _)
    have hv := hall w (List.mem_cons_self _ _)
    have ox := offsetX_write_gol_board w.1 w.2.1 w.2.2 b
    have oy := offsetY_write_gol_board w.1 w.2.1 w.2.2 b
    rw [ih (write_gol_board w.1 w.2.1 w.2.2 b)
      (fun w' hw' => hall w' (List.mem_cons_of_mem _ hw'))
      (fun w' hw' => address_no_overflow_congr _ _ _ _ ox.symm oy.symm
        (hws w' (List.mem_cons_of_mem _ hw')))
      (address_no_overflow_congr _ _ _ _ ox.symm oy.symm hxy),
      read_gol_board_write_gol_board b w.1 w.2.1 x y w.2.2
        (position_in_bb_lt_SIZE_MAX _ _ b hw), hv]
    constructor
    · rintro (h | ⟨w', hw', h'⟩)
      · split_ifs at h with hc
        · have := cell_address_injective x y w.1 w.2.1 b hxy hw hc
          exact Or.inr ⟨w, List.mem_cons_self _ _, this.1.symm, this.2.symm⟩
        · exact Or.inl h
      · exact Or.inr ⟨w', List.mem_cons_of_mem _ hw', h'⟩
    · rintro (h | ⟨w', hw', h1, h2⟩)
      · left
        split_ifs
        · rfl
        · exact h
      · rcases List.mem_cons.mp hw' with rfl | hw''
        · left
          rw [h1, h2, if_pos rfl]
        · exact Or.inr ⟨w', hw'', h1, h2⟩

/-! ## The still life -/

set_option maxRecDepth 1000000 in
theorem block_step_fixed (it : Bool) :
    board_equiv (evolve_step it is_alive_life ⟨block_board, block_board, true⟩).current_gen
        block_board ∧
      board_equiv
        (evolve_step it is_alive_life
          ⟨block_board, set_game_rules gol_rules.lifeRule new_board, true⟩).current_gen
        block_board := by
  cases it
  · exact ⟨board_equiv_of_board_eqb _ _ (by decide), board_equiv_of_board_eqb _ _ (by decide)⟩
  · exact ⟨board_equiv_of_board_eqb _ _ (by decide), board_equiv_of_board_eqb _ _ (by decide)⟩

theorem block_loop_invariant (it : Bool) (k : Nat) :
    board_equiv
        (evolve_loop it is_alive_life k
          ⟨block_board, set_game_rules gol_rules.lifeRule new_board, true⟩).current_gen
        block_board ∧
      (same_capacities
          (evolve_loop it is_alive_life k
            ⟨block_board, set_game_rules gol_rules.lifeRule new_board, true⟩).next_gen
          block_board ∨
        same_capacities
          (evolve_loop it is_alive_life k
            ⟨block_board, set_game_rules gol_rules.lifeRule new_board, true⟩).next_gen
          (set_game_rules gol_rules.lifeRule new_board)) := by
  induction k with
  | zero => exact ⟨board_equiv_refl _, Or.inr ⟨rfl, fun _ _ => rfl⟩⟩
  | succ k ih =>
    rw [evolve_loop_succ]
    obtain ⟨h1, h2⟩ := ih
    generalize evolve_loop it is_alive_life k
      ⟨block_board, set_game_rules gol_rules.lifeRule new_board, true⟩ = st at h1 h2
    refine ⟨?_, Or.inl (same_capacities_of_board_equiv _ _ h1)⟩
    rcases h2 with h2 | h2
    · exact board_equiv_trans _ _ _
        (evolve_step_congr it is_alive_life st.current_gen block_board st.next_gen block_board
          st.current_is_start true h1 h2)
        (block_step_fixed it).1
    · exact board_equiv_trans _ _ _
        (evolve_step_congr it is_alive_life st.current_gen block_board st.next_gen
          (set_game_rules gol_rules.lifeRule new_board) st.current_is_start true h1 h2)
        (block_step_fixed it).2

theorem block_evolve_equiv (N : Nat) (verbose it : Bool) :
    board_equiv (evolve_to_generation_n N block_board verbose it) block_board := by
  unfold evolve_to_generation_n
  split
  · exact board_equiv_refl _
  · have hr : get_game_rules block_board = gol_rules.lifeRule := rfl
    have hf : select_life_count gol_rules.lifeRule = is_alive_life := rfl
    simp only [hr, hf]
    have hinv := block_loop_invariant it N
    have hrule := rule_evolve_loop it is_alive_life N
      ⟨block_board, set_game_rules gol_rules.lifeRule new_board, true⟩ gol_rules.lifeRule
      rfl rfl
    split
    · exact board_equiv_trans _ _ _
        (board_equiv_swap_fst _ _ (hrule.2.trans hrule.1.symm)) hinv.1
    · exact hinv.1

theorem read_block_board (x y : Int) (hxy : address_no_overflow x y block_board) :
    read_gol_board x y block_board = true ↔
      (x, y) ∈ [((0 : Int), (0 : Int)), (1, 0), (0, 1), (1, 1)] := by
  have hnew : address_no_overflow x y new_board :=
    address_no_overflow_congr _ _ _ _ (offsets_apply_writes _ _).1 (offsets_apply_writes _ _).2
      hxy
  unfold block_board
  rw [read_apply_writes_true _ new_board (by decide) (by decide) x y hnew]
  have h0 : read_gol_board x y new_board = false :=
    read_gol_board_of_all_none x y _ (fun _ _ _ => by simp [new_board])
  rw [h0]
  simp only [Bool.false_eq_true, false_or, List.mem_cons, List.mem_singleton,
    List.mem_nil_iff, or_false, exists_eq_or_imp, exists_eq_left, Prod.mk.injEq]
  constructor
  · rintro (⟨rfl, rfl⟩ | ⟨rfl, rfl⟩ | ⟨rfl, rfl⟩ | ⟨rfl, rfl⟩) <;> simp
  · rintro (⟨rfl, rfl⟩ | ⟨rfl, rfl⟩ | ⟨rfl, rfl⟩ | ⟨rfl, rfl⟩) <;> simp

/-! ## The blinker -/

theorem read_of_board_equiv_apply_writes (E b0 : gol_board) (ws : List (Int × Int × Bool))
    (hE : board_equiv E (apply_writes ws b0))
    (h0 : ∀ d i, d < 4 → (b0.bb_buffer d).getD i none = none)
    (hall : ∀ w ∈ ws, w.2.2 = true) (hws : ∀ w ∈ ws, address_no_overflow w.1 w.2.1 b0)
    (x y : Int) (hxy : address_no_overflow x y E) :
    read_gol_board x y E = true ↔ ∃ w ∈ ws, w.1 = x ∧ w.2.1 = y := by
  have hb0 : address_no_overflow x y b0 :=
    address_no_overflow_congr _ _ _ _
      (hE.1.trans (offsets_apply_writes ws b0).1) (hE.2.1.trans (offsets_apply_writes ws b0).2)
      hxy
  rw [read_gol_board_of_board_equiv _ _ hE x y, read_apply_writes_true ws b0 hall hws x y hb0,
    read_gol_board_of_all_none x y b0 h0]
  simp

set_option maxRecDepth 1000000 in
theorem blinker_first_generation (verbose it : Bool) :
    board_equiv (evolve_to_generation_n 1 blinker_board verbose it) vertical_blinker_board := by
  cases verbose <;> cases it <;> exact board_equiv_of_board_eqb _ _ (by decide)

set_option maxRecDepth 1000000 in
theorem blinker_second_generation (verbose it : Bool) :
    board_equiv (evolve_to_generation_n 2 blinker_board verbose it) shifted_blinker_board := by
  cases verbose <;> cases it <;> exact board_equiv_of_board_eqb _ _ (by decide)

set_option maxRecDepth 1000000 in
theorem blinker_second_generation_same (verbose it : Bool) :
    get_game_bounds (evolve_to_generation_n 2 blinker_board verbose it) =
        get_game_bounds blinker_board ∧
      gol_same_board (evolve_to_generation_n 2 blinker_board verbose it) blinker_board =
        true := by
  cases verbose <;> cases it <;> exact ⟨by decide, by decide⟩

/-! ## The address decomposition and its range -/

theorem sign_fold_eq (v : Int) : sign_fold v = if v < 0 then -(v + 1) else v := rfl

/-- Without overflow in the index arithmetic, the code computes the address
decomposition of the data model. -/
theorem position_eq_spec_position (x y : Int)
    (h : index_no_overflow (sign_fold x) (sign_fold y)) :
    position_in_board_structure x y = spec_position x y := by
  have hX := sign_fold_nonneg x
  have hY := sign_fold_nonneg y
  have hb := index_expr_bounds _ _ hX hY h
  have he := index_expr_eq_diagonal_index _ _ hX hY
  unfold position_in_board_structure spec_position
  simp only [← sign_fold_eq]
  have e1 : to_size ((sign_fold x).tmod 32) = (sign_fold x % 32).toNat := by
    rw [tmod_32_eq _ hX]
    exact to_size_of_nonneg_lt _ (by omega) (by omega)
  have e2 : to_size ((sign_fold y).tmod 32) = (sign_fold y % 32).toNat := by
    rw [tmod_32_eq _ hY]
    exact to_size_of_nonneg_lt _ (by omega) (by omega)
  have e3 : (if sign_fold x < sign_fold y then
        to_size ((sign_fold y).tdiv 32 * (sign_fold y).tdiv 32 + (sign_fold x).tdiv 32)
      else to_size ((sign_fold x).tdiv 32 * (sign_fold x).tdiv 32 +
          2 * (sign_fold x).tdiv 32 - (sign_fold y).tdiv 32)) =
      (diagonal_index (sign_fold x / 32) (sign_fold y / 32)).toNat := by
    rw [← he]
    split_ifs with hlt
    · rw [if_pos hlt] at hb
      exact to_size_of_nonneg_lt _ hb.1 (by omega)
    · rw [if_neg hlt] at hb
      exact to_size_of_nonneg_lt _ hb.1 (by omega)
  have e4 : ((if x < 0 then 2 else 0) + (if y < 0 then 1 else 0) : Nat) =
      if 0 ≤ x ∧ 0 ≤ y then 0 else if 0 ≤ x ∧ y < 0 then 1
        else if x < 0 ∧ 0 ≤ y then 2 else 3 := by
    split_ifs <;> omega
  rw [e1, e2, e3, e4]

theorem cell_address_new_board (x y : Int) (hx : fits_intmax x) (hy : fits_intmax y) :
    cell_address x y new_board = position_in_board_structure x y := by
  unfold cell_address new_board
  simp only [add_zero]
  rw [wrap_intmax_of_fits x hx, wrap_intmax_of_fits y hy]

theorem address_no_overflow_new_board (x y : Int) (hx : fits_intmax x) (hy : fits_intmax y)
    (h : index_no_overflow (sign_fold x) (sign_fold y)) : address_no_overflow x y new_board := by
  unfold address_no_overflow new_board
  simp only [add_zero]
  exact ⟨hx, hy, h⟩

/-- Without overflow, `position_in_board_structure` is injective. -/
theorem position_injective (x y x' y' : Int) (hx : fits_intmax x) (hy : fits_intmax y)
    (h : index_no_overflow (sign_fold x) (sign_fold y)) (hx' : fits_intmax x')
    (hy' : fits_intmax y') (h' : index_no_overflow (sign_fold x') (sign_fold y'))
    (he : position_in_board_structure x y = position_in_board_structure x' y') :
    x = x' ∧ y = y' := by
  apply cell_address_injective x y x' y' new_board
    (address_no_overflow_new_board x y hx hy h)
    (address_no_overflow_new_board x' y' hx' hy' h')
  rw [cell_address_new_board x y hx hy, cell_address_new_board x' y' hx' hy']
  exact he

theorem index_no_overflow_of_range (x y : Int) (hx : -(2 ^ 36) ≤ x ∧ x < 2 ^ 36)
    (hy : -(2 ^ 36) ≤ y ∧ y < 2 ^ 36) :
    fits_intmax x ∧ fits_intmax y ∧ index_no_overflow (sign_fold x) (sign_fold y) := by
  have h := address_no_overflow_of_near_origin x y new_board (by
    unfold near_origin new_board
    simp only [add_zero]
    exact ⟨hx, hy⟩)
  unfold address_no_overflow new_board at h
  simp only [add_zero] at h
  exact h

theorem sign_fold_fits (z : Int) (hz : fits_intmax z) :
    fits_intmax (sign_fold z) ∧ (z < 0 → fits_intmax (z + 1)) := by
  unfold fits_intmax INTMAX_MIN INTMAX_MAX at *
  unfold sign_fold
  constructor
  · split <;> omega
  · intro _; omega

/-! ## The diagonal index on natural numbers -/

theorem diagonal_index_nat_cast (p : Nat × Nat) :
    (diagonal_index_nat p : Int) = diagonal_index (p.1 : Int) (p.2 : Int) := by
  unfold diagonal_index_nat
  exact Int.toNat_of_nonneg (diagonal_index_nonneg _ _ (by omega) (by omega))

theorem diagonal_index_nat_injective : Function.Injective diagonal_index_nat := by
  intro p p' h
  have hc : (diagonal_index_nat p : Int) = (diagonal_index_nat p' : Int) := by rw [h]
  rw [diagonal_index_nat_cast, diagonal_index_nat_cast] at hc
  have := diagonal_index_injective _ _ _ _ (by omega) (by omega) (by omega) (by omega) hc
  cases p
  cases p'
  simp only [Prod.mk.injEq]
  constructor <;> omega

theorem diagonal_index_nat_surjective : Function.Surjective diagonal_index_nat := by
  intro n
  have h1 : Nat.sqrt n * Nat.sqrt n ≤ n := Nat.sqrt_le n
  have h2 : n < (Nat.sqrt n + 1) * (Nat.sqrt n + 1) := Nat.lt_succ_sqrt n
  have h3 : (Nat.sqrt n + 1) * (Nat.sqrt n + 1) =
      Nat.sqrt n * Nat.sqrt n + 2 * Nat.sqrt n + 1 := by ring
  generalize Nat.sqrt n = s at h1 h2 h3
  generalize hq : s * s = q at h1 h2 h3
  have hqz : (s : Int) * (s : Int) = (q : Int) := by exact_mod_cast congrArg Nat.cast hq
  by_cases hr : n - q < s
  · refine ⟨(n - q, s), ?_⟩
    apply Int.ofNat_inj.mp
    rw [diagonal_index_nat_cast]
    unfold diagonal_index
    simp only []
    rw [if_pos (by omega), hqz]
    omega
  · refine ⟨(s, 2 * s - (n - q)), ?_⟩
    apply Int.ofNat_inj.mp
    rw [diagonal_index_nat_cast]
    unfold diagonal_index
    simp only []
    rw [if_neg (by omega), hqz]
    omega

theorem diagonal_index_nat_shell (p : Nat × Nat) :
    max p.1 p.2 * max p.1 p.2 ≤ diagonal_index_nat p ∧
      diagonal_index_nat p ≤ (max p.1 p.2 + 1) * (max p.1 p.2 + 1) - 1 := by
  have h := diagonal_index_shell (p.1 : Int) (p.2 : Int) (by omega) (by omega)
  rw [← diagonal_index_nat_cast] at h
  have hm : max (p.1 : Int) (p.2 : Int) = ((max p.1 p.2 : Nat) : Int) := by
    rw [Nat.cast_max]
  rw [hm] at h
  have e : (max p.1 p.2 + 1) * (max p.1 p.2 + 1) =
      max p.1 p.2 * max p.1 p.2 + 2 * max p.1 p.2 + 1 := by ring
  rw [e]
  generalize max p.1 p.2 = m at h
  constructor
  · exact_mod_cast h.1
  · have : (diagonal_index_nat p : Int) ≤ ((m * m + 2 * m : Nat) : Int) := by
      push_cast; exact h.2
    have h' : diagonal_index_nat p ≤ m * m + 2 * m := by exact_mod_cast this
    omega

/-! ## Capacities after sequences of writes and clears -/

theorem offsets_apply_op (b : gol_board) (op : board_op) :
    (apply_op b op).offsetX = b.offsetX ∧ (apply_op b op).offsetY = b.offsetY := by
  cases op with
  | write x y v => exact ⟨offsetX_write_gol_board x y v b, offsetY_write_gol_board x y v b⟩
  | clean => exact ⟨rfl, rfl⟩

theorem size_apply_ops_aux (ops : List board_op) (b0 b : gol_board) (d m : Nat)
    (h : ops_no_overflow ops b0) (hx : b.offsetX = b0.offsetX) (hy : b.offsetY = b0.offsetY)
    (hm : size_bb_buffer b d = m) :
    size_bb_buffer (ops.foldl apply_op b) d =
      ops.foldl
        (fun m op =>
          match op with
          | board_op.write x y _ =>
            if (cell_address x y b0).direction = d then
              max m ((cell_address x y b0).position_in_bb + 1)
            else m
          | board_op.clean => m)
        m := by
  induction ops generalizing b m with
  | nil => simpa using hm
  | cons op ops ih =>
    rw [List.foldl_cons, List.foldl_cons]
    have hop := h op (List.mem_cons_self _ _)
    have o := offsets_apply_op b op
    apply ih (apply_op b op) _ (fun op' hop' => h op' (List.mem_cons_of_mem _ hop'))
      (o.1.trans hx) (o.2.trans hy)
    cases op with
    | write x y v =>
      simp only [apply_op]
      simp only [] at hop
      have e := cell_address_congr x y b b0 hx hy
      rw [length_write_gol_board x y v b d
        (position_in_bb_lt_SIZE_MAX x y b
          (address_no_overflow_congr x y b0 b hx.symm hy.symm hop.1)),
        e, hm]
      by_cases hd : d = (cell_address x y b0).direction
      · rw [if_pos hd, if_pos hd.symm, max_comm]
      · rw [if_neg hd, if_neg (fun h' => hd h'.symm)]
    | clean =>
      simp only [apply_op]
      rw [length_clean_board, hm]

theorem size_apply_ops (ops : List board_op) (b0 : gol_board) (d : Nat)
    (h : ops_no_overflow ops b0) (h0 : size_bb_buffer b0 d = 0) :
    size_bb_buffer (apply_ops ops b0) d = written_capacity ops b0 d :=
  size_apply_ops_aux ops b0 b0 d 0 h rfl rfl h0

theorem getElem?_write_gol_board_new_slot (x y : Int) (v : Bool) (b : gol_board) (j : Nat)
    (h1 : size_bb_buffer b (cell_address x y b).direction ≤ j)
    (h2 : j < size_bb_buffer (write_gol_board x y v b) (cell_address x y b).direction)
    (h3 : j ≠ (cell_address x y b).position_in_bb) :
    ((write_gol_board x y v b).bb_buffer (cell_address x y b).direction)[j]? = some none := by
  unfold size_bb_buffer at h1 h2
  rw [bb_buffer_write_gol_board, if_pos rfl] at h2 ⊢
  rw [List.length_set] at h2
  rw [List.getElem?_set_ne (fun h' => h3 h'.symm)]
  unfold realloc_bb_buffer at h2 ⊢
  split_ifs at h2 ⊢ with hc
  · rw [List.getElem?_append_right h1]
    rw [List.length_append, List.length_replicate] at h2
    rw [List.getElem?_replicate, if_pos (by omega)]
  · omega

theorem getD_write_gol_board_written_slot (x y : Int) (v : Bool) (b : gol_board)
    (h : address_no_overflow x y b) :
    ((write_gol_board x y v b).bb_buffer (cell_address x y b).direction).getD
        (cell_address x y b).position_in_bb none ≠ none := by
  rw [getD_write_gol_board x y v b _ _ (position_in_bb_lt_SIZE_MAX x y b h), if_pos ⟨rfl, rfl⟩]
  simp

/-! ## Reads and bounds after a sequence of writes -/

theorem read_apply_writes_fold (ws : List (Int × Int × Bool)) (b : gol_board)
    (hws : ∀ w ∈ ws, address_no_overflow w.1 w.2.1 b)
    (x y : Int) (hxy : address_no_overflow x y b) :
    read_gol_board x y (apply_writes ws b) =
      ws.foldl (fun acc w => if w.1 = x ∧ w.2.1 = y then w.2.2 else acc)
        (read_gol_board x y b) := by
  unfold apply_writes
  induction ws generalizing b with
  | nil => simp
  | cons w ws ih =>
    rw [List.foldl_cons, List.foldl_cons]
    have hw := hws w (List.mem_cons_self _ _)
    have ox := offsetX_write_gol_board w.1 w.2.1 w.2.2 b
    have oy := offsetY_write_gol_board w.1 w.2.1 w.2.2 b
    rw [ih (write_gol_board w.1 w.2.1 w.2.2 b)
      (fun w' hw' => address_no_overflow_congr _ _ _ _ ox.symm oy.symm
        (hws w' (List.mem_cons_of_mem _ hw')))
      (address_no_overflow_congr _ _ _ _ ox.symm oy.symm hxy),
      read_gol_board_write_gol_board b w.1 w.2.1 x y w.2.2
        (position_in_bb_lt_SIZE_MAX _ _ b hw)]
    congr 1
    by_cases hc : cell_address x y b = cell_address w.1 w.2.1 b
    · have := cell_address_injective x y w.1 w.2.1 b hxy hw hc
      rw [if_pos hc, if_pos ⟨this.1.symm, this.2.symm⟩]
    · have hne : ¬ (w.1 = x ∧ w.2.1 = y) := by
        rintro ⟨h1, h2⟩
        exact hc (by rw [h1, h2])
      rw [if_neg hc, if_neg hne]

theorem read_gol_board_set_offset_new_board (x y ox oy : Int) :
    read_gol_board x y (set_offset ox oy new_board) = false := by
  apply read_gol_board_of_all_none
  intro d i _
  simp [set_offset, new_board]

theorem read_apply_writes_last_write (ws : List (Int × Int × Bool)) (ox oy : Int)
    (hws : ∀ w ∈ ws, address_no_overflow w.1 w.2.1 (set_offset ox oy new_board))
    (x y : Int) (hxy : address_no_overflow x y (set_offset ox oy new_board)) :
    read_gol_board x y (apply_writes ws (set_offset ox oy new_board)) = last_write ws x y := by
  rw [read_apply_writes_fold ws _ hws x y hxy, read_gol_board_set_offset_new_board]
  rfl

theorem bounds_apply_writes (ws : List (Int × Int × Bool)) (b : gol_board) :
    get_game_bounds (apply_writes ws b) = bounds_after ws (get_game_bounds b) := by
  unfold apply_writes bounds_after
  induction ws generalizing b with
  | nil => rfl
  | cons w ws ih =>
    rw [List.foldl_cons, List.foldl_cons, ih]
    congr 1
    unfold get_game_bounds
    cases hv : w.2.2
    · rw [board_bounds_write_false]
      simp
    · rw [board_bounds_write_true]
      simp

theorem read_gol_board_set_offset (x y ox oy : Int) (b : gol_board) :
    read_gol_board x y (set_offset ox oy b) =
      read_gol_board (x + ox - b.offsetX) (y + oy - b.offsetY) b := by
  have e1 : x + ox - b.offsetX + b.offsetX = x + ox := by ring
  have e2 : y + oy - b.offsetY + b.offsetY = y + oy := by ring
  unfold read_gol_board
  rw [e1, e2]
  rfl

/-! ## The board with a single live cell -/

theorem board_position_ext (a b : board_position) (h1 : a.bbPositionX = b.bbPositionX)
    (h2 : a.bbPositionY = b.bbPositionY) (h3 : a.position_in_bb = b.position_in_bb)
    (h4 : a.direction = b.direction) : a = b := by
  cases a; cases b; simp_all

theorem cell_address_of_read_single_cell_board (x y k l : Int)
    (h : read_gol_board k l (single_cell_board x y) = true) :
    cell_address k l new_board = cell_address x y new_board := by
  unfold single_cell_board at h
  rw [read_gol_board_eq, cell_address_write_gol_board, getD_write_gol_board_gen] at h
  have hb : ∀ d j, (new_board.bb_buffer d).getD j none = none := by
    intro d j; simp [new_board]
  split_ifs at h with hc
  · obtain ⟨h1, h2, _⟩ := hc
    rw [hb] at h
    simp only [] at h
    have l1 : (cell_address x y new_board).bbPositionX < 32 := bbPositionX_lt _ _
    have l2 : (cell_address k l new_board).bbPositionX < 32 := bbPositionX_lt _ _
    rw [read_in_block_write_in_block _ _ _ _ _ _ l1 l2] at h
    split_ifs at h with hc2
    · exact board_position_ext _ _ hc2.1 hc2.2 h2.symm h1
    · rw [read_in_block_get_new_empty_bb] at h
      cases h
  · rw [hb] at h
    cases h

theorem position_near_eq (k l k2 l2 : Int)
    (dk : k - k2 ≤ 2 ∧ k2 - k ≤ 2) (dl : l - l2 ≤ 2 ∧ l2 - l ≤ 2)
    (he : position_in_board_structure k l = position_in_board_structure k2 l2) :
    k = k2 ∧ l = l2 := by
  have hd := congrArg board_position.direction he
  have hX := congrArg board_position.bbPositionX he
  have hY := congrArg board_position.bbPositionY he
  unfold position_in_board_structure at hd hX hY
  simp only [] at hd hX hY
  have m : ∀ v : Int, to_size ((sign_fold v).tmod 32) = ((sign_fold v) % 32).toNat := by
    intro v
    rw [tmod_32_eq _ (sign_fold_nonneg v)]
    exact to_size_of_nonneg_lt _ (Int.emod_nonneg _ (by norm_num))
      (lt_trans (Int.emod_lt_of_pos _ (by norm_num)) (by norm_num))
  rw [m, m] at hX hY
  have hX2 : sign_fold k % 32 = sign_fold k2 % 32 := by
    have a1 := Int.emod_nonneg (sign_fold k) (show (32 : Int) ≠ 0 by norm_num)
    have a2 := Int.emod_nonneg (sign_fold k2) (show (32 : Int) ≠ 0 by norm_num)
    omega
  have hY2 : sign_fold l % 32 = sign_fold l2 % 32 := by
    have a1 := Int.emod_nonneg (sign_fold l) (show (32 : Int) ≠ 0 by norm_num)
    have a2 := Int.emod_nonneg (sign_fold l2) (show (32 : Int) ≠ 0 by norm_num)
    omega
  unfold sign_fold at hX2 hY2
  constructor
  · split_ifs at hd hX2 <;> omega
  · split_ifs at hd hY2 <;> omega

theorem countP_le_one {α : Type} (p : α → Bool) (l : List α) (hl : l.Nodup)
    (h : ∀ a ∈ l, ∀ b ∈ l, p a = true → p b = true → a = b) : l.countP p ≤ 1 := by
  induction l with
  | nil => simp
  | cons a l ih =>
    rw [List.nodup_cons] at hl
    rw [List.countP_cons]
    by_cases ha : p a = true
    · have h0 : l.countP p = 0 := by
        rw [List.countP_eq_zero]
        intro b hb hpb
        have := h a (List.mem_cons_self _ _) b (List.mem_cons_of_mem _ hb) ha hpb
        exact hl.1 (this ▸ hb)
      rw [h0, if_pos ha]
    · rw [if_neg ha]
      exact ih hl.2 (fun a' ha' b' hb' =>
        h a' (List.mem_cons_of_mem _ ha') b' (List.mem_cons_of_mem _ hb'))

theorem moore_neighbours_nodup (i j : Int) : (moore_neighbours i j).Nodup := by
  unfold moore_neighbours
  simp only [List.nodup_cons, List.mem_cons, List.mem_singleton, Prod.mk.injEq,
    List.not_mem_nil, not_false_eq_true, List.nodup_nil, and_true, not_or]
  omega

theorem live_neighbours_single_cell_board (x y i j : Int)
    (hi : fits_intmax (i - 1) ∧ fits_intmax (i + 1))
    (hj : fits_intmax (j - 1) ∧ fits_intmax (j + 1)) :
    live_neighbours i j (single_cell_board x y) ≤ 1 := by
  unfold live_neighbours
  apply countP_le_one _ _ (moore_neighbours_nodup i j)
  intro a ha b hb pa pb
  have ba := mem_moore_neighbours_bounds i j a ha
  have bb := mem_moore_neighbours_bounds i j b hb
  have fa1 : fits_intmax a.1 := by
    unfold fits_intmax INTMAX_MIN INTMAX_MAX at *; omega
  have fa2 : fits_intmax a.2 := by
    unfold fits_intmax INTMAX_MIN INTMAX_MAX at *; omega
  have fb1 : fits_intmax b.1 := by
    unfold fits_intmax INTMAX_MIN INTMAX_MAX at *; omega
  have fb2 : fits_intmax b.2 := by
    unfold fits_intmax INTMAX_MIN INTMAX_MAX at *; omega
  have e := (cell_address_of_read_single_cell_board x y a.1 a.2 pa).trans
    (cell_address_of_read_single_cell_board x y b.1 b.2 pb).symm
  rw [cell_address_new_board _ _ fa1 fa2, cell_address_new_board _ _ fb1 fb2] at e
  have := position_near_eq a.1 a.2 b.1 b.2 (by omega) (by omega) e
  exact Prod.ext this.1 this.2

theorem is_alive_life_of_le_one (s : Bool) (n : Nat) (h : n ≤ 1) : is_alive_life s n = false := by
  interval_cases n <;> rfl

theorem get_next_generation_of_all_dead (prev next : gol_board) (f : Bool → Nat → Bool)
    (h : ∀ i j : Int,
      i ∈ int_range (wrap_intmax ((get_game_bounds prev).lowerX - 1))
        (wrap_intmax ((get_game_bounds prev).upperX + 1)) →
      j ∈ int_range (wrap_intmax ((get_game_bounds prev).lowerY - 1))
        (wrap_intmax ((get_game_bounds prev).upperY + 1)) →
      f (read_gol_board i j prev) (num_alive_at i j prev) = false) :
    get_next_generation prev next f = next := by
  unfold get_next_generation
  simp only []
  refine foldl_invariant (fun n : gol_board => n = next) _ _ _ rfl ?_
  intro a i hi ha
  refine foldl_invariant (fun n : gol_board => n = next) _ _ _ ha ?_
  intro a2 j hj ha2
  unfold next_generation_cell
  simp only [h i j hi hj]
  exact ha2

theorem bounds_single_cell_board (x y : Int) :
    get_game_bounds (single_cell_board x y) = ⟨max 0 x, max 0 y, min 0 x, min 0 y⟩ := by
  unfold single_cell_board get_game_bounds
  rw [board_bounds_write_true]
  rfl

theorem get_next_generation_single_cell_board (x y : Int) (next : gol_board)
    (hx : fits_intmax (x - 2) ∧ fits_intmax (x + 2))
    (hy : fits_intmax (y - 2) ∧ fits_intmax (y + 2)) :
    get_next_generation (single_cell_board x y) next is_alive_life = next := by
  apply get_next_generation_of_all_dead
  rw [bounds_single_cell_board]
  simp only []
  have f1 : fits_intmax (min 0 x - 1) := by
    unfold fits_intmax INTMAX_MIN INTMAX_MAX at *; omega
  have f2 : fits_intmax (max 0 x + 1) := by
    unfold fits_intmax INTMAX_MIN INTMAX_MAX at *; omega
  have f3 : fits_intmax (min 0 y - 1) := by
    unfold fits_intmax INTMAX_MIN INTMAX_MAX at *; omega
  have f4 : fits_intmax (max 0 y + 1) := by
    unfold fits_intmax INTMAX_MIN INTMAX_MAX at *; omega
  rw [wrap_intmax_of_fits _ f1, wrap_intmax_of_fits _ f2, wrap_intmax_of_fits _ f3,
    wrap_intmax_of_fits _ f4]
  intro i j hi hj
  rw [mem_int_range] at hi hj
  have g1 : fits_intmax (i - 1) ∧ fits_intmax (i + 1) := by
    unfold fits_intmax INTMAX_MIN INTMAX_MAX at *; omega
  have g2 : fits_intmax (j - 1) ∧ fits_intmax (j + 1) := by
    unfold fits_intmax INTMAX_MIN INTMAX_MAX at *; omega
  rw [num_alive_at_eq i j _ g1.1 g1.2 g2.1 g2.2]
  exact is_alive_life_of_le_one _ _ (live_neighbours_single_cell_board x y i j g1 g2)

theorem read_evolve_single_cell_board (x y : Int)
    (hx : fits_intmax (x - 2) ∧ fits_intmax (x + 2))
    (hy : fits_intmax (y - 2) ∧ fits_intmax (y + 2)) (verbose : Bool) (p q : Int) :
    read_gol_board p q (evolve_to_generation_n 1 (single_cell_board x y) verbose false) =
      false := by
  rw [read_evolve_to_generation_n 1 _ verbose false p q (by decide)]
  have hr : get_game_rules (single_cell_board x y) = gol_rules.lifeRule := by
    unfold single_cell_board
    exact (rule_write_gol_board x y true new_board).trans rfl
  rw [hr]
  have hl : evolve_loop false (select_life_count gol_rules.lifeRule) 1
      ⟨single_cell_board x y, set_game_rules gol_rules.lifeRule new_board, true⟩ =
      evolve_step false is_alive_life
        ⟨single_cell_board x y, set_game_rules gol_rules.lifeRule new_board, true⟩ := rfl
  rw [hl]
  unfold evolve_step
  simp only [Bool.false_eq_true, if_false]
  rw [get_next_generation_single_cell_board x y _ hx hy]
  unfold center_offset
  simp only []
  exact read_gol_board_set_offset_clean_board _ _ _ _ _

theorem read_single_cell_board (x y p q : Int) (hxy : address_no_overflow x y new_board)
    (hpq : address_no_overflow p q new_board) :
    read_gol_board p q (single_cell_board x y) = true ↔ p = x ∧ q = y := by
  unfold single_cell_board
  rw [read_gol_board_write_gol_board new_board x y p q true
    (position_in_bb_lt_SIZE_MAX x y new_board hxy)]
  constructor
  · intro h
    split_ifs at h with hc
    · exact cell_address_injective p q x y new_board hpq hxy hc
    · rw [read_gol_board_of_all_none p q new_board (by intro d i _; simp [new_board])] at h
      cases h
  · rintro ⟨rfl, rfl⟩
    rw [if_pos rfl]

/-! ## The bounding box contains the origin -/

theorem contains_origin_write_gol_board (x y : Int) (v : Bool) (b : gol_board)
    (h : contains_origin (get_game_bounds b)) :
    contains_origin (get_game_bounds (write_gol_board x y v b)) := by
  unfold get_game_bounds contains_origin at *
  cases v
  · rw [board_bounds_write_false]; exact h
  · rw [board_bounds_write_true]
    simp only []
    omega

theorem contains_origin_next_generation_cell (prev n : gol_board) (f : Bool → Nat → Bool)
    (i j : Int) (h : contains_origin (get_game_bounds n)) :
    contains_origin (get_game_bounds (next_generation_cell prev f n i j)) := by
  unfold next_generation_cell
  simp only []
  split
  · exact contains_origin_write_gol_board _ _ _ _ h
  · exact h

theorem contains_origin_next_generation_iterator_cell (prev n : gol_board)
    (f : Bool → Nat → Bool) (i j : Int) (h : contains_origin (get_game_bounds n)) :
    contains_origin (get_game_bounds (next_generation_iterator_cell prev f n i j)) := by
  unfold next_generation_iterator_cell
  split
  · simp only []
    split
    · exact contains_origin_write_gol_board _ _ _ _ h
    · exact h
  · exact h

theorem contains_origin_get_next_generation (prev next : gol_board) (f : Bool → Nat → Bool)
    (h : contains_origin (get_game_bounds next)) :
    contains_origin (get_game_bounds (get_next_generation prev next f)) := by
  unfold get_next_generation
  simp only []
  refine foldl_invariant (fun n : gol_board => contains_origin (get_game_bounds n)) _ _ _ h ?_
  intro n i _ hn
  refine foldl_invariant (fun n : gol_board => contains_origin (get_game_bounds n)) _ _ _ hn ?_
  intro n2 j _ hn2
  exact contains_origin_next_generation_cell _ _ _ _ _ hn2

theorem contains_origin_get_next_generation_iterator (prev next : gol_board)
    (f : Bool → Nat → Bool) (h : contains_origin (get_game_bounds next)) :
    contains_origin (get_game_bounds (get_next_generation_iterator prev next f)) := by
  unfold get_next_generation_iterator
  refine foldl_invariant (fun n : gol_board => contains_origin (get_game_bounds n)) _ _ _ h ?_
  intro n pos _ hn
  refine foldl_invariant (fun n : gol_board => contains_origin (get_game_bounds n)) _ _ _ hn ?_
  intro n2 k _ hn2
  refine foldl_invariant (fun n : gol_board => contains_origin (get_game_bounds n)) _ _ _ hn2 ?_
  intro n3 l _ hn3
  exact contains_origin_next_generation_iterator_cell _ _ _ _ _ hn3

theorem contains_origin_evolve_step (it : Bool) (f : Bool → Nat → Bool) (st : evolve_state)
    (h : contains_origin (get_game_bounds st.current_gen)) :
    contains_origin (get_game_bounds (evolve_step it f st).current_gen) ∧
      contains_origin (get_game_bounds (evolve_step it f st).next_gen) := by
  refine ⟨?_, h⟩
  have h0 : contains_origin
      (get_game_bounds (center_offset (get_game_bounds st.current_gen)
        (clean_board st.next_gen))) := by
    unfold center_offset set_offset clean_board get_game_bounds
    simp only []
    decide
  cases it
  · exact contains_origin_get_next_generation _ _ _ h0
  · exact contains_origin_get_next_generation_iterator _ _ _ h0

theorem contains_origin_evolve_loop (it : Bool) (f : Bool → Nat → Bool) (k : Nat)
    (st : evolve_state) (h1 : contains_origin (get_game_bounds st.current_gen))
    (h2 : contains_origin (get_game_bounds st.next_gen)) :
    contains_origin (get_game_bounds (evolve_loop it f k st).current_gen) ∧
      contains_origin (get_game_bounds (evolve_loop it f k st).next_gen) := by
  induction k with
  | zero => exact ⟨h1, h2⟩
  | succ k ih =>
    rw [evolve_loop_succ]
    exact contains_origin_evolve_step it f _ ih.1

theorem contains_origin_evolve_to_generation_n (n : Nat) (b : gol_board) (verbose it : Bool)
    (h : contains_origin (get_game_bounds b)) :
    contains_origin (get_game_bounds (evolve_to_generation_n n b verbose it)) := by
  unfold evolve_to_generation_n
  split
  · exact h
  · have hl := contains_origin_evolve_loop it (select_life_count (get_game_rules b)) n
      ⟨b, set_game_rules (get_game_rules b) new_board, true⟩ h
      (show contains_origin ⟨0, 0, 0, 0⟩ by decide)
    simp only []
    split
    · exact hl.1
    · exact hl.1

theorem contains_origin_of_reachable (b : gol_board) (h : reachable_board b) :
    contains_origin (get_game_bounds b) := by
  induction h with
  | new => decide
  | write x y v b _ ih => exact contains_origin_write_gol_board x y v b ih
  | clean b _ _ => exact (show contains_origin ⟨0, 0, 0, 0⟩ by decide)
  | copy a b _ _ iha _ => exact iha
  | swap_fst a b _ _ _ ihb => exact ihb
  | swap_snd a b _ _ iha _ => exact iha
  | evolve n b verbose it _ ih => exact contains_origin_evolve_to_generation_n n b verbose it ih
  | offset ox oy b _ ih => exact ih
  | rules r b _ ih => exact ih

/-! ## The text written by `dump_rle` -/

theorem ends_with_item_print_item (out : rle_output) (count : Nat) (tag : Char)
    (htag : tag ≠ '!') : ends_with_item (print_item out count tag) := by
  right
  refine ⟨tag, htag, ?_⟩
  unfold print_item
  simp only []
  by_cases hc : count > 1
  · simp only [hc, ↓reduceIte]
    exact ⟨_, (List.append_assoc _ _ _).symm⟩
  · simp only [hc, ↓reduceIte]
    exact ⟨_, rfl⟩

theorem ends_with_item_print_cell_state (out : rle_output) (alive : Bool) (count : Nat)
    (h : ends_with_item out) : ends_with_item (print_cell_state out alive count) := by
  unfold print_cell_state
  split
  · apply ends_with_item_print_item
    cases alive <;> decide
  · exact h

theorem ends_with_item_dump_rle_cell (board : gol_board) (j : Int) (st : rle_state) (i : Int)
    (h : ends_with_item st.out) : ends_with_item (dump_rle_cell board j st i).out := by
  unfold dump_rle_cell
  simp only []
  split
  · exact h
  · apply ends_with_item_print_cell_state
    split
    · exact ends_with_item_print_item _ _ _ (by decide)
    · exact h

theorem ends_with_item_dump_rle_row (board : gol_board) (bounds : gol_board_bounds)
    (st : rle_output × Nat) (j : Int) (h : ends_with_item st.1) :
    ends_with_item (dump_rle_row board bounds st j).1 := by
  unfold dump_rle_row
  simp only []
  have h1 : ends_with_item
      ((int_range bounds.lowerX bounds.upperX).foldl (dump_rle_cell board j)
        { out := st.1, consecutive_empty := st.2, previous_was_alive := false,
          previous_cells_in_state := 0 }).out := by
    refine foldl_invariant (fun s : rle_state => ends_with_item s.out) _ _ _ h ?_
    intro s i _ hs
    exact ends_with_item_dump_rle_cell board j s i hs
  split
  · exact ends_with_item_print_cell_state _ _ _ h1
  · exact h1

theorem ends_with_item_dump_rle_grid (board : gol_board) :
    ends_with_item (dump_rle_grid board) := by
  unfold dump_rle_grid
  simp only []
  refine foldl_invariant (fun s : rle_output × Nat => ends_with_item s.1) _ _ _
    (Or.inl rfl) ?_
  intro s j _ hs
  exact ends_with_item_dump_rle_row board _ s j hs

theorem ends_with_marker_append (t : List Char) :
    ends_with_marker (t ++ ['!', '\n']) = true := by
  unfold ends_with_marker
  simp

theorem ends_with_marker_append_item (body : List Char) (tag : Char) (htag : tag ≠ '!') :
    ends_with_marker (body ++ [tag] ++ ['\n']) = false := by
  unfold ends_with_marker
  simp [htag]

theorem ends_with_marker_dump_rle (b : gol_game) (t : List Char) (h : dump_rle b = some t) :
    ends_with_marker t = true ↔ (dump_rle_grid b.board).num_written_in_line ≤ 68 := by
  unfold dump_rle at h
  cases hh : dump_rle_header b with
  | none => rw [hh] at h; cases h
  | some hd =>
    rw [hh] at h
    simp only [Option.map_some', Option.some.injEq] at h
    by_cases hn : (dump_rle_grid b.board).num_written_in_line > 68
    · rw [if_pos hn] at h
      rcases ends_with_item_dump_rle_grid b.board with h0 | ⟨tag, htag, body, hb⟩
      · omega
      · rw [← h, hb, ← List.append_assoc hd body [tag],
          ends_with_marker_append_item _ _ htag]
        constructor
        · intro hf; cases hf
        · intro hle; omega
    · rw [if_neg hn] at h
      rw [← h, ends_with_marker_append]
      constructor
      · intro _; omega
      · intro _; rfl

/-! ## Writes within the allocated range -/

theorem write_no_overflow_of_range (x y : Int) (b : gol_board)
    (hx : -(2 ^ 35) ≤ x + b.offsetX ∧ x + b.offsetX < 2 ^ 35)
    (hy : -(2 ^ 35) ≤ y + b.offsetY ∧ y + b.offsetY < 2 ^ 35) : write_no_overflow x y b := by
  have h : address_no_overflow x y b :=
    address_no_overflow_of_near_origin x y b ⟨⟨by omega, by omega⟩, ⟨by omega, by omega⟩⟩
  refine ⟨h, ?_⟩
  rw [cell_address_of_no_overflow x y b h]
  simp only []
  have hX := sign_fold_nonneg (x + b.offsetX)
  have hY := sign_fold_nonneg (y + b.offsetY)
  have hX2 : sign_fold (x + b.offsetX) < 2 ^ 35 := by unfold sign_fold; split <;> omega
  have hY2 : sign_fold (y + b.offsetY) < 2 ^ 35 := by unfold sign_fold; split <;> omega
  have a0 : 0 ≤ sign_fold (x + b.offsetX) / 32 := by omega
  have a1 : sign_fold (x + b.offsetX) / 32 ≤ 2 ^ 30 - 1 := by omega
  have b0 : 0 ≤ sign_fold (y + b.offsetY) / 32 := by omega
  have b1 : sign_fold (y + b.offsetY) / 32 ≤ 2 ^ 30 - 1 := by omega
  have hs := diagonal_index_shell _ _ a0 b0
  have m0 : 0 ≤ max (sign_fold (x + b.offsetX) / 32) (sign_fold (y + b.offsetY) / 32) :=
    le_max_of_le_left a0
  have m1 : max (sign_fold (x + b.offsetX) / 32) (sign_fold (y + b.offsetY) / 32) ≤
      2 ^ 30 - 1 := max_le a1 b1
  have sq : max (sign_fold (x + b.offsetX) / 32) (sign_fold (y + b.offsetY) / 32) *
      max (sign_fold (x + b.offsetX) / 32) (sign_fold (y + b.offsetY) / 32) ≤
      (2 ^ 30 - 1) * (2 ^ 30 - 1) := mul_le_mul m1 m1 m0 (by norm_num)
  norm_num at sq
  unfold sizeof_pointer SIZE_MAX
  omega

/-! ## Claim C1 -/

/-- C1. Write/read round trip: for every board `b`, value `v` and coordinate
`(x, y)` whose write is without overflow (address arithmetic within the signed
range and the grown buffer of `index + 1 < 2 ^ 61` slots), reading `(x, y)` after
`write_gol_board x y v b` returns `v`. -/
theorem write_read_round_trip (b : gol_board) (v : Bool) (x y : Int)
    (h : write_no_overflow x y b) :
    read_gol_board x y (write_gol_board x y v b) = v := by
  rw [read_gol_board_write_gol_board b x y x y v (position_in_bb_lt_SIZE_MAX x y b h.1),
    if_pos rfl]

set_option maxRecDepth 100000 in
/-- Witness of C1: a dead cell with a negative coordinate is written alive, which
forces the north-west buffer of `sample_board` to grow; afterwards it reads
alive. -/
theorem write_read_round_trip_witness :
    write_no_overflow (-200) 70 sample_board ∧
      read_gol_board (-200) 70 sample_board = false ∧
      read_gol_board (-200) 70 (write_gol_board (-200) 70 true sample_board) = true :=
  ⟨by decide, by decide, write_read_round_trip sample_board true (-200) 70 (by decide)⟩

/-! ## Claim C2 -/

/-- C2. One generation, full scan: when the bounding box of `prev` contains every
live cell of `prev` and `next` is a cleared board with any offset, then after
`get_next_generation prev next f`, with `f` one of the two rule functions, every
cell `(x, y)` of `next` reads as `f` applied to its state in `prev` and to the
number of live cells among its 8 Moore neighbours in `prev`; in particular no
cell outside the box expanded by one cell is alive. Coordinates range over the
cells for which the loop and address arithmetic is free of overflow; the
scanned cells and the cell `(x, y)` can be written into `next` without overflow
of the buffer growth (`write_no_overflow`, `index + 1 < 2 ^ 61`). -/
theorem get_next_generation_full_scan (prev n0 : gol_board) (ox oy : Int)
    (f : Bool → Nat → Bool) (hf : f = is_alive_life ∨ f = is_alive_hilife)
    (hfit : scan_no_overflow (get_game_bounds prev))
    (hbox : bounds_contain_live prev)
    (hscan : ∀ i j, in_halo (get_game_bounds prev) i j →
      write_no_overflow i j (set_offset ox oy (clean_board n0)))
    (x y : Int) (hxy : write_no_overflow x y (set_offset ox oy (clean_board n0)))
    (hnb : ∀ p ∈ moore_neighbours x y, address_no_overflow p.1 p.2 prev) :
    read_gol_board x y (get_next_generation prev (set_offset ox oy (clean_board n0)) f) =
        f (read_gol_board x y prev) (live_neighbours x y prev) ∧
      (¬ in_halo (get_game_bounds prev) x y →
        read_gol_board x y (get_next_generation prev (set_offset ox oy (clean_board n0)) f) =
          false) :=
  get_next_generation_cell_state prev n0 ox oy f hf hfit hbox
    (fun i j hij => (hscan i j hij).1) x y hxy.1 hnb

theorem bounds_contain_live_blinker_board : bounds_contain_live blinker_board :=
  bounds_contain_live_apply_writes _ _ (by decide) bounds_contain_live_new_board

theorem get_game_bounds_blinker_board :
    get_game_bounds blinker_board = ⟨2, 0, 0, 0⟩ := by
  decide

theorem halo_blinker_near_origin (ox oy : Int) (hox : -1000 ≤ ox ∧ ox ≤ 1000)
    (hoy : -1000 ≤ oy ∧ oy ≤ 1000) (n0 : gol_board) (i j : Int)
    (h : in_halo (get_game_bounds blinker_board) i j) :
    write_no_overflow i j (set_offset ox oy (clean_board n0)) := by
  rw [get_game_bounds_blinker_board] at h
  unfold in_halo at h
  simp only [] at h
  apply write_no_overflow_of_range
  · unfold set_offset
    simp only []
    omega
  · unfold set_offset
    simp only []
    omega

set_option maxRecDepth 100000 in
/-- Witness of C2: the blinker scanned into the cleared `sample_board`; the cell
`(1, 1)` is born. -/
theorem get_next_generation_full_scan_witness :
    read_gol_board 1 1
        (get_next_generation blinker_board (set_offset (-1) 0 (clean_board sample_board))
          is_alive_life) =
      is_alive_life (read_gol_board 1 1 blinker_board) (live_neighbours 1 1 blinker_board) ∧
    is_alive_life (read_gol_board 1 1 blinker_board) (live_neighbours 1 1 blinker_board) =
      true :=
  ⟨(get_next_generation_full_scan blinker_board sample_board (-1) 0 is_alive_life
      (Or.inl rfl) (by decide) bounds_contain_live_blinker_board
      (halo_blinker_near_origin (-1) 0 (by decide) (by decide) sample_board)
      1 1 (by decide) (by decide)).1,
    by decide⟩

/-! ## Claim C3 -/

/-- C3. `evolve_to_generation_n` with the full scan computes generation `n` in
the caller's board: when the bounding box of the start board `b` contains its
live cells, the read of every cell `(x, y)` after the call equals the `n`-fold
iteration of the one-generation rule selected by the rule field of `b`, applied
to the initial reads of `b`, for even and for odd `n`. The box of `b` is within
`R` of the origin with `R + n ≤ 2 ^ 34`, the cell within `2 ^ 34` of the origin,
and the cells on which its state depends have addresses in `b` without
overflow. -/
theorem evolve_to_generation_n_computes (n : Nat) (b : gol_board) (verbose : Bool)
    (R : Int) (x y : Int) (hbox : bounds_contain_live b)
    (hR : bounds_within (get_game_bounds b) R) (hn : R + n ≤ 2 ^ 34)
    (hx : -(2 ^ 34) ≤ x ∧ x ≤ 2 ^ 34) (hy : -(2 ^ 34) ≤ y ∧ y ≤ 2 ^ 34)
    (hdom : ∀ p q : Int, (x - n ≤ p ∧ p ≤ x + n) → (y - n ≤ q ∧ q ≤ y + n) →
      address_no_overflow p q b) :
    read_gol_board x y (evolve_to_generation_n n b verbose false) =
      life_iterate (select_life_count (get_game_rules b)) n
        (fun u v => read_gol_board u v b) x y := by
  by_cases h0 : n = 0
  · subst h0
    rfl
  · rw [read_evolve_to_generation_n n b verbose false x y h0]
    exact ((evolve_loop_full_scan _ (select_life_count_cases _) b _ true R n x y hbox hR hn
      hx hy hdom n (le_refl n)).2.2 x y (by omega) (by omega)).2

theorem blinker_board_near_origin (p q : Int) (hp : -(2 ^ 35) ≤ p ∧ p ≤ 2 ^ 35)
    (hq : -(2 ^ 35) ≤ q ∧ q ≤ 2 ^ 35) : address_no_overflow p q blinker_board := by
  apply address_no_overflow_of_near_origin
  have h1 : blinker_board.offsetX = 0 := (offsets_apply_writes _ _).1
  have h2 : blinker_board.offsetY = 0 := (offsets_apply_writes _ _).2
  unfold near_origin
  rw [h1, h2]
  omega

set_option maxRecDepth 100000 in
/-- Witness of C3: three generations (an odd count) of the blinker. -/
theorem evolve_to_generation_n_computes_witness :
    read_gol_board 1 1 (evolve_to_generation_n 3 blinker_board false false) =
      life_iterate (select_life_count (get_game_rules blinker_board)) 3
        (fun u v => read_gol_board u v blinker_board) 1 1 ∧
    read_gol_board 1 1 (evolve_to_generation_n 3 blinker_board false false) = true :=
  ⟨evolve_to_generation_n_computes 3 blinker_board false 2 1 1
      bounds_contain_live_blinker_board (by decide) (by decide) (by decide) (by decide)
      (fun p q hp hq => blinker_board_near_origin p q (by omega) (by omega)),
    by decide⟩

/-! ## The iterator kernel with the board iterator of section 4.3 -/

set_option maxRecDepth 1000000 in
/-- With the board iterator modelled from section 4.3 (one position per
allocated block, the local origin of the block), one generation of the blinker
`(5,5), (6,5), (7,5)` computed by `evolve_to_generation_n` with the iterator
differs from the full scan: the iterator reports the single position `(0, 0)`,
only the 3x3 window around it is evaluated, and the vertical blinker
`(6,4), (6,5), (6,6)` is never written. This is the behaviour of
`get_next_generation_iterator` on the modelled iterator only: the source of the
board iterator is missing, and section 4.4 describes a visit of every cell
inside a block. -/
theorem evolution_iterator_diverges :
    board_iterator_positions inner_blinker_board = [(0, 0)] ∧
      read_gol_board 6 6 (evolve_to_generation_n 1 inner_blinker_board false false) = true ∧
      read_gol_board 6 6 (evolve_to_generation_n 1 inner_blinker_board false true) = false ∧
      gol_same_board (evolve_to_generation_n 1 inner_blinker_board false false)
        (evolve_to_generation_n 1 inner_blinker_board false true) = false := by
  refine ⟨by decide, by decide, by decide, by decide⟩

/-! ## Claim C5 -/

/-- C5. Rule tables: `is_alive_life p c` is true iff `c = 3` or (`c = 2` and
`p`); `is_alive_hilife p c` is true iff `c = 3` or `c = 6` or (`c = 2` and `p`);
`evolve_to_generation_n` runs its kernel loop with `is_alive_hilife` exactly when
the rule of the board is `highLifeRule` and with `is_alive_life` otherwise. -/
theorem rule_tables (p : Bool) (c : Nat) (n : Nat) (b : gol_board) (verbose it : Bool) :
    (is_alive_life p c = true ↔ (c = 3 ∨ (c = 2 ∧ p = true))) ∧
    (is_alive_hilife p c = true ↔ (c = 3 ∨ c = 6 ∨ (c = 2 ∧ p = true))) ∧
    select_life_count (get_game_rules b) =
      (if get_game_rules b = gol_rules.highLifeRule then is_alive_hilife
        else is_alive_life) ∧
    evolve_to_generation_n (n + 1) b verbose it =
      (if !(evolve_loop it
            (if get_game_rules b = gol_rules.highLifeRule then is_alive_hilife
              else is_alive_life)
            (n + 1) ⟨b, set_game_rules (get_game_rules b) new_board, true⟩).current_is_start
        then (gol_swap_board
          (evolve_loop it
            (if get_game_rules b = gol_rules.highLifeRule then is_alive_hilife
              else is_alive_life)
            (n + 1) ⟨b, set_game_rules (get_game_rules b) new_board, true⟩).next_gen
          (evolve_loop it
            (if get_game_rules b = gol_rules.highLifeRule then is_alive_hilife
              else is_alive_life)
            (n + 1) ⟨b, set_game_rules (get_game_rules b) new_board, true⟩).current_gen).1
        else (evolve_loop it
            (if get_game_rules b = gol_rules.highLifeRule then is_alive_hilife
              else is_alive_life)
            (n + 1) ⟨b, set_game_rules (get_game_rules b) new_board, true⟩).current_gen) ∧
    is_alive_hilife ≠ is_alive_life := by
  have hsel : select_life_count (get_game_rules b) =
      (if get_game_rules b = gol_rules.highLifeRule then is_alive_hilife
        else is_alive_life) := by
    unfold get_game_rules
    cases b.rule <;> rfl
  refine ⟨?_, ?_, hsel, ?_, ?_⟩
  · unfold is_alive_life
    split <;> simp_all
  · unfold is_alive_hilife
    split <;> simp_all
  · rw [← hsel]
    unfold evolve_to_generation_n
    rw [if_neg (Nat.succ_ne_zero n)]
  · intro h
    have := congrFun (congrFun h false) 6
    exact absurd this (by decide)

/-! ## Claim C6 -/

/-- C6. The neighbour count excludes the cell itself: the value `num_alive`
computed for the cell `(i, j)` (seeded with `SIZE_MAX` when the cell is alive,
then incremented modulo `2 ^ 64` for each live cell of the 3x3 window) is the
number of live cells among the 8 Moore neighbours, hence at most 8; this is the
value both kernels hand to the rule function. The window coordinates `i - 1`,
`i + 1`, `j - 1`, `j + 1` are representable. -/
theorem num_alive_excludes_cell (b next : gol_board) (f : Bool → Nat → Bool) (i j : Int)
    (hi : fits_intmax (i - 1) ∧ fits_intmax (i + 1))
    (hj : fits_intmax (j - 1) ∧ fits_intmax (j + 1)) :
    num_alive_at i j b = live_neighbours i j b ∧ num_alive_at i j b ≤ 8 ∧
    next_generation_cell b f next i j =
      (if f (read_gol_board i j b) (live_neighbours i j b) then write_gol_board i j true next
        else next) ∧
    next_generation_iterator_cell b f next i j =
      (if !read_gol_board i j next then
        (if f (read_gol_board i j b) (live_neighbours i j b) then
          write_gol_board i j true next else next)
        else next) := by
  have h := num_alive_at_eq i j b hi.1 hi.2 hj.1 hj.2
  refine ⟨h, ?_, ?_, ?_⟩
  · rw [h]; exact live_neighbours_le i j b
  · unfold next_generation_cell
    simp only [h]
  · unfold next_generation_iterator_cell
    simp only [h]

set_option maxRecDepth 100000 in
/-- Witness of C6: the middle cell of the blinker is alive and has two live
neighbours. -/
theorem num_alive_excludes_cell_witness :
    read_gol_board 1 0 blinker_board = true ∧ num_alive_at 1 0 blinker_board = 2 :=
  ⟨by decide,
    (num_alive_excludes_cell blinker_board new_board is_alive_life 1 0
      (by decide) (by decide)).1.trans (by decide)⟩

/-! ## Claims C7 and C8 -/

/-- C7. Bounding-box invariant: on a board created by `new_board` or cleared by
`clean_board`, after any sequence of `write_gol_board` calls (writes without
overflow of the address arithmetic or of the buffer growth, offset unchanged),
every cell that reads true lies inside the bounds returned by
`get_game_bounds`; and the box may contain a cell that reads false. -/
theorem bounding_box_invariant (b0 : gol_board)
    (hb0 : b0 = new_board ∨ ∃ c, b0 = clean_board c) (ws : List (Int × Int × Bool))
    (hws : ∀ w ∈ ws, write_no_overflow w.1 w.2.1 b0) (x y : Int)
    (hxy : address_no_overflow x y b0)
    (hr : read_gol_board x y (apply_writes ws b0) = true) :
    ((get_game_bounds (apply_writes ws b0)).lowerX ≤ x ∧
        x ≤ (get_game_bounds (apply_writes ws b0)).upperX ∧
        (get_game_bounds (apply_writes ws b0)).lowerY ≤ y ∧
        y ≤ (get_game_bounds (apply_writes ws b0)).upperY) ∧
      ∃ (ws' : List (Int × Int × Bool)) (x' y' : Int),
        in_bounds (get_game_bounds (apply_writes ws' new_board)) x' y' ∧
          read_gol_board x' y' (apply_writes ws' new_board) = false := by
  have h0 : bounds_contain_live b0 := by
    rcases hb0 with rfl | ⟨c, rfl⟩
    · exact bounds_contain_live_new_board
    · exact bounds_contain_live_clean_board c
  have h := bounds_contain_live_apply_writes ws b0 (fun w hw => (hws w hw).1) h0 x y
    (address_no_overflow_congr _ _ _ _ (offsets_apply_writes ws b0).1.symm
      (offsets_apply_writes ws b0).2.symm hxy) hr
  exact ⟨h, [(2, 0, true)], 1, 0, by decide, by decide⟩

set_option maxRecDepth 100000 in
/-- Witness of C7: writes on a cleared board, one of them killing a cell. -/
theorem bounding_box_invariant_witness :
    read_gol_board (-3) 40
        (apply_writes [(5, 5, true), (-3, 40, true), (5, 5, false)]
          (clean_board sample_board)) = true ∧
      (get_game_bounds (apply_writes [(5, 5, true), (-3, 40, true), (5, 5, false)]
          (clean_board sample_board))).lowerX ≤ -3 :=
  ⟨by decide,
    (bounding_box_invariant (clean_board sample_board) (Or.inr ⟨sample_board, rfl⟩)
      [(5, 5, true), (-3, 40, true), (5, 5, false)] (by decide) (-3) 40 (by decide)
      (by decide)).1.1⟩

/-- C8. Effect of a write on the bounding box: writing a live cell at `(x, y)`
sets `upperX` to `max upperX x`, `lowerX` to `min lowerX x`, `upperY` to
`max upperY y` and `lowerY` to `min lowerY y`, with the logical coordinates
(the offset is not applied); writing a dead cell leaves the four bounds
unchanged. -/
theorem write_effect_on_bounds (x y : Int) (b : gol_board) :
    get_game_bounds (write_gol_board x y true b) =
        { upperX := max (get_game_bounds b).upperX x
          lowerX := min (get_game_bounds b).lowerX x
          upperY := max (get_game_bounds b).upperY y
          lowerY := min (get_game_bounds b).lowerY y } ∧
      get_game_bounds (write_gol_board x y false b) = get_game_bounds b :=
  ⟨board_bounds_write_true x y b, board_bounds_write_false x y b⟩

/-! ## Claims C9 and C10 -/

/-- C9. Copy fidelity: for every source board `B` (live cells, allocated but
empty blocks, any offset and rule; capacities representable as `size_t`) and
every destination board `C`, `gol_same_board` of `B` and the result of
`gol_copy_board B C` is true. -/
theorem copy_fidelity (B C : gol_board) (hB : capacities_fit B) :
    gol_same_board B (gol_copy_board B C) = true :=
  gol_same_board_gol_copy_board B C hB

theorem capacities_fit_sample_source : capacities_fit sample_source := by
  intro d hd
  unfold bb_all_dirs at hd
  have h : d = 0 ∨ d = 1 ∨ d = 2 ∨ d = 3 := by omega
  rcases h with rfl | rfl | rfl | rfl <;> decide

/-- Witness of C9: a source with an allocated empty block copied over a board
that held other cells. -/
theorem copy_fidelity_witness :
    gol_same_board sample_source (gol_copy_board sample_source sample_board) = true :=
  copy_fidelity sample_source sample_board capacities_fit_sample_source

/-- C10. Copy duplicates the observable state: after `gol_copy_board B C`, every
cell of the copy reads as in `B`, and the bounds, offset and rule of the copy
are those of `B`, whatever `C` held before; a source quadrant of capacity 0 is
included (its descending loop runs zero times). The source `B` is an input that
the function does not modify. Capacities are representable as `size_t`. -/
theorem copy_duplicates_state (B C : gol_board) (hB : capacities_fit B) (x y : Int) :
    read_gol_board x y (gol_copy_board B C) = read_gol_board x y B ∧
      get_game_bounds (gol_copy_board B C) = get_game_bounds B ∧
      get_offset (gol_copy_board B C) = get_offset B ∧
      get_game_rules (gol_copy_board B C) = get_game_rules B :=
  ⟨read_gol_board_gol_copy_board B C hB x y, rfl, rfl, rfl⟩

set_option maxRecDepth 100000 in
/-- Witness of C10: the south-west quadrant of the source has capacity 0 while
the destination held a block there; the cell `(-35, -6)` is stored in that
quadrant. -/
theorem copy_duplicates_state_witness :
    size_bb_buffer sample_source 3 = 0 ∧ size_bb_buffer sample_board 3 = 4 ∧
      (cell_address (-35) (-6) sample_source).direction = 3 ∧
      read_gol_board (-35) (-6) (gol_copy_board sample_source sample_board) =
        read_gol_board (-35) (-6) sample_source :=
  ⟨by decide, by decide, by decide,
    (copy_duplicates_state sample_source sample_board capacities_fit_sample_source
      (-35) (-6)).1⟩

/-! ## Claims C11 and C12 -/

/-- C11. Swap exchanges content but not rules: after `gol_swap_board a b` every
cell of the new `a` reads as the old `b` and conversely, the bounds, offsets,
per-quadrant sequences and capacities are exchanged, and each board keeps its
own rule. -/
theorem swap_exchanges_content (a b : gol_board) (x y : Int) (d : Nat)
    (hd : d < bb_all_dirs) :
    (read_gol_board x y (gol_swap_board a b).1 = read_gol_board x y b ∧
      read_gol_board x y (gol_swap_board a b).2 = read_gol_board x y a) ∧
    (get_game_bounds (gol_swap_board a b).1 = get_game_bounds b ∧
      get_game_bounds (gol_swap_board a b).2 = get_game_bounds a) ∧
    (get_offset (gol_swap_board a b).1 = get_offset b ∧
      get_offset (gol_swap_board a b).2 = get_offset a) ∧
    ((gol_swap_board a b).1.bb_buffer d = b.bb_buffer d ∧
      (gol_swap_board a b).2.bb_buffer d = a.bb_buffer d) ∧
    (size_bb_buffer (gol_swap_board a b).1 d = size_bb_buffer b d ∧
      size_bb_buffer (gol_swap_board a b).2 d = size_bb_buffer a d) ∧
    (get_game_rules (gol_swap_board a b).1 = get_game_rules a ∧
      get_game_rules (gol_swap_board a b).2 = get_game_rules b) := by
  have h1 : (gol_swap_board a b).1.bb_buffer d = b.bb_buffer d := by
    unfold gol_swap_board; simp only [hd, if_true]
  have h2 : (gol_swap_board a b).2.bb_buffer d = a.bb_buffer d := by
    unfold gol_swap_board; simp only [hd, if_true]
  refine ⟨⟨read_gol_board_swap_fst x y a b, read_gol_board_swap_snd x y a b⟩, ⟨rfl, rfl⟩,
    ⟨rfl, rfl⟩, ⟨h1, h2⟩, ⟨?_, ?_⟩, ⟨rfl, rfl⟩⟩
  · unfold size_bb_buffer; rw [h1]
  · unfold size_bb_buffer; rw [h2]

set_option maxRecDepth 100000 in
/-- Witness of C11: two boards with different rules and offsets; the south-east
quadrant and a cell stored in it. -/
theorem swap_exchanges_content_witness :
    read_gol_board 5 (-3) sample_board = true ∧
      read_gol_board 5 (-3) (gol_swap_board sample_source sample_board).1 = true ∧
      get_game_rules (gol_swap_board sample_source sample_board).1 =
        gol_rules.highLifeRule :=
  ⟨by decide,
    (swap_exchanges_content sample_source sample_board 5 (-3) 1 (by decide)).1.1.trans
      (by decide),
    (swap_exchanges_content sample_source sample_board 5 (-3) 1 (by decide)).2.2.2.2.2.1⟩

/-- C12. Swap is an involution: applying `gol_swap_board` twice gives back both
boards exactly (cells, bounds, offsets, buffers, capacities and rules). -/
theorem swap_involution (a b : gol_board) :
    gol_swap_board (gol_swap_board a b).1 (gol_swap_board a b).2 = (a, b) := by
  unfold gol_swap_board get_game_bounds get_offset
  simp only [Prod.mk.injEq]
  constructor
  · cases a
    simp only [gol_board.mk.injEq, and_true]
    funext i
    split <;> rfl
  · cases b
    simp only [gol_board.mk.injEq, and_true]
    funext i
    split <;> rfl

/-! ## Claims C13 and C14 -/

set_option maxRecDepth 100000 in
/-- C13 at a failing input. The board holding the single live cell `(0, 0)` and
the new board have the same offset and the same bounds; the fast path of
`gol_same_board` compares no slot, because the shorter capacity is 0, and returns
true although the cell `(0, 0)` reads differently: the slot beyond the shorter
capacity holds a live cell. -/
theorem same_board_ignores_tail :
    origin_cell_board = apply_writes [(0, 0, true)] new_board ∧
      get_offset origin_cell_board = get_offset new_board ∧
      size_bb_buffer origin_cell_board 0 = 1 ∧ size_bb_buffer new_board 0 = 0 ∧
      gol_same_board origin_cell_board new_board = true ∧
      gol_same_board new_board origin_cell_board = true ∧
      read_gol_board 0 0 origin_cell_board = true ∧
      read_gol_board 0 0 new_board = false := by
  refine ⟨rfl, rfl, by decide, by decide, by decide, by decide, by decide, by decide⟩

/-- C14. Different bounding boxes are never equal: when any of `upperX`,
`lowerX`, `upperY`, `lowerY` differs between the bounds of `a` and of `b`,
`gol_same_board a b` is false, whatever the cells and the offsets. -/
theorem different_bounds_never_equal (a b : gol_board)
    (h : (get_game_bounds a).upperX ≠ (get_game_bounds b).upperX ∨
      (get_game_bounds a).lowerX ≠ (get_game_bounds b).lowerX ∨
      (get_game_bounds a).upperY ≠ (get_game_bounds b).upperY ∨
      (get_game_bounds a).lowerY ≠ (get_game_bounds b).lowerY) :
    gol_same_board a b = false := by
  unfold gol_same_board
  simp only []
  rw [if_pos h]

set_option maxRecDepth 100000 in
/-- Witness of C14: two boards with the same live cells `(0,0), (1,0), (2,0)`,
one of which once held the cell `(2, 1)`. -/
theorem different_bounds_never_equal_witness :
    read_gol_board 2 1 (write_gol_board 2 1 false (write_gol_board 2 1 true blinker_board)) =
        read_gol_board 2 1 blinker_board ∧
      gol_same_board (write_gol_board 2 1 false (write_gol_board 2 1 true blinker_board))
        blinker_board = false :=
  ⟨by decide,
    different_bounds_never_equal
      (write_gol_board 2 1 false (write_gol_board 2 1 true blinker_board)) blinker_board
      (by decide)⟩

/-! ## Claims C16, C17 and C18 -/

/-- C16. Clear: after `clean_board b` every slot of every quadrant is
unallocated, every cell reads false and the bounding box is `(0, 0, 0, 0)`; the
capacities of the quadrants, the offset and the rule are unchanged. -/
theorem clear_board (b : gol_board) (x y : Int) (d : Nat) (hd : d < bb_all_dirs) :
    (clean_board b).bb_buffer d = List.replicate (size_bb_buffer b d) none ∧
      (∀ s ∈ (clean_board b).bb_buffer d, s = none) ∧
      read_gol_board x y (clean_board b) = false ∧
      get_game_bounds (clean_board b) = ⟨0, 0, 0, 0⟩ ∧
      size_bb_buffer (clean_board b) d = size_bb_buffer b d ∧
      get_offset (clean_board b) = get_offset b ∧
      get_game_rules (clean_board b) = get_game_rules b := by
  have h := clean_board_buffer b d hd
  refine ⟨h, ?_, read_gol_board_clean_board x y b, rfl, length_clean_board b d, rfl, rfl⟩
  intro s hs
  rw [h] at hs
  exact (List.mem_replicate.mp hs).2

theorem size_bb_buffer_sample_board : size_bb_buffer sample_board 3 = 4 := by
  decide

set_option maxRecDepth 100000 in
/-- Witness of C16: the south-west quadrant of `sample_board`, whose four slots
held one block with a live cell. -/
theorem clear_board_witness :
    read_gol_board (-40) 2 sample_board = true ∧
      (clean_board sample_board).bb_buffer 3 = [none, none, none, none] ∧
      read_gol_board (-40) 2 (clean_board sample_board) = false :=
  ⟨by decide,
    (clear_board sample_board (-40) 2 3 (by decide)).1.trans
      (by rw [size_bb_buffer_sample_board]; rfl),
    (clear_board sample_board (-40) 2 3 (by decide)).2.2.1⟩

/-- C17. Zero generations is the identity: `evolve_to_generation_n 0 b` returns
`b` itself (cells, bounds, offset, capacities and rule), for both values of the
verbose and iterator flags. -/
theorem evolve_zero_generations (b : gol_board) (verbose it : Bool) :
    evolve_to_generation_n 0 b verbose it = b := by
  unfold evolve_to_generation_n
  rw [if_pos rfl]

/-- C18. Evolution preserves the rule field: for every board `b`, generation
count `n` and flags, the rule of `b` after `evolve_to_generation_n` is its rule
before, and after any number `k` of iterations of the kernel loop both the
current board and the scratch board carry that rule. -/
theorem evolve_preserves_rule (n k : Nat) (b : gol_board) (verbose it : Bool) :
    get_game_rules (evolve_to_generation_n n b verbose it) = get_game_rules b ∧
      get_game_rules (set_game_rules (get_game_rules b) new_board) = get_game_rules b ∧
      get_game_rules (evolve_loop it (select_life_count (get_game_rules b)) k
        ⟨b, set_game_rules (get_game_rules b) new_board, true⟩).next_gen =
        get_game_rules b ∧
      get_game_rules (evolve_loop it (select_life_count (get_game_rules b)) k
        ⟨b, set_game_rules (get_game_rules b) new_board, true⟩).current_gen =
        get_game_rules b :=
  ⟨rule_evolve_to_generation_n n b verbose it, rfl,
    (rule_evolve_loop it _ k _ (get_game_rules b) rfl rfl).2,
    (rule_evolve_loop it _ k _ (get_game_rules b) rfl rfl).1⟩

/-! ## Claim C15 -/

/-- C15. Empty-block equivalence: when the block slot of `(x, y)` is unallocated
in `b` (and the write of `(x, y)` is without overflow of the address arithmetic
and of the buffer growth), the board
after `write_gol_board x y false b`, which grows the buffer if needed and
allocates a zeroed block, reads as `b` at every coordinate, has the same bounds,
and is equal to `b` for `gol_same_board` in both orders. -/
theorem empty_block_equivalence (b : gol_board) (x y x' y' : Int)
    (hxy : write_no_overflow x y b)
    (hslot : (b.bb_buffer (cell_address x y b).direction).getD
      (cell_address x y b).position_in_bb none = none) :
    read_gol_board x' y' (write_gol_board x y false b) = read_gol_board x' y' b ∧
      get_game_bounds (write_gol_board x y false b) = get_game_bounds b ∧
      gol_same_board b (write_gol_board x y false b) = true ∧
      gol_same_board (write_gol_board x y false b) b = true :=
  ⟨read_write_false_unallocated b x y x' y' (position_in_bb_lt_SIZE_MAX x y b hxy.1) hslot,
    board_bounds_write_false x y b,
    (gol_same_board_write_false_unallocated b x y
      (position_in_bb_lt_SIZE_MAX x y b hxy.1) hslot).1,
    (gol_same_board_write_false_unallocated b x y
      (position_in_bb_lt_SIZE_MAX x y b hxy.1) hslot).2⟩

set_option maxRecDepth 100000 in
/-- Witness of C15: the cell `(-200, 70)` of `sample_board` lies beyond the
capacity of its quadrant, so the write grows the buffer to 48 slots. -/
theorem empty_block_equivalence_witness :
    size_bb_buffer sample_board 2 = 0 ∧
      size_bb_buffer (write_gol_board (-200) 70 false sample_board) 2 = 48 ∧
      gol_same_board sample_board (write_gol_board (-200) 70 false sample_board) = true :=
  ⟨by decide, by decide,
    (empty_block_equivalence sample_board (-200) 70 0 0 (by decide) (by rfl)).2.2.1⟩

/-! ## Claim C19 -/

/-- C19. Still life: for the board whose live cells are the 2x2 block
`(0,0), (1,0), (0,1), (1,1)` under `lifeRule`, for every generation count `N`
and both values of the flags, after `evolve_to_generation_n` the live cells are
exactly those four (among the cells whose address arithmetic does not overflow)
and `gol_same_board` of the evolved board and the original is true. -/
theorem still_life_block (N : Nat) (verbose it : Bool) (x y : Int)
    (hxy : address_no_overflow x y block_board) :
    get_game_rules block_board = gol_rules.lifeRule ∧
      (read_gol_board x y (evolve_to_generation_n N block_board verbose it) = true ↔
        (x, y) ∈ [((0 : Int), (0 : Int)), (1, 0), (0, 1), (1, 1)]) ∧
      gol_same_board (evolve_to_generation_n N block_board verbose it) block_board = true ∧
      gol_same_board block_board (evolve_to_generation_n N block_board verbose it) = true := by
  have h := block_evolve_equiv N verbose it
  refine ⟨rfl, ?_, gol_same_board_of_board_equiv _ _ h,
    gol_same_board_of_board_equiv _ _ (board_equiv_symm _ _ h)⟩
  rw [read_gol_board_of_board_equiv _ _ h x y]
  exact read_block_board x y hxy

set_option maxRecDepth 100000 in
/-- Witness of C19: a thousand generations, read at the cell `(1, 1)` of the
block and at the cell `(2, 1)` next to it. -/
theorem still_life_block_witness :
    read_gol_board 1 1 (evolve_to_generation_n 1000 block_board false false) = true ∧
      read_gol_board 2 1 (evolve_to_generation_n 1000 block_board false false) = false ∧
      gol_same_board (evolve_to_generation_n 1000 block_board false false) block_board =
        true :=
  ⟨(still_life_block 1000 false false 1 1 (by decide)).2.1.mpr (by decide),
    by
      rw [← Bool.not_eq_true]
      intro h
      exact absurd ((still_life_block 1000 false false 2 1 (by decide)).2.1.mp h)
        (by decide),
    (still_life_block 1000 false false 1 1 (by decide)).2.2.1⟩

/-! ## Claim C20 -/

/-- C20. Blinker: starting from the board whose live cells are
`(0,0), (1,0), (2,0)` under `lifeRule`, after 1 generation the live cells are
exactly `(1,-1), (1,0), (1,1)`, and after 2 generations they are exactly
`(0,0), (1,0), (2,0)` again, with the bounding box of the start, so that the
evolved board is equal to the original for `gol_same_board`. The cells range
over the coordinates whose address arithmetic in the evolved board does not
overflow. -/
theorem blinker_oscillates (verbose it : Bool) (x y : Int)
    (h1 : address_no_overflow x y (evolve_to_generation_n 1 blinker_board verbose it))
    (h2 : address_no_overflow x y (evolve_to_generation_n 2 blinker_board verbose it)) :
    get_game_rules blinker_board = gol_rules.lifeRule ∧
      (read_gol_board x y (evolve_to_generation_n 1 blinker_board verbose it) = true ↔
        (x, y) ∈ [((1 : Int), (-1 : Int)), (1, 0), (1, 1)]) ∧
      (read_gol_board x y (evolve_to_generation_n 2 blinker_board verbose it) = true ↔
        (x, y) ∈ [((0 : Int), (0 : Int)), (1, 0), (2, 0)]) ∧
      get_game_bounds (evolve_to_generation_n 2 blinker_board verbose it) =
        get_game_bounds blinker_board ∧
      gol_same_board (evolve_to_generation_n 2 blinker_board verbose it) blinker_board =
        true := by
  refine ⟨rfl, ?_, ?_, (blinker_second_generation_same verbose it).1,
    (blinker_second_generation_same verbose it).2⟩
  · rw [read_of_board_equiv_apply_writes _ (set_offset (-1) 0 new_board) _
      (blinker_first_generation verbose it) (fun _ _ _ => by simp [new_board, set_offset])
      (by decide) (by decide) x y h1]
    simp only [List.mem_cons, List.mem_singleton, List.mem_nil_iff, or_false,
      exists_eq_or_imp, exists_eq_left, Prod.mk.injEq]
    constructor
    · rintro (⟨rfl, rfl⟩ | ⟨rfl, rfl⟩ | ⟨rfl, rfl⟩) <;> simp
    · rintro (⟨rfl, rfl⟩ | ⟨rfl, rfl⟩ | ⟨rfl, rfl⟩) <;> simp
  · rw [read_of_board_equiv_apply_writes _ (set_offset 0 (-1) (clean_board blinker_board)) _
      (blinker_second_generation verbose it)
      (fun d i hd => getD_clean_board blinker_board d i hd)
      (by decide) (by decide) x y h2]
    simp only [List.mem_cons, List.mem_singleton, List.mem_nil_iff, or_false,
      exists_eq_or_imp, exists_eq_left, Prod.mk.injEq]
    constructor
    · rintro (⟨rfl, rfl⟩ | ⟨rfl, rfl⟩ | ⟨rfl, rfl⟩) <;> simp
    · rintro (⟨rfl, rfl⟩ | ⟨rfl, rfl⟩ | ⟨rfl, rfl⟩) <;> simp

set_option maxRecDepth 1000000 in
/-- Witness of C20: the cell `(1, 1)` is alive after one generation and dead
after two. -/
theorem blinker_oscillates_witness :
    read_gol_board 1 1 (evolve_to_generation_n 1 blinker_board false false) = true ∧
      read_gol_board 1 1 (evolve_to_generation_n 2 blinker_board false false) = false :=
  ⟨(blinker_oscillates false false 1 1 (by decide) (by decide)).2.1.mpr (by decide),
    by
      rw [← Bool.not_eq_true]
      intro h
      exact absurd
        ((blinker_oscillates false false 1 1 (by decide) (by decide)).2.2.1.mp h)
        (by decide)⟩

/-! ## Claim C22 -/

/-- C22, counterexample. The coordinates `(INTMAX_MAX, 0)` are representable but
the product `divX * divX` of the index arithmetic leaves the signed 64-bit range;
and with the wrapped index the distinct coordinates `(0, 2 ^ 37)` and `(0, 0)`
get the same quadrant, index and in-block coordinates, the index of the first
not being its mathematical value `2 ^ 64`. -/
theorem addressing_overflows :
    fits_intmax INTMAX_MAX ∧ fits_intmax 0 ∧
      ¬ fits_intmax ((sign_fold INTMAX_MAX).tdiv 32 * (sign_fold INTMAX_MAX).tdiv 32) ∧
      ¬ index_no_overflow (sign_fold INTMAX_MAX) (sign_fold 0) ∧
      fits_intmax (2 ^ 37) ∧
      position_in_board_structure 0 (2 ^ 37) = position_in_board_structure 0 0 ∧
      diagonal_index (sign_fold 0 / 32) (sign_fold (2 ^ 37) / 32) = 2 ^ 64 ∧
      (position_in_board_structure 0 (2 ^ 37)).position_in_bb = 0 := by
  refine ⟨by decide, by decide, by decide, by decide, by decide, by decide, by decide,
    by decide⟩

/-- C22, amended. For coordinates `x, y` with `-2 ^ 36 ≤ x, y < 2 ^ 36` (offset
0) the index arithmetic of `position_in_board_structure` stays within the signed
64-bit range, the computed index is its mathematical value, and two such
coordinates with the same quadrant, index and in-block coordinates are equal;
the sign folding of a representable coordinate `z` never overflows. -/
theorem addressing_within_range (x y x' y' z : Int)
    (hx : -(2 ^ 36) ≤ x ∧ x < 2 ^ 36) (hy : -(2 ^ 36) ≤ y ∧ y < 2 ^ 36)
    (hx' : -(2 ^ 36) ≤ x' ∧ x' < 2 ^ 36) (hy' : -(2 ^ 36) ≤ y' ∧ y' < 2 ^ 36)
    (hz : fits_intmax z) :
    index_no_overflow (sign_fold x) (sign_fold y) ∧
      ((position_in_board_structure x y).position_in_bb : Int) =
        diagonal_index (sign_fold x / 32) (sign_fold y / 32) ∧
      (position_in_board_structure x y = position_in_board_structure x' y' →
        x = x' ∧ y = y') ∧
      fits_intmax (sign_fold z) ∧ (z < 0 → fits_intmax (z + 1)) := by
  obtain ⟨f1, f2, f3⟩ := index_no_overflow_of_range x y hx hy
  obtain ⟨g1, g2, g3⟩ := index_no_overflow_of_range x' y' hx' hy'
  refine ⟨f3, ?_, fun he => position_injective x y x' y' f1 f2 f3 g1 g2 g3 he,
    (sign_fold_fits z hz).1, (sign_fold_fits z hz).2⟩
  rw [position_eq_spec_position x y f3]
  unfold spec_position
  simp only [← sign_fold_eq]
  exact Int.toNat_of_nonneg (diagonal_index_nonneg _ _
    (Int.ediv_nonneg (sign_fold_nonneg x) (by norm_num))
    (Int.ediv_nonneg (sign_fold_nonneg y) (by norm_num)))

/-- Witness of C22 amended: a coordinate of the south-west quadrant in the third
shell. -/
theorem addressing_within_range_witness :
    ((position_in_board_structure (-100) (-70)).position_in_bb : Int) =
      diagonal_index (sign_fold (-100) / 32) (sign_fold (-70) / 32) ∧
    (position_in_board_structure (-100) (-70)).position_in_bb = 13 :=
  ⟨(addressing_within_range (-100) (-70) 0 0 (-1) (by decide) (by decide) (by decide)
      (by decide) (by decide)).2.1,
    by decide⟩

/-! ## Claim C23 -/

/-- C23 at a failing input. `add_comment` stores the terminator at index
`size - 1`: for the text `ab` the new comment buffer is `a`, NUL and one
uninitialised byte, so the comment reads `a` and not `ab`, whereas `set_author`
stores the terminator at index `size` and keeps the whole text; the number of
comments grows by one and the earlier comment is kept. -/
theorem add_comment_drops_last_byte :
    (add_comment [97, 98] new_game).num_comments = new_game.num_comments + 1 ∧
      (add_comment [97, 98] new_game).comments = [[some 97, some 0, none]] ∧
      c_string (add_comment_buffer [97, 98]) = some [97] ∧
      c_string (set_string_buffer [97, 98]) = some [97, 98] ∧
      (set_author [97, 98] new_game).authorName = some [some 97, some 98, some 0] ∧
      (add_comment [99] (add_comment [97, 98] new_game)).comments =
        [[some 97, some 0, none], [some 0, none]] ∧
      (add_comment [] new_game).comments = [[none]] ∧
      c_string (add_comment_buffer []) = none := by
  refine ⟨by decide, by decide, by decide, by decide, by decide, by decide, by decide,
    by decide⟩

/-! ## Claims C24, C25 and C26 -/

/-- C24. Address decomposition matches the specified formula: for every
coordinate `(x, y)` whose index arithmetic does not overflow,
`position_in_board_structure` returns the quadrant given by the signs, the
in-block coordinates `(x' mod 32, y' mod 32)` of the folded coordinates and the
diagonal index of `(x' / 32, y' / 32)` (branching on `bx < by`), although the
code branches on `x' < y'`. -/
theorem address_decomposition (x y : Int)
    (h : index_no_overflow (sign_fold x) (sign_fold y)) :
    position_in_board_structure x y = spec_position x y :=
  position_eq_spec_position x y h

/-- Witness of C24: a cell with `x' < y'` and equal block-grid coordinates, where
the two branch conditions differ. -/
theorem address_decomposition_witness :
    sign_fold 33 < sign_fold (-40) ∧ ¬ (sign_fold 33 / 32 < sign_fold (-40) / 32) ∧
      position_in_board_structure 33 (-40) = spec_position 33 (-40) :=
  ⟨by decide, by decide, address_decomposition 33 (-40) (by decide)⟩

/-- C25. The diagonal index enumerates square shells bijectively: the map from
block-grid coordinates to indices is a bijection of the pairs of naturals onto
the naturals, a pair of shell `s = max bx by` has its index between `s * s` and
`(s + 1) * (s + 1) - 1`; hence `position_in_board_structure` is injective on the
coordinates whose arithmetic does not overflow. -/
theorem diagonal_enumeration :
    Function.Bijective diagonal_index_nat ∧
      (∀ p : Nat × Nat, max p.1 p.2 * max p.1 p.2 ≤ diagonal_index_nat p ∧
        diagonal_index_nat p ≤ (max p.1 p.2 + 1) * (max p.1 p.2 + 1) - 1) ∧
      (∀ x y x' y' : Int, fits_intmax x → fits_intmax y →
        index_no_overflow (sign_fold x) (sign_fold y) → fits_intmax x' → fits_intmax y' →
        index_no_overflow (sign_fold x') (sign_fold y') →
        position_in_board_structure x y = position_in_board_structure x' y' →
        x = x' ∧ y = y') :=
  ⟨⟨diagonal_index_nat_injective, diagonal_index_nat_surjective⟩, diagonal_index_nat_shell,
    position_injective⟩

/-- Witness of C25: the shell 3 and two concrete coordinates. -/
theorem diagonal_enumeration_witness :
    (9 ≤ diagonal_index_nat (3, 1) ∧ diagonal_index_nat (3, 1) ≤ 15) ∧
      (position_in_board_structure 5 (-3) = position_in_board_structure 5 (-3) →
        (5 : Int) = 5 ∧ (-3 : Int) = -3) :=
  ⟨diagonal_enumeration.2.1 (3, 1),
    diagonal_enumeration.2.2 5 (-3) 5 (-3) (by decide) (by decide) (by decide) (by decide)
      (by decide) (by decide)⟩

/-- C26. A write touches one cell only: for coordinates `(x, y) ≠ (x', y')`,
the write of `(x, y)` without overflow of the address arithmetic or of the
buffer growth and the address of `(x', y')` without overflow, the read of
`(x', y')` is the same before and after `write_gol_board x y v b`; the offset
and the rule of `b` are unchanged. -/
theorem write_touches_one_cell (b : gol_board) (v : Bool) (x y x' y' : Int)
    (hxy : write_no_overflow x y b) (hxy' : address_no_overflow x' y' b)
    (hne : ¬ (x = x' ∧ y = y')) :
    read_gol_board x' y' (write_gol_board x y v b) = read_gol_board x' y' b ∧
      get_offset (write_gol_board x y v b) = get_offset b ∧
      get_game_rules (write_gol_board x y v b) = get_game_rules b := by
  refine ⟨?_, ?_, rule_write_gol_board x y v b⟩
  · rw [read_gol_board_write_gol_board b x y x' y' v (position_in_bb_lt_SIZE_MAX x y b hxy.1)]
    have hc : ¬ cell_address x' y' b = cell_address x y b := by
      intro hc
      have := cell_address_injective x' y' x y b hxy' hxy.1 hc
      exact hne ⟨this.1.symm, this.2.symm⟩
    rw [if_neg hc]
  · unfold get_offset
    rw [offsetX_write_gol_board, offsetY_write_gol_board]

set_option maxRecDepth 100000 in
/-- Witness of C26: the dead neighbour `(6, -3)` of the live cell `(5, -3)` of
`sample_board`, in the same block, is written alive; the cell `(5, -3)` still
reads alive and its other neighbour `(4, -3)` still reads dead. -/
theorem write_touches_one_cell_witness :
    read_gol_board 6 (-3) sample_board = false ∧
      read_gol_board 6 (-3) (write_gol_board 6 (-3) true sample_board) = true ∧
      read_gol_board 5 (-3) sample_board = true ∧
      read_gol_board 5 (-3) (write_gol_board 6 (-3) true sample_board) =
        read_gol_board 5 (-3) sample_board ∧
      read_gol_board 4 (-3) (write_gol_board 6 (-3) true sample_board) = false :=
  ⟨by decide, by decide, by decide,
    (write_touches_one_cell sample_board true 6 (-3) 5 (-3) (by decide) (by decide)
      (by decide)).1,
    by decide⟩

/-! ## Claims C27 and C30 -/

set_option maxRecDepth 1000000 in
/-- C27 at a failing input. After one generation the blinker has the bounds
`upperY = 1`, `lowerY = -1`; in the second generation step `center_offset` sets
the offset of the scratch board to `(-(upperX - lowerX) / 2, -(upperY - lowerY) / 2)
= (0, -1)`, and the box shifted by it is `-2 .. 0` on the y axis: the sum of its
ends is `-2`, the box is moved away from the origin instead of being centered. -/
theorem recentering_not_centered :
    get_game_bounds (evolve_to_generation_n 1 blinker_board false false) = ⟨1, 1, 0, -1⟩ ∧
      get_offset (center_offset
        (get_game_bounds (evolve_to_generation_n 1 blinker_board false false))
        (clean_board blinker_board)) = (0, -1) ∧
      get_offset (evolve_to_generation_n 2 blinker_board false false) = (0, -1) ∧
      ((get_game_bounds (evolve_to_generation_n 1 blinker_board false false)).lowerY + -1) +
        ((get_game_bounds (evolve_to_generation_n 1 blinker_board false false)).upperY + -1)
        = -2 := by
  refine ⟨by decide, by decide, by decide, by decide⟩

set_option maxRecDepth 100000 in
/-- C30 at a failing input. Three boards reachable from the new board by writes,
all with offset 0 and the bounds `(0, 0, 0, 0)`: `gol_same_board` holds between
the board with the live cell `(0, 0)` and the new board, and between the new
board and the board whose block is allocated and empty, but not between the
first and the third: the relation is not transitive. -/
theorem same_board_not_transitive :
    gol_same_board origin_cell_board new_board = true ∧
      gol_same_board new_board dead_origin_board = true ∧
      gol_same_board origin_cell_board dead_origin_board = false ∧
      get_offset origin_cell_board = get_offset new_board ∧
      get_offset dead_origin_board = get_offset new_board ∧
      gol_same_board origin_cell_board origin_cell_board = true ∧
      gol_same_board new_board origin_cell_board = true := by
  refine ⟨by decide, by decide, by decide, rfl, rfl, by decide, by decide⟩

/-! ## Claim C21 -/

/-- C21. Lonely cell dies: for every coordinate `(x, y)` whose write into the
new board is without overflow (address arithmetic and buffer growth,
`index + 1 < 2 ^ 61`) and with `x ± 2` and `y ± 2` representable, the board
`single_cell_board x y` has the rule `lifeRule`, its only live cell is `(x, y)`
(among the coordinates without overflow), and after `evolve_to_generation_n 1`
with the full scan the read of every coordinate `(p, q)` is false. -/
theorem lonely_cell_dies (x y : Int) (hw : write_no_overflow x y new_board)
    (hx : fits_intmax (x - 2) ∧ fits_intmax (x + 2))
    (hy : fits_intmax (y - 2) ∧ fits_intmax (y + 2)) (verbose : Bool) :
    get_game_rules (single_cell_board x y) = gol_rules.lifeRule ∧
      (∀ p q : Int, address_no_overflow p q new_board →
        (read_gol_board p q (single_cell_board x y) = true ↔ p = x ∧ q = y)) ∧
      ∀ p q : Int,
        read_gol_board p q (evolve_to_generation_n 1 (single_cell_board x y) verbose false) =
          false :=
  ⟨(rule_write_gol_board x y true new_board).trans rfl,
    fun p q hpq => read_single_cell_board x y p q hw.1 hpq,
    fun p q => read_evolve_single_cell_board x y hx hy verbose p q⟩

/-- Witness of C21: the lonely cell `(5, -3)` is alive before and dead after one
generation. -/
theorem lonely_cell_dies_witness :
    read_gol_board 5 (-3) (single_cell_board 5 (-3)) = true ∧
      read_gol_board 5 (-3) (evolve_to_generation_n 1 (single_cell_board 5 (-3)) false false) =
        false :=
  ⟨by decide, (lonely_cell_dies 5 (-3) (by decide) (by decide) (by decide) false).2.2 5 (-3)⟩

/-! ## Claim C28 -/

/-- C28. Capacity invariant: after any sequence `ops` of `write_gol_board` and
`clean_board` calls on `new_board` (writes without overflow of the address
arithmetic or of the buffer growth, `index + 1 < 2 ^ 61`), the capacity of
quadrant `d` is `written_capacity`, one more than the largest index written in
the quadrant and 0 when it was never written; a write at index `i` of a board
`b` sets the capacity of its quadrant to `max (old capacity) (i + 1)`, keeps the
other capacities, allocates slot `i` and leaves every other newly added slot
unallocated; `clean_board` keeps every capacity. -/
theorem capacity_invariant (ops : List board_op) (d : Nat)
    (h : ops_no_overflow ops new_board) :
    size_bb_buffer (apply_ops ops new_board) d = written_capacity ops new_board d ∧
      (∀ (b : gol_board) (x y : Int) (v : Bool), write_no_overflow x y b →
        size_bb_buffer (write_gol_board x y v b) (cell_address x y b).direction =
          max (size_bb_buffer b (cell_address x y b).direction)
            ((cell_address x y b).position_in_bb + 1) ∧
        (∀ d2 : Nat, d2 ≠ (cell_address x y b).direction →
          size_bb_buffer (write_gol_board x y v b) d2 = size_bb_buffer b d2) ∧
        ((write_gol_board x y v b).bb_buffer (cell_address x y b).direction).getD
          (cell_address x y b).position_in_bb none ≠ none ∧
        (∀ j : Nat, size_bb_buffer b (cell_address x y b).direction ≤ j →
          j < size_bb_buffer (write_gol_board x y v b) (cell_address x y b).direction →
          j ≠ (cell_address x y b).position_in_bb →
          ((write_gol_board x y v b).bb_buffer (cell_address x y b).direction)[j]? =
            some none)) ∧
      (∀ b : gol_board, size_bb_buffer (clean_board b) d = size_bb_buffer b d) := by
  refine ⟨size_apply_ops ops new_board d h rfl, ?_, fun b => length_clean_board b d⟩
  intro b x y v hxy
  have hidx := position_in_bb_lt_SIZE_MAX x y b hxy.1
  refine ⟨?_, ?_, getD_write_gol_board_written_slot x y v b hxy.1,
    fun j h1 h2 h3 => getElem?_write_gol_board_new_slot x y v b j h1 h2 h3⟩
  · rw [length_write_gol_board x y v b _ hidx, if_pos rfl, max_comm]
  · intro d2 hd2
    rw [length_write_gol_board x y v b _ hidx, if_neg hd2]

set_option maxRecDepth 100000 in
/-- Witness of C28: after `sample_ops` the north-east quadrant has 3 slots (the
index 2 of the block `(1, 1)` was written) although the board was cleared. -/
theorem capacity_invariant_witness :
    size_bb_buffer (apply_ops sample_ops new_board) 0 =
        written_capacity sample_ops new_board 0 ∧
      written_capacity sample_ops new_board 0 = 3 :=
  ⟨(capacity_invariant sample_ops 0 (by
      intro op hop
      simp only [sample_ops, List.mem_cons, List.mem_singleton, List.not_mem_nil,
        or_false] at hop
      rcases hop with rfl | rfl | rfl | rfl
      · exact (by decide : write_no_overflow 40 40 new_board)
      · exact (by decide : write_no_overflow 3 3 new_board)
      · exact True.intro
      · exact (by decide : write_no_overflow (-1) 70 new_board))).1,
    by decide⟩

/-! ## Claim C29 -/

/-- C29. The offset is transparent to logical coordinates: for every offset
`(ox, oy)` set on the new board and every sequence `ws` of writes (no overflow
of the address arithmetic or of the buffer growth, `index + 1 < 2 ^ 61`, with
either offset), the read of `(x, y)` and the bounding box after the writes
are the same as with the offset `(0, 0)`: the value of the last write at
`(x, y)` and the box `bounds_after`; changing the offset to `(ox2, oy2)` after
the writes makes the read of `(p, q)` the former read of
`(p + ox2 - ox, q + oy2 - oy)` and keeps the bounds. -/
theorem offset_transparent (ws : List (Int × Int × Bool)) (ox oy x y : Int)
    (hws : ∀ w ∈ ws, write_no_overflow w.1 w.2.1 (set_offset ox oy new_board))
    (hws0 : ∀ w ∈ ws, write_no_overflow w.1 w.2.1 new_board)
    (hxy : address_no_overflow x y (set_offset ox oy new_board))
    (hxy0 : address_no_overflow x y new_board) :
    read_gol_board x y (apply_writes ws (set_offset ox oy new_board)) =
        read_gol_board x y (apply_writes ws new_board) ∧
      read_gol_board x y (apply_writes ws (set_offset ox oy new_board)) = last_write ws x y ∧
      get_game_bounds (apply_writes ws (set_offset ox oy new_board)) =
        get_game_bounds (apply_writes ws new_board) ∧
      get_game_bounds (apply_writes ws (set_offset ox oy new_board)) =
        bounds_after ws ⟨0, 0, 0, 0⟩ ∧
      get_offset (apply_writes ws (set_offset ox oy new_board)) = (ox, oy) ∧
      ∀ ox2 oy2 p q : Int,
        read_gol_board p q (set_offset ox2 oy2 (apply_writes ws (set_offset ox oy new_board))) =
            read_gol_board (p + ox2 - ox) (q + oy2 - oy)
              (apply_writes ws (set_offset ox oy new_board)) ∧
          get_game_bounds (set_offset ox2 oy2 (apply_writes ws (set_offset ox oy new_board))) =
            get_game_bounds (apply_writes ws (set_offset ox oy new_board)) := by
  have r1 := read_apply_writes_last_write ws ox oy (fun w hw => (hws w hw).1) x y hxy
  have r0 := read_apply_writes_last_write ws 0 0 (fun w hw => (hws0 w hw).1) x y hxy0
  have e0 : set_offset 0 0 new_board = new_board := rfl
  rw [e0] at r0
  have o := offsets_apply_writes ws (set_offset ox oy new_board)
  have ho1 : (apply_writes ws (set_offset ox oy new_board)).offsetX = ox := o.1
  have ho2 : (apply_writes ws (set_offset ox oy new_board)).offsetY = oy := o.2
  refine ⟨r1.trans r0.symm, r1, ?_, bounds_apply_writes ws _, ?_, ?_⟩
  · rw [bounds_apply_writes, bounds_apply_writes]
    rfl
  · unfold get_offset
    rw [ho1, ho2]
  · intro ox2 oy2 p q
    refine ⟨?_, rfl⟩
    rw [read_gol_board_set_offset, ho1, ho2]

set_option maxRecDepth 100000 in
/-- Witness of C29: `sample_writes` with the offset `(7, -9)`; the cell
`(5, -3)` was written alive and then dead, the cell `(-40, 2)` was written
alive. -/
theorem offset_transparent_witness :
    read_gol_board 5 (-3) (apply_writes sample_writes (set_offset 7 (-9) new_board)) =
        read_gol_board 5 (-3) (apply_writes sample_writes new_board) ∧
      read_gol_board 5 (-3) (apply_writes sample_writes (set_offset 7 (-9) new_board)) = false ∧
      read_gol_board (-40) 2 (apply_writes sample_writes (set_offset 7 (-9) new_board)) = true ∧
      read_gol_board (-40) 2 (apply_writes sample_writes new_board) = true :=
  ⟨(offset_transparent sample_writes 7 (-9) 5 (-3) (by decide) (by decide) (by decide)
      (by decide)).1,
    by decide, by decide, by decide⟩

/-! ## Claim C31 -/

/-- C31. The bounding box always contains the origin: for every board `b`
reachable from `new_board` by `write_gol_board`, `clean_board`, `gol_copy_board`,
`gol_swap_board`, `evolve_to_generation_n` (and the two setters),
`lowerX ≤ 0 ≤ upperX` and `lowerY ≤ 0 ≤ upperY`; consequently, when every live
cell lies strictly on one side of an axis, the edge of the box on the other side
holds no live cell: the box is not tight. -/
theorem bounding_box_contains_origin (b : gol_board) (h : reachable_board b) :
    contains_origin (get_game_bounds b) ∧
      ((∀ p q : Int, read_gol_board p q b = true → 0 < p) →
        ∀ q : Int, read_gol_board (get_game_bounds b).lowerX q b = false) ∧
      ((∀ p q : Int, read_gol_board p q b = true → p < 0) →
        ∀ q : Int, read_gol_board (get_game_bounds b).upperX q b = false) ∧
      ((∀ p q : Int, read_gol_board p q b = true → 0 < q) →
        ∀ p : Int, read_gol_board p (get_game_bounds b).lowerY b = false) ∧
      ((∀ p q : Int, read_gol_board p q b = true → q < 0) →
        ∀ p : Int, read_gol_board p (get_game_bounds b).upperY b = false) := by
  have hb := contains_origin_of_reachable b h
  refine ⟨hb, ?_, ?_, ?_, ?_⟩
  · intro hl q
    cases hr : read_gol_board (get_game_bounds b).lowerX q b
    · rfl
    · have := hl _ _ hr
      unfold contains_origin at hb
      omega
  · intro hl q
    cases hr : read_gol_board (get_game_bounds b).upperX q b
    · rfl
    · have := hl _ _ hr
      unfold contains_origin at hb
      omega
  · intro hl p
    cases hr : read_gol_board p (get_game_bounds b).lowerY b
    · rfl
    · have := hl _ _ hr
      unfold contains_origin at hb
      omega
  · intro hl p
    cases hr : read_gol_board p (get_game_bounds b).upperY b
    · rfl
    · have := hl _ _ hr
      unfold contains_origin at hb
      omega

/-- Witness of C31: the board with the single live cell `(5, -3)` has the box
`0 .. 5` by `-3 .. 0`, not the tight box of the cell. -/
theorem bounding_box_contains_origin_witness :
    get_game_bounds (single_cell_board 5 (-3)) = ⟨5, 0, 0, -3⟩ ∧
      contains_origin (get_game_bounds (single_cell_board 5 (-3))) :=
  ⟨by decide,
    (bounding_box_contains_origin (single_cell_board 5 (-3))
      (reachable_board.write 5 (-3) true new_board reachable_board.new)).1⟩

/-! ## Claim C32 -/

/-- C32 at a failing input. For the empty comment `add_comment` allocates one
byte and stores the terminator at index `size - 1 = SIZE_MAX`, outside the
indices `0 .. 0` of the buffer. The empty comment arises in the program: the
one-character comment `a` is stored as the empty string, which `clone_metadata`
hands to `add_comment` again. For a non-empty comment every written index is
within `0 .. size`. -/
theorem add_comment_writes_outside_buffer :
    add_comment_alloc [] = 1 ∧ add_comment_writes [] = [SIZE_MAX] ∧
      ¬ (∀ i ∈ add_comment_writes [], i ≤ ([] : List Nat).length) ∧
      c_string (add_comment_buffer [97]) = some [] ∧
      ∀ c : List Nat, c ≠ [] → c.length < SIZE_MAX →
        ∀ i ∈ add_comment_writes c, i ≤ c.length ∧ i < add_comment_alloc c := by
  refine ⟨by decide, by decide, by decide, by decide, ?_⟩
  intro c hc hlen i hi
  have hpos : 0 < c.length := List.length_pos.mpr hc
  unfold add_comment_writes at hi
  unfold add_comment_alloc
  unfold wrap_size SIZE_MAX at *
  rw [List.mem_append, List.mem_range, List.mem_singleton] at hi
  omega

/-! ## Claim C33 -/

set_option maxRecDepth 1000000 in
/-- C33 at a failing input. For the column of the 35 live cells `(0, 0)` ..
`(0, 34)` the cell grid of `dump_rle` is one line of exactly 69 characters, and
since `num_written_in_line > 68` the function prints only a line break: the text
does not end with the marker `!`. The text of the blinker does. In general the
text of `dump_rle` ends with `!` and a line break exactly when the last line of
the grid has at most 68 characters. -/
theorem dump_rle_omits_marker :
    (dump_rle_grid column_board).num_written_in_line = 69 ∧
      dump_rle column_game =
        some ("x = 1, y = 35, rule = B3/S23".toList ++ ['\n'] ++
          "o$o$o$o$o$o$o$o$o$o$o$o$o$o$o$o$o$o$o$o$o$o$o$o$o$o$o$o$o$o$o$o$o$o$o".toList ++
          ['\n']) ∧
      (dump_rle column_game).map ends_with_marker = some false ∧
      dump_rle blinker_game =
        some ("x = 3, y = 1, rule = B3/S23".toList ++ ['\n'] ++ "3o!".toList ++ ['\n']) ∧
      ∀ (b : gol_game) (t : List Char), dump_rle b = some t →
        (ends_with_marker t = true ↔ (dump_rle_grid b.board).num_written_in_line ≤ 68) := by
  refine ⟨by decide, by decide, by decide, by decide, ends_with_marker_dump_rle⟩


end Gol
